import Mathlib

/-!
ScoreBench: baseball score programs 1 to 12

A shallow embedding of the twelve C programs of the repository and the
properties of their summation engine (partition into lanes, scalar and 8-wide
workers, dispatch between the in-thread and the threaded path, aggregation).

Conventions of the embedding.

* A C `int` is an `Int`; every `int` addition and multiplication of the source
  is followed by `wrap32`, the wrap-around of a 32-bit two-complement
  register (what `_mm256_add_epi32` does per lane and what the x86 `add`
  instruction does for the scalar sums).
* The `records` buffer is a function from element index to `int`.  Its contents
  before a call (zero or left by an earlier call for the `static` buffers,
  anything for the automatic ones) are a parameter `mem` of every `calPoints`.
* A store at an index that is not below `MAX_OPERATIONS` is reported as
  `Outcome.outOfBounds`, a division or remainder by zero as
  `Outcome.divisionByZero`.
* Indices and counts are natural numbers: they are never negative in the source
  and stay far below 2^31 for inputs that fit the buffers.
* Threads started with `pthread_create` are assumed to start (`forkJoinCreate`
  apart, where a call may fail); they run the
  worker on their own descriptor, read the shared buffer only, and are joined
  before their result is read, so they are run one after the other here.
* Every worker of the repository ends with `pthread_exit(NULL)`.  A worker
  therefore hands back the descriptor as it is at that call together with
  `Control.pthreadExit`; what that means for the code after the call depends on
  whether the worker ran in a thread of its own or was called directly.
* `_mm256_load_si256` needs a 32-byte aligned address.  The buffer base is taken
  to be 32-byte aligned, so the load at element index `i` is aligned exactly
  when `i % 8 = 0`; otherwise the load faults (`Outcome.misaligned`).  The
  compiler-placed local `sumArray` is taken to be aligned.
-/

/-! ## Machine integers -/

/-- Wrap-around of a 32-bit signed register (two-complement). -/
def wrap32 (x : Int) : Int := (x + 2147483648) % 4294967296 - 2147483648

/-- The value is representable as a signed 32-bit integer. -/
def InRange32 (x : Int) : Prop := -2147483648 ≤ x ∧ x < 2147483648

instance (x : Int) : Decidable (InRange32 x) := by
  unfold InRange32; infer_instance

/-! ## Tokens and the C library calls made on them -/

/-- An operation token: the characters of a NUL-terminated C string. -/
abbrev Token := String

/-- The C expression `ops[i][k]`: the character at offset `k`, the terminating NUL
at the end of the string. -/
def charAt (t : Token) (k : Nat) : Char := t.data.getD k (Char.ofNat 0)

/-- The C library `isdigit` on a character of the basic character set. -/
def isdigit (c : Char) : Bool := decide (48 ≤ c.toNat) && decide (c.toNat ≤ 57)

/-- The C library `isspace` in the "C" locale: space, and `\t \n \v \f \r`. -/
def isspace (c : Char) : Bool :=
  c.toNat == 32 || (decide (9 ≤ c.toNat) && decide (c.toNat ≤ 13))

/-- The decimal value of the leading digits of a string, continuing from `acc`. -/
def digitsVal : List Char → Int → Int
  | [], acc => acc
  | c :: cs, acc => if isdigit c then digitsVal cs (acc * 10 + ((c.toNat : Int) - 48)) else acc

/-- The C library `atoi`: skip white space, read an optional sign and the decimal
digits that follow, stop at the first other character; no digits gives 0.  The
result is an `int`; a literal outside the `int` range (undefined in C) is
truncated to 32 bits here. -/
def atoi (t : Token) : Int :=
  match t.data.dropWhile isspace with
  | '-' :: rest => wrap32 (-(digitsVal rest 0))
  | '+' :: rest => wrap32 (digitsVal rest 0)
  | s => wrap32 (digitsVal s 0)

/-- The test `isdigit(ops[i][0]) || (ops[i][0] == '-' && isdigit(ops[i][1]))` of
programs 1, 2, 3, 5, 6, 7 and 8. -/
def isNumber (t : Token) : Bool :=
  isdigit (charAt t 0) || (charAt t 0 == '-' && isdigit (charAt t 1))

/-- The test `ops[i][0] >= '0' && ops[i][0] <= '9'` of program 4. -/
def startsWithDigit (t : Token) : Bool :=
  decide (48 ≤ (charAt t 0).toNat) && decide ((charAt t 0).toNat ≤ 57)

/-! ## The records buffer -/

/-- The assignment `records[i] = v`. -/
def store (records : Nat → Int) (i : Nat) (v : Int) : Nat → Int :=
  fun j => if j = i then v else records j

/-- The variables of the token loop: the buffer and `index`, the next free slot. -/
structure RecState where
  records : Nat → Int
  index : Nat

/-- The statement `records[index++] = v` (also written `records[index] = v; index++`)
on a buffer of `cap` elements. -/
def push (cap : Nat) (s : RecState) (v : Int) : Option RecState :=
  if s.index < cap then some ⟨store s.records s.index v, s.index + 1⟩ else none

/-- The loop `for (int i = 0; i < size; i++)` over the tokens, with the loop body
`body`; it stops at the first out-of-bounds store. -/
def forOps (body : RecState → Token → Option RecState) : List Token → RecState → Option RecState
  | [], s => some s
  | t :: ts, s =>
    match body s t with
    | some s1 => forOps body ts s1
    | none => none

/-- Loop body of programs 3, 5 and 6 (program 1 nests the `index` tests inside the
`strcmp` branches, with the same effect): a number is recorded, `C` drops the last
record, `D` records the double of the last one, `+` the sum of the last two; a token
that matches no branch is skipped. -/
def scoreStep (cap : Nat) (s : RecState) (t : Token) : Option RecState :=
  if isNumber t then push cap s (atoi t)
  else if t = "C" ∧ s.index > 0 then some ⟨s.records, s.index - 1⟩
  else if t = "D" ∧ s.index > 0 then push cap s (wrap32 (2 * s.records (s.index - 1)))
  else if t = "+" ∧ s.index > 1 then
    push cap s (wrap32 (s.records (s.index - 1) + s.records (s.index - 2)))
  else some s

/-- Loop body of program 4: as `scoreStep`, but a number is recognised by its first
character being a digit only. -/
def scoreStep4 (cap : Nat) (s : RecState) (t : Token) : Option RecState :=
  if startsWithDigit t then push cap s (atoi t)
  else if t = "C" ∧ s.index > 0 then some ⟨s.records, s.index - 1⟩
  else if t = "D" ∧ s.index > 0 then push cap s (wrap32 (2 * s.records (s.index - 1)))
  else if t = "+" ∧ s.index > 1 then
    push cap s (wrap32 (s.records (s.index - 1) + s.records (s.index - 2)))
  else some s

/-- Loop body of programs 7 and 8: numbers are recorded, every other token is skipped. -/
def numberStep (cap : Nat) (s : RecState) (t : Token) : Option RecState :=
  if isNumber t then push cap s (atoi t) else some s

/-- Loop body of programs 10, 11 and 12: `records[index++] = atoi(ops[i])` for every
token. -/
def atoiStep (cap : Nat) (s : RecState) (t : Token) : Option RecState :=
  push cap s (atoi t)

/-! ## Scalar and vector loops -/

/-- The loop `for (; i < end; i++) sum += records[i];` entered with the given `i` and
`sum`; the result is the final `sum`.  The first argument bounds the number of
iterations; `end - i` is always enough, each iteration moving `i` one step towards
`end`. -/
def addLoop (records : Nat → Int) (stop : Nat) : Nat → Nat → Int → Int
  | 0, _, sum => sum
  | fuel + 1, i, sum =>
    if i < stop then addLoop records stop fuel (i + 1) (wrap32 (sum + records i)) else sum

/-- A 256-bit register seen as eight 32-bit lanes. -/
abbrev Vec8 := Fin 8 → Int

/-- The intrinsic `_mm256_setzero_si256`. -/
def mm256_setzero_si256 : Vec8 := fun _ => 0

/-- The intrinsic `_mm256_loadu_si256` at `&records[i]`: the eight elements from `i` on. -/
def mm256_loadu_si256 (records : Nat → Int) (i : Nat) : Vec8 := fun k => records (i + k.val)

/-- The intrinsic `_mm256_load_si256` at `&records[i]`: as the unaligned load when the
address is 32-byte aligned, a fault otherwise. -/
def mm256_load_si256 (records : Nat → Int) (i : Nat) : Option Vec8 :=
  if i % 8 = 0 then some (mm256_loadu_si256 records i) else none

/-- The intrinsic `_mm256_add_epi32`: lane-wise 32-bit addition. -/
def mm256_add_epi32 (a b : Vec8) : Vec8 := fun k => wrap32 (a k + b k)

/-- The intrinsics `_mm256_storeu_si256` and `_mm256_store_si256` into the local
`int sumArray[8]`: the array that results. -/
def mm256_storeu_si256 (v : Vec8) : Nat → Int := fun k => if h : k < 8 then v ⟨k, h⟩ else 0

/-- The loop `for (i = start; i + 7 < end; i += 8)` that loads eight elements with the
unaligned load and adds them to `sumVec`; the result is the final `i` and `sumVec`.
The first argument bounds the number of iterations; `end - i` is always enough. -/
def vecLoop (records : Nat → Int) (stop : Nat) : Nat → Nat → Vec8 → Nat × Vec8
  | 0, i, sumVec => (i, sumVec)
  | fuel + 1, i, sumVec =>
    if i + 7 < stop then
      vecLoop records stop fuel (i + 8) (mm256_add_epi32 sumVec (mm256_loadu_si256 records i))
    else (i, sumVec)

/-- The same loop with the aligned load `_mm256_load_si256`; `none` when a load faults. -/
def vecLoopAligned (records : Nat → Int) (stop : Nat) : Nat → Nat → Vec8 → Option (Nat × Vec8)
  | 0, i, sumVec => some (i, sumVec)
  | fuel + 1, i, sumVec =>
    if i + 7 < stop then
      match mm256_load_si256 records i with
      | some values => vecLoopAligned records stop fuel (i + 8) (mm256_add_epi32 sumVec values)
      | none => none
    else some (i, sumVec)

/-- The expression `sumArray[0] + sumArray[1] + ... + sumArray[7]`, added left to right. -/
def sumOfArray (sumArray : Nat → Int) : Int :=
  wrap32 (wrap32 (wrap32 (wrap32 (wrap32 (wrap32 (wrap32 (sumArray 0 + sumArray 1)
    + sumArray 2) + sumArray 3) + sumArray 4) + sumArray 5) + sumArray 6) + sumArray 7)

/-! ## Lane descriptors, threads and outcomes -/

/-- The struct `ThreadData` without its `records` pointer (every lane points to the one
buffer, which is passed along).  `end_` is the field `end`; `result` is called
`partial_sum` in program 12; `numa_node` exists in programs 10, 11 and 12 only and is
0 elsewhere. -/
structure ThreadData where
  start : Nat
  end_ : Nat
  result : Int
  numa_node : Nat
deriving DecidableEq

/-- How a function body ends: by falling off its end or a `return`, or by
`pthread_exit`, which does not give control back to the caller. -/
inductive Control where
  | returns
  | pthreadExit
deriving DecidableEq

/-- What a call of `calPoints` does, seen from its caller. -/
inductive Outcome where
  /-- The call returns this `int`. -/
  | returned (v : Int)
  /-- The calling thread is ended by `pthread_exit` inside the call: nothing is returned. -/
  | threadExit
  /-- A store past the end of `records`. -/
  | outOfBounds
  /-- An aligned load from an address that is not 32-byte aligned. -/
  | misaligned
  /-- An integer division or remainder by zero. -/
  | divisionByZero
  /-- A `pthread_join` on a handle that no successful `pthread_create` has set, followed
  by a read of a `result` that no thread has written: undefined behaviour. -/
  | joinOfUnsetThread
deriving DecidableEq

/-- The statements `worker(&data); return data.result;` of the in-thread path, given
what the worker did: the `return` is reached only if the worker gave control back. -/
def callThenReturn (r : ThreadData × Control) : Outcome :=
  match r with
  | (data, Control.returns) => Outcome.returned data.result
  | (_, Control.pthreadExit) => Outcome.threadExit

/-- The descriptor filled in for lane `i` by the first loop of the threaded path:
`start = i * mid`, `end = (i == NUM_THREADS - 1) ? index : (i + 1) * mid` with
`mid = index / NUM_THREADS`; `result` is not set by the loop (0 here). -/
def laneData (NUM_THREADS index : Nat) (numa : Nat → Nat) (i : Nat) : ThreadData :=
  { start := i * (index / NUM_THREADS),
    end_ := if i = NUM_THREADS - 1 then index else (i + 1) * (index / NUM_THREADS),
    result := 0,
    numa_node := numa i }

/-- The descriptors `data[0 .. NUM_THREADS)` after the first loop. -/
def lanes (NUM_THREADS index : Nat) (numa : Nat → Nat) : List ThreadData :=
  (List.range NUM_THREADS).map (laneData NUM_THREADS index numa)

/-- The second loop: `totalSum = 0;` then, lane after lane, `pthread_join` and
`totalSum += data[i].result`. -/
def joinAndAdd (data : List ThreadData) : Int :=
  data.foldl (fun totalSum d => wrap32 (totalSum + d.result)) 0

/-- The threaded path with a worker that cannot fault: `index / NUM_THREADS` is computed
(a division by zero if there were no lane), the thread of every lane runs the worker on
its descriptor up to its `pthread_exit`, then the results are added. -/
def forkJoin (worker : ThreadData → ThreadData × Control) (NUM_THREADS index : Nat)
    (numa : Nat → Nat) : Outcome :=
  if NUM_THREADS = 0 then Outcome.divisionByZero
  else
    Outcome.returned (joinAndAdd ((lanes NUM_THREADS index numa).map (fun d => (worker d).1)))

/-- The descriptors after all threads ran a worker that can fault; `none` when one did. -/
def runFaulting (worker : ThreadData → Option (ThreadData × Control)) :
    List ThreadData → Option (List ThreadData)
  | [] => some []
  | d :: ds =>
    match worker d, runFaulting worker ds with
    | some r, some rs => some (r.1 :: rs)
    | _, _ => none

/-- The threaded path with a worker that can fault on an aligned load. -/
def forkJoinFaulting (worker : ThreadData → Option (ThreadData × Control))
    (NUM_THREADS index : Nat) (numa : Nat → Nat) : Outcome :=
  if NUM_THREADS = 0 then Outcome.divisionByZero
  else
    match runFaulting worker (lanes NUM_THREADS index numa) with
    | some data => Outcome.returned (joinAndAdd data)
    | none => Outcome.misaligned

/-- Which of the two summation paths `calPoints` takes. -/
inductive SumPath where
  | single
  | multi
deriving DecidableEq

/-- The test `if (!useMultithreading || index < threshold)` of programs 4, 5, 6 and 12:
the in-thread path when it holds, the threaded path otherwise. -/
def dispatch (threshold index : Nat) (useMultithreading : Int) : SumPath :=
  if useMultithreading = 0 ∨ index < threshold then SumPath.single else SumPath.multi

/-- The function `bindThreadToNUMANode`: a CPU set holding `node` alone is passed to
`pthread_setaffinity_np`, whose return code (`setaffinity node`) is dropped. -/
def bindThreadToNUMANode (setaffinity : Nat → Int) (node : Nat) : Unit :=
  let _ := setaffinity node
  ()

/-! ## Program 1: records, then one sum -/

namespace File1

/-- The constant `MAX_OPERATIONS` of program 1. -/
def MAX_OPERATIONS : Nat := 1000

/-- Loop body of `calPoints`: the `index` tests sit inside the `strcmp` branches. -/
def step (s : RecState) (t : Token) : Option RecState :=
  if isNumber t then push MAX_OPERATIONS s (atoi t)
  else if t = "C" then
    if s.index > 0 then some ⟨s.records, s.index - 1⟩ else some s
  else if t = "D" then
    if s.index > 0 then push MAX_OPERATIONS s (wrap32 (2 * s.records (s.index - 1))) else some s
  else if t = "+" then
    if s.index > 1 then
      push MAX_OPERATIONS s (wrap32 (s.records (s.index - 1) + s.records (s.index - 2)))
    else some s
  else some s

/-- The function `calPoints` of program 1: fill `records`, then
`result = 0; for (i = 0; i < index; i++) result += records[i]; return result`. -/
def calPoints (mem : Nat → Int) (ops : List Token) : Outcome :=
  match forOps step ops ⟨mem, 0⟩ with
  | none => Outcome.outOfBounds
  | some s => Outcome.returned (addLoop s.records s.index s.index 0 0)

end File1

/-! ## Program 2: running sum -/

namespace File2

/-- The constant `MAX_OPERATIONS` of program 2. -/
def MAX_OPERATIONS : Nat := 1000

/-- The variables of `calPoints` in program 2: buffer, `index` and the running `sum`. -/
structure SumState where
  records : Nat → Int
  index : Nat
  sum : Int

/-- The statements `records[index++] = v; sum += v;`. -/
def pushAdd (s : SumState) (v : Int) : Option SumState :=
  if s.index < MAX_OPERATIONS then
    some ⟨store s.records s.index v, s.index + 1, wrap32 (s.sum + v)⟩
  else none

/-- Loop body of `calPoints`; `C` is `sum -= records[--index]`. -/
def step (s : SumState) (t : Token) : Option SumState :=
  if isNumber t then pushAdd s (atoi t)
  else if t = "C" ∧ s.index > 0 then
    some ⟨s.records, s.index - 1, wrap32 (s.sum - s.records (s.index - 1))⟩
  else if t = "D" ∧ s.index > 0 then pushAdd s (wrap32 (2 * s.records (s.index - 1)))
  else if t = "+" ∧ s.index > 1 then
    pushAdd s (wrap32 (s.records (s.index - 1) + s.records (s.index - 2)))
  else some s

/-- The token loop of program 2. -/
def forOps : List Token → SumState → Option SumState
  | [], s => some s
  | t :: ts, s =>
    match step s t with
    | some s1 => forOps ts s1
    | none => none

/-- The function `calPoints` of program 2: `return sum` after the token loop. -/
def calPoints (mem : Nat → Int) (ops : List Token) : Outcome :=
  match forOps ops ⟨mem, 0, 0⟩ with
  | none => Outcome.outOfBounds
  | some s => Outcome.returned s.sum

end File2

/-! ## Program 3: two threads, scalar worker -/

namespace File3

/-- The constant `MAX_OPERATIONS` of program 3. -/
def MAX_OPERATIONS : Nat := 1000

/-- The constant `NUM_THREADS` of program 3. -/
def NUM_THREADS : Nat := 2

/-- The worker `parallelSum`: `sum = 0; for (i = start; i < end; i++) sum += records[i];
data->result = sum; pthread_exit(NULL);`. -/
def parallelSum (records : Nat → Int) (data : ThreadData) : ThreadData × Control :=
  let sum := addLoop records data.end_ (data.end_ - data.start) data.start 0
  ({ data with result := sum }, Control.pthreadExit)

/-- The function `calPoints` of program 3: fill `records`, then always the threaded sum. -/
def calPoints (mem : Nat → Int) (ops : List Token) : Outcome :=
  match forOps (scoreStep MAX_OPERATIONS) ops ⟨mem, 0⟩ with
  | none => Outcome.outOfBounds
  | some s => forkJoin (parallelSum s.records) NUM_THREADS s.index (fun _ => 0)

end File3

/-! ## Program 4: dispatch, scalar worker -/

namespace File4

/-- The constant `MAX_OPERATIONS` of program 4. -/
def MAX_OPERATIONS : Nat := 1000000

/-- The constant `NUM_THREADS` of program 4. -/
def NUM_THREADS : Nat := 2

/-- The worker `parallelSum` of program 4 (the text of program 3). -/
def parallelSum (records : Nat → Int) (data : ThreadData) : ThreadData × Control :=
  let sum := addLoop records data.end_ (data.end_ - data.start) data.start 0
  ({ data with result := sum }, Control.pthreadExit)

/-- The in-thread path: `sum = 0; for (i = 0; i < index; i++) sum += records[i]; return sum`. -/
def singlePath (records : Nat → Int) (index : Nat) : Outcome :=
  Outcome.returned (addLoop records index index 0 0)

/-- The threaded path of program 4. -/
def multiPath (records : Nat → Int) (index : Nat) : Outcome :=
  forkJoin (parallelSum records) NUM_THREADS index (fun _ => 0)

/-- The function `calPoints` of program 4. -/
def calPoints (mem : Nat → Int) (ops : List Token) (useMultithreading : Int) : Outcome :=
  match forOps (scoreStep4 MAX_OPERATIONS) ops ⟨mem, 0⟩ with
  | none => Outcome.outOfBounds
  | some s =>
    match dispatch 500 s.index useMultithreading with
    | SumPath.single => singlePath s.records s.index
    | SumPath.multi => multiPath s.records s.index

end File4

/-! ## Programs 5 and 6: dispatch, 8-wide worker with unaligned loads -/

namespace File5

/-- The constant `MAX_OPERATIONS` of program 5. -/
def MAX_OPERATIONS : Nat := 1000000

/-- The constant `NUM_THREADS` of program 5. -/
def NUM_THREADS : Nat := 2

/-- The worker `simdSum` (the same text in programs 5, 6, 7 and 8): the 8-wide loop from
`start`, the store of `sumVec` into `sumArray`, the sum of its eight entries, the scalar
loop over the remaining elements, `data->result = sum; pthread_exit(NULL);`. -/
def simdSum (records : Nat → Int) (data : ThreadData) : ThreadData × Control :=
  let r := vecLoop records data.end_ (data.end_ - data.start) data.start mm256_setzero_si256
  let sumArray := mm256_storeu_si256 r.2
  let sum := sumOfArray sumArray
  let sum := addLoop records data.end_ (data.end_ - r.1) r.1 sum
  ({ data with result := sum }, Control.pthreadExit)

/-- The in-thread path: `ThreadData data = {records, 0, index, 0}; simdSum(&data);
return data.result;`. -/
def singlePath (records : Nat → Int) (index : Nat) : Outcome :=
  callThenReturn (simdSum records { start := 0, end_ := index, result := 0, numa_node := 0 })

/-- The threaded path of program 5. -/
def multiPath (records : Nat → Int) (index : Nat) : Outcome :=
  forkJoin (simdSum records) NUM_THREADS index (fun _ => 0)

/-- The function `calPoints` of program 5. -/
def calPoints (mem : Nat → Int) (ops : List Token) (useMultithreading : Int) : Outcome :=
  match forOps (scoreStep MAX_OPERATIONS) ops ⟨mem, 0⟩ with
  | none => Outcome.outOfBounds
  | some s =>
    match dispatch 500 s.index useMultithreading with
    | SumPath.single => singlePath s.records s.index
    | SumPath.multi => multiPath s.records s.index

end File5

namespace File6

/-- The function `calPoints` of program 6: the text of program 5 with a memory report
(a `printf`) between the token loop and the dispatch. -/
def calPoints (mem : Nat → Int) (ops : List Token) (useMultithreading : Int) : Outcome :=
  match forOps (scoreStep File5.MAX_OPERATIONS) ops ⟨mem, 0⟩ with
  | none => Outcome.outOfBounds
  | some s =>
    match dispatch 500 s.index useMultithreading with
    | SumPath.single => File5.singlePath s.records s.index
    | SumPath.multi => File5.multiPath s.records s.index

end File6

/-! ## Programs 7 and 8: numbers only, always threaded -/

namespace File7

/-- The function `calPoints` of program 7: numbers are recorded, then the threaded sum
with `simdSum` over two lanes. -/
def calPoints (mem : Nat → Int) (ops : List Token) : Outcome :=
  match forOps (numberStep File5.MAX_OPERATIONS) ops ⟨mem, 0⟩ with
  | none => Outcome.outOfBounds
  | some s => File5.multiPath s.records s.index

end File7

namespace File8

/-- The function `calPoints` of program 8: the text of program 7 with a timing report
around the threaded sum. -/
def calPoints (mem : Nat → Int) (ops : List Token) : Outcome :=
  match forOps (numberStep File5.MAX_OPERATIONS) ops ⟨mem, 0⟩ with
  | none => Outcome.outOfBounds
  | some s => File5.multiPath s.records s.index

end File8

/-! ## Program 9: the worker with aligned loads -/

namespace File9

/-- The worker `simdSum` of program 9: as in program 5 with `_mm256_load_si256` and
`_mm256_store_si256`; `none` when a load faults. -/
def simdSum (records : Nat → Int) (data : ThreadData) : Option (ThreadData × Control) :=
  match vecLoopAligned records data.end_ (data.end_ - data.start) data.start
      mm256_setzero_si256 with
  | none => none
  | some r =>
    let sumArray := mm256_storeu_si256 r.2
    let sum := sumOfArray sumArray
    let sum := addLoop records data.end_ (data.end_ - r.1) r.1 sum
    some ({ data with result := sum }, Control.pthreadExit)

end File9

/-! ## Programs 10 and 11: every token through atoi, aligned loads, two bound threads -/

namespace File10

/-- The constant `MAX_OPERATIONS` of programs 10 and 11. -/
def MAX_OPERATIONS : Nat := 1000000

/-- The constant `NUM_THREADS` of programs 10 and 11. -/
def NUM_THREADS : Nat := 2

/-- The worker `numaSimdSum` of programs 10 and 11: bind the thread, then the body of
`simdSum` of program 9. -/
def numaSimdSum (setaffinity : Nat → Int) (records : Nat → Int) (data : ThreadData) :
    Option (ThreadData × Control) :=
  let _ := bindThreadToNUMANode setaffinity data.numa_node
  match vecLoopAligned records data.end_ (data.end_ - data.start) data.start
      mm256_setzero_si256 with
  | none => none
  | some r =>
    let sumArray := mm256_storeu_si256 r.2
    let sum := sumOfArray sumArray
    let sum := addLoop records data.end_ (data.end_ - r.1) r.1 sum
    some ({ data with result := sum }, Control.pthreadExit)

/-- The function `calPoints` of program 10: `records[index++] = atoi(ops[i])` for every
token, then two lanes with `numa_node = i`. -/
def calPoints (setaffinity : Nat → Int) (mem : Nat → Int) (ops : List Token) : Outcome :=
  match forOps (atoiStep MAX_OPERATIONS) ops ⟨mem, 0⟩ with
  | none => Outcome.outOfBounds
  | some s => forkJoinFaulting (numaSimdSum setaffinity s.records) NUM_THREADS s.index (fun i => i)

end File10

namespace File11

/-- The function `calPoints` of program 11: the text of program 10 (worker included)
with a timing `printf` after the join loop. -/
def calPoints (setaffinity : Nat → Int) (mem : Nat → Int) (ops : List Token) : Outcome :=
  match forOps (atoiStep File10.MAX_OPERATIONS) ops ⟨mem, 0⟩ with
  | none => Outcome.outOfBounds
  | some s =>
    forkJoinFaulting (File10.numaSimdSum setaffinity s.records) File10.NUM_THREADS s.index
      (fun i => i)

end File11

/-! ## Program 12: dispatch, four bound threads, result written under a mutex -/

namespace File12

/-- The constant `MAX_OPERATIONS` of program 12. -/
def MAX_OPERATIONS : Nat := 1000000

/-- The constant `NUM_THREADS` of program 12. -/
def NUM_THREADS : Nat := 4

/-- The constant `SIMD_THRESHOLD` of program 12. -/
def SIMD_THRESHOLD : Nat := 500

/-- The worker `numaSimdSum` of program 12: bind the thread, the 8-wide loop with
unaligned loads, `sum = 0; for (k = 0; k < 8; k++) sum += sumArray[k];`, the scalar loop
over the remaining elements, then `data->partial_sum = sum` between
`pthread_mutex_lock` and `pthread_mutex_unlock`, and `pthread_exit(NULL)`. -/
def numaSimdSum (setaffinity : Nat → Int) (records : Nat → Int) (data : ThreadData) :
    ThreadData × Control :=
  let _ := bindThreadToNUMANode setaffinity data.numa_node
  let r := vecLoop records data.end_ (data.end_ - data.start) data.start mm256_setzero_si256
  let sumArray := mm256_storeu_si256 r.2
  let sum := addLoop sumArray 8 8 0 0
  let sum := addLoop records data.end_ (data.end_ - r.1) r.1 sum
  ({ data with result := sum }, Control.pthreadExit)

/-- The in-thread path: `ThreadData single_thread = {records, 0, index, 0, 0};
numaSimdSum(&single_thread); return single_thread.partial_sum;`. -/
def singlePath (setaffinity : Nat → Int) (records : Nat → Int) (index : Nat) : Outcome :=
  callThenReturn
    (numaSimdSum setaffinity records { start := 0, end_ := index, result := 0, numa_node := 0 })

/-- The threaded path of program 12: four lanes, `numa_node = i % nodes` where `nodes`
is what `numa_num_configured_nodes()` returns (a remainder by zero if that were 0). -/
def multiPath (setaffinity : Nat → Int) (nodes : Nat) (records : Nat → Int) (index : Nat) :
    Outcome :=
  if nodes = 0 then Outcome.divisionByZero
  else forkJoin (numaSimdSum setaffinity records) NUM_THREADS index (fun i => i % nodes)

/-- The function `calPoints` of program 12. -/
def calPoints (setaffinity : Nat → Int) (nodes : Nat) (mem : Nat → Int) (ops : List Token)
    (useMultithreading : Int) : Outcome :=
  match forOps (atoiStep MAX_OPERATIONS) ops ⟨mem, 0⟩ with
  | none => Outcome.outOfBounds
  | some s =>
    match dispatch SIMD_THRESHOLD s.index useMultithreading with
    | SumPath.single => singlePath setaffinity s.records s.index
    | SumPath.multi => multiPath setaffinity nodes s.records s.index

end File12

/-! ## The benchmark input and reference sums -/

/-- The array `largeOps` built by `main` of programs 4 to 12 when its loop runs `k`
times (`k = 500000` in the source): `"10", "D"` repeated. -/
def largeOps : Nat → List Token
  | 0 => []
  | k + 1 => "10" :: "D" :: largeOps k

/-- The mathematical sum of `records[a .. b)`, without any wrap-around. -/
def exactSum (records : Nat → Int) (a b : Nat) : Int :=
  ∑ i in Finset.Ico a b, records i

/-- The sequence of a list of scores as a buffer (0 past its end). -/
def ofList (xs : List Int) : Nat → Int := fun i => xs.getD i 0

/-- The sum of the eight lanes of a register, without wrap-around. -/
def laneSum (v : Vec8) : Int := ∑ k : Fin 8, v k

/-- The lengths `end - start` of the lanes, in lane order. -/
def laneLengths (data : List ThreadData) : List Nat := data.map (fun d => d.end_ - d.start)

/-- Every record below `index` is a 32-bit value. -/
def RecordsInRange (s : RecState) : Prop := ∀ j, j < s.index → InRange32 (s.records j)

/-- The nine scores of the small two-lane scenario. -/
def seq9 : List Int := [10, 20, 10, 20, 10, 20, 10, 20, 10]

/-- The tokens `"10", "D", "10", "D", "10", "D", "10", "D", "10"`, whose records under
the scoring rules are `seq9`. -/
def ops9 : List Token := ["10", "D", "10", "D", "10", "D", "10", "D", "10"]

/-- The sequence that alternates 10 and 20 from index 0 on; its first 1000000 entries
are the records that the benchmark header of program 4 gives for `largeOps`. -/
def alternating : Nat → Int := fun i => if i % 2 = 0 then 10 else 20

/-! ## What the loops read -/

/-- The indices `i` at which the loop `for (; i < end; i++) sum += records[i];` reads
`records[i]`, in order: `addLoop` with the reads written down instead of added. -/
def addLoopReads (stop : Nat) : Nat → Nat → List Nat
  | 0, _ => []
  | fuel + 1, i => if i < stop then i :: addLoopReads stop fuel (i + 1) else []

/-- The loop `for (i = start; i + 7 < end; i += 8)` with its loads written down: the
final `i` and the indices `i` at which an 8-element load from `&records[i]` was issued,
in order. -/
def vecLoopLoads (stop : Nat) : Nat → Nat → Nat × List Nat
  | 0, i => (i, [])
  | fuel + 1, i =>
    if i + 7 < stop then ((vecLoopLoads stop fuel (i + 8)).1, i :: (vecLoopLoads stop fuel (i + 8)).2)
    else (i, [])

/-- The indices at which the loop with `_mm256_load_si256` issues a load, in order; a
load that faults is the last one issued. -/
def vecLoopAlignedLoads (stop : Nat) : Nat → Nat → List Nat
  | 0, _ => []
  | fuel + 1, i =>
    if i + 7 < stop then
      if i % 8 = 0 then i :: vecLoopAlignedLoads stop fuel (i + 8) else [i]
    else []

/-- The eight elements `records[i .. i + 8)` read by one 8-element load from
`&records[i]`. -/
def loadReads (i : Nat) : List Nat := List.range' i 8

/-- Every index at which the worker `parallelSum` reads `records`, in order. -/
def parallelSumReads (data : ThreadData) : List Nat :=
  addLoopReads data.end_ (data.end_ - data.start) data.start

/-- Every index at which the workers `simdSum` (programs 5 to 8) and `numaSimdSum`
(program 12) read `records`, in order: the elements of the 8-element loads, then the
elements of the scalar loop that starts where the 8-wide loop stopped. -/
def simdReads (data : ThreadData) : List Nat :=
  (vecLoopLoads data.end_ (data.end_ - data.start) data.start).2.flatMap loadReads ++
    addLoopReads data.end_
      (data.end_ - (vecLoopLoads data.end_ (data.end_ - data.start) data.start).1)
      (vecLoopLoads data.end_ (data.end_ - data.start) data.start).1

/-- The loads with `_mm256_load_si256` that the worker of programs 9, 10 and 11 issues
on a descriptor. -/
def alignedLoads (data : ThreadData) : List Nat :=
  vecLoopAlignedLoads data.end_ (data.end_ - data.start) data.start

/-- Every index at which the worker of programs 9, 10 and 11 reads `records`: the
elements of its loads that did not fault and, when no load faulted, the elements of the
scalar loop, which starts where the 8-wide loop stopped. -/
def alignedReads (data : ThreadData) : List Nat :=
  ((alignedLoads data).filter (fun i => i % 8 = 0)).flatMap loadReads ++
    if (alignedLoads data).all (fun i => i % 8 = 0) then
      addLoopReads data.end_
        (data.end_ - (vecLoopLoads data.end_ (data.end_ - data.start) data.start).1)
        (vecLoopLoads data.end_ (data.end_ - data.start) data.start).1
    else []

/-! ## Thread creation that may fail -/

/-- The decimal value of a string of digits. -/
def decimalValue (ds : List Char) : Int :=
  ds.foldl (fun n c => n * 10 + ((c.toNat : Int) - 48)) 0

/-- A non-empty string of decimal digits. -/
def isDigits (ds : List Char) : Bool := !ds.isEmpty && ds.all isdigit

/-- An integer token: decimal digits, possibly after one minus sign. -/
def isIntegerToken (t : Token) : Bool :=
  match t.data with
  | '-' :: ds => isDigits ds
  | ds => isDigits ds

/-- The integer that an integer token denotes. -/
def tokenValue (t : Token) : Int :=
  match t.data with
  | '-' :: ds => -(decimalValue ds)
  | ds => decimalValue ds

/-- One rule of the game as the header of program 1 states it, on the list of valid
scores with the last score first: an integer `x` adds the score `x`; `"C"` removes the
previous score; `"D"` adds the double of the previous score; `"+"` adds the sum of the
previous two scores.  A rule that finds too few scores, and a token that is none of the
four kinds, are outside the rules (`none`). -/
def refStep (scores : List Int) (t : Token) : Option (List Int) :=
  if isIntegerToken t then some (tokenValue t :: scores)
  else if t = "C" then
    match scores with
    | _ :: rest => some rest
    | [] => none
  else if t = "D" then
    match scores with
    | x :: rest => some (2 * x :: x :: rest)
    | [] => none
  else if t = "+" then
    match scores with
    | x :: y :: rest => some ((x + y) :: x :: y :: rest)
    | _ => none
  else none

/-- The rules applied to the tokens in order. -/
def refRun : List Token → List Int → Option (List Int)
  | [], scores => some scores
  | t :: ts, scores =>
    match refStep scores t with
    | some scores1 => refRun ts scores1
    | none => none

/-- The total of the valid scores after all tokens, by the rules; mathematical
integers throughout. -/
def referenceScore (ops : List Token) : Option Int := (refRun ops []).map List.sum

/-- The first documented input of programs 1, 2 and 3. -/
def test1 : List Token := ["5", "2", "C", "D", "+"]

/-- The second documented input. -/
def test2 : List Token := ["5", "-2", "4", "C", "D", "9", "+", "+"]

/-- The sixth input of the test table of programs 2 and 3. -/
def test6 : List Token := ["-10", "D", "D", "C", "+"]

/-- The seventh input of the test table of programs 2 and 3. -/
def test7 : List Token := ["5", "10", "+", "D", "+", "C"]

/-- The input that `main` of program 3 runs first. -/
def ops13 : List Token :=
  ["5", "2", "C", "D", "+", "10", "C", "-2", "4", "D", "9", "+", "+"]

/-- Two states of the token loop that hold the same records: the same `index` and the
same contents below it. -/
def SameRecords (s s1 : RecState) : Prop :=
  s.index = s1.index ∧ ∀ j, j < s.index → s.records j = s1.records j

/-- The records below `n` are the given scores, the last score at `n - 1`, each
truncated to 32 bits. -/
def Matches (r : Nat → Int) : Nat → List Int → Prop
  | 0, [] => True
  | n + 1, x :: rest => r n = wrap32 x ∧ Matches r n rest
  | 0, _ :: _ => False
  | _ + 1, [] => False

/-! ## Accesses of the token loop -/

/-- The subscripts at which the loop body of programs 1, 3, 5 and 6 writes `records` on
token `t` in state `s`, as the C `int` values they are: `index` in `records[index++] =
atoi(ops[i])`, and `index` in `records[index] = ...` of `D` (under `index > 0`) and of `+`
(under `index > 1`); `C` and skipped tokens write nothing. -/
def scoreWrites (s : RecState) (t : Token) : List Int :=
  if isNumber t then [(s.index : Int)]
  else if t = "C" ∧ s.index > 0 then []
  else if t = "D" ∧ s.index > 0 then [(s.index : Int)]
  else if t = "+" ∧ s.index > 1 then [(s.index : Int)]
  else []

/-- The subscripts at which the loop body of programs 1, 3, 5 and 6 reads `records` on
token `t` in state `s`: `index - 1` for `D` (under `index > 0`), `index - 1` and
`index - 2` for `+` (under `index > 1`); nothing otherwise. -/
def scoreReads (s : RecState) (t : Token) : List Int :=
  if isNumber t then []
  else if t = "C" ∧ s.index > 0 then []
  else if t = "D" ∧ s.index > 0 then [(s.index : Int) - 1]
  else if t = "+" ∧ s.index > 1 then [(s.index : Int) - 1, (s.index : Int) - 2]
  else []

/-! ## Wrap-around arithmetic -/

theorem wrap32_inRange (x : Int) : InRange32 (wrap32 x) := by
  unfold InRange32 wrap32; omega

theorem wrap32_of_inRange {x : Int} (h : InRange32 x) : wrap32 x = x := by
  unfold InRange32 at h; unfold wrap32; omega

theorem wrap32_add_left (a b : Int) : wrap32 (wrap32 a + b) = wrap32 (a + b) := by
  unfold wrap32; omega

theorem wrap32_add_right (a b : Int) : wrap32 (a + wrap32 b) = wrap32 (a + b) := by
  unfold wrap32; omega

theorem wrap32_wrap32 (a : Int) : wrap32 (wrap32 a) = wrap32 a := by
  unfold wrap32; omega

theorem exactSum_self (r : Nat → Int) (a : Nat) : exactSum r a a = 0 := by
  simp [exactSum]

theorem exactSum_of_le (r : Nat → Int) {a b : Nat} (h : b ≤ a) : exactSum r a b = 0 := by
  simp [exactSum, Finset.Ico_eq_empty_of_le h]

theorem exactSum_succ_left (r : Nat → Int) {a b : Nat} (h : a < b) :
    exactSum r a b = r a + exactSum r (a + 1) b := by
  unfold exactSum
  rw [Finset.sum_eq_sum_Ico_succ_bot h]

theorem exactSum_succ_right (r : Nat → Int) {a b : Nat} (h : a ≤ b) :
    exactSum r a (b + 1) = exactSum r a b + r b := by
  unfold exactSum
  rw [Finset.sum_Ico_succ_top h]

theorem exactSum_append (r : Nat → Int) {a b c : Nat} (hab : a ≤ b) (hbc : b ≤ c) :
    exactSum r a b + exactSum r b c = exactSum r a c := by
  unfold exactSum
  exact Finset.sum_Ico_consecutive r hab hbc

/-- The scalar loop adds the mathematical sum of `records[i .. stop)` to `sum`, modulo 2^32. -/
theorem addLoop_wrap (r : Nat → Int) (stop : Nat) :
    ∀ (fuel i : Nat) (sum : Int), stop - i ≤ fuel →
      wrap32 (addLoop r stop fuel i sum) = wrap32 (sum + exactSum r i stop) := by
  intro fuel
  induction fuel with
  | zero =>
    intro i sum h
    have : stop ≤ i := by omega
    simp [addLoop, exactSum_of_le r this]
  | succ n ih =>
    intro i sum h
    unfold addLoop
    split
    · next hlt =>
      rw [ih (i + 1) _ (by omega), wrap32_add_left, exactSum_succ_left r hlt, add_assoc]
    · next hge =>
      have : stop ≤ i := by omega
      simp [exactSum_of_le r this]

theorem addLoop_inRange (r : Nat → Int) (stop : Nat) :
    ∀ (fuel i : Nat) (sum : Int), InRange32 sum → InRange32 (addLoop r stop fuel i sum) := by
  intro fuel
  induction fuel with
  | zero => intro i sum h; simpa [addLoop] using h
  | succ n ih =>
    intro i sum h
    unfold addLoop
    split
    · exact ih _ _ (wrap32_inRange _)
    · exact h

theorem addLoop_eq (r : Nat → Int) (stop fuel i : Nat) (sum : Int) (hs : InRange32 sum)
    (hf : stop - i ≤ fuel) :
    addLoop r stop fuel i sum = wrap32 (sum + exactSum r i stop) := by
  rw [← addLoop_wrap r stop fuel i sum hf, wrap32_of_inRange (addLoop_inRange r stop fuel i sum hs)]

theorem inRange32_zero : InRange32 0 := by decide


theorem laneSum_setzero : laneSum mm256_setzero_si256 = 0 := by
  simp [laneSum, mm256_setzero_si256]

theorem laneSum_loadu (r : Nat → Int) (i : Nat) :
    laneSum (mm256_loadu_si256 r i) = exactSum r i (i + 8) := by
  unfold laneSum exactSum mm256_loadu_si256
  rw [Finset.sum_Ico_eq_sum_range, Fin.sum_univ_eq_sum_range (fun k => r (i + k)) 8]
  simp

theorem laneSum_add (a b : Vec8) :
    wrap32 (laneSum (mm256_add_epi32 a b)) = wrap32 (laneSum a + laneSum b) := by
  simp only [laneSum, mm256_add_epi32, Fin.sum_univ_eight]
  unfold wrap32
  omega

theorem exactSum_storeu (v : Vec8) : exactSum (mm256_storeu_si256 v) 0 8 = laneSum v := by
  simp [laneSum, exactSum, mm256_storeu_si256, Fin.sum_univ_eight, Finset.sum_Ico_eq_sum_range,
    Finset.sum_range_succ]

theorem sumOfArray_storeu (v : Vec8) :
    sumOfArray (mm256_storeu_si256 v) = wrap32 (laneSum v) := by
  simp only [sumOfArray, laneSum, mm256_storeu_si256, Fin.sum_univ_eight]
  simp only [wrap32_add_left]
  simp

/-- The 8-wide loop: where it stops, and what the lanes hold then (modulo 2^32). -/
theorem vecLoop_spec (r : Nat → Int) (stop : Nat) :
    ∀ (fuel i : Nat) (v : Vec8), stop - i ≤ fuel →
      i ≤ (vecLoop r stop fuel i v).1 ∧
      ((vecLoop r stop fuel i v).1 ≤ stop ∨ (vecLoop r stop fuel i v).1 = i) ∧
      ¬ ((vecLoop r stop fuel i v).1 + 7 < stop) ∧
      wrap32 (laneSum (vecLoop r stop fuel i v).2) =
        wrap32 (laneSum v + exactSum r i (vecLoop r stop fuel i v).1) := by
  intro fuel
  induction fuel with
  | zero =>
    intro i v h
    simp only [vecLoop, exactSum_self]
    refine ⟨le_refl _, Or.inr trivial, by omega, by simp⟩
  | succ n ih =>
    intro i v h
    unfold vecLoop
    split
    · next hlt =>
      obtain ⟨h1, h2, h3, h4⟩ := ih (i + 8)
        (mm256_add_epi32 v (mm256_loadu_si256 r i)) (by omega)
      refine ⟨by omega, Or.inl (by omega), h3, ?_⟩
      rw [h4, ← wrap32_add_left, laneSum_add, wrap32_add_left, laneSum_loadu, add_assoc,
        exactSum_append r (by omega) h1]
    · next hge =>
      simp only [exactSum_self]
      refine ⟨le_refl _, Or.inr trivial, hge, by simp⟩

/-! ## What the workers store -/

theorem parallelSum3_result (r : Nat → Int) (d : ThreadData) :
    (File3.parallelSum r d).1.result = wrap32 (exactSum r d.start d.end_) := by
  simp only [File3.parallelSum]
  rw [addLoop_eq r d.end_ _ d.start 0 inRange32_zero (le_refl _), zero_add]

theorem parallelSum4_result (r : Nat → Int) (d : ThreadData) :
    (File4.parallelSum r d).1.result = wrap32 (exactSum r d.start d.end_) := by
  simp only [File4.parallelSum]
  rw [addLoop_eq r d.end_ _ d.start 0 inRange32_zero (le_refl _), zero_add]

/-- The scalar tail after the 8-wide loop completes the sum of the whole range. -/
theorem vec_then_tail (r : Nat → Int) (start stop : Nat) (sum : Int)
    (hsum : sum = wrap32 (laneSum (vecLoop r stop (stop - start) start mm256_setzero_si256).2)) :
    addLoop r stop (stop - (vecLoop r stop (stop - start) start mm256_setzero_si256).1)
      (vecLoop r stop (stop - start) start mm256_setzero_si256).1 sum
      = wrap32 (exactSum r start stop) := by
  obtain ⟨h1, h2, _, h4⟩ := vecLoop_spec r stop (stop - start) start mm256_setzero_si256 (le_refl _)
  rw [laneSum_setzero, zero_add] at h4
  have hr : InRange32 sum := hsum ▸ wrap32_inRange _
  rw [addLoop_eq r stop _ _ sum hr (le_refl _), hsum, h4, wrap32_add_left]
  rcases h2 with h2 | h2
  · rw [exactSum_append r h1 h2]
  · rw [h2, exactSum_self, zero_add]

theorem simdSum_result (r : Nat → Int) (d : ThreadData) :
    (File5.simdSum r d).1.result = wrap32 (exactSum r d.start d.end_) := by
  simp only [File5.simdSum]
  exact vec_then_tail r d.start d.end_ _ (sumOfArray_storeu _)

theorem numaSimdSum12_result (sa : Nat → Int) (r : Nat → Int) (d : ThreadData) :
    (File12.numaSimdSum sa r d).1.result = wrap32 (exactSum r d.start d.end_) := by
  simp only [File12.numaSimdSum]
  apply vec_then_tail r d.start d.end_
  rw [addLoop_eq _ 8 8 0 0 inRange32_zero (by omega), zero_add, exactSum_storeu]

/-! ## Lanes and their aggregation -/

theorem lanes_succ (L N : Nat) (numa : Nat → Nat) (k : Nat) :
    (List.range (k + 1)).map (laneData L N numa)
      = (List.range k).map (laneData L N numa) ++ [laneData L N numa k] := by
  rw [List.range_succ, List.map_append, List.map_singleton]

/-- The running total after joining the first `k` lanes, none of them the last. -/
theorem joinAndAdd_firstLanes (r : Nat → Int) (w : ThreadData → ThreadData × Control)
    (hw : ∀ d, (w d).1.result = wrap32 (exactSum r d.start d.end_))
    (L N : Nat) (numa : Nat → Nat) :
    ∀ k, k ≤ L - 1 →
      joinAndAdd (((List.range k).map (laneData L N numa)).map (fun d => (w d).1))
        = wrap32 (exactSum r 0 (k * (N / L))) := by
  intro k
  induction k with
  | zero => intro _; simp [joinAndAdd, exactSum_self, wrap32]
  | succ k ih =>
    intro hk
    have hne : k ≠ L - 1 := by omega
    have ih1 := ih (by omega)
    unfold joinAndAdd at ih1 ⊢
    rw [lanes_succ, List.map_append, List.foldl_append, ih1]
    simp only [List.map_cons, List.map_nil, List.foldl_cons, List.foldl_nil]
    rw [hw, wrap32_add_left, wrap32_add_right]
    simp only [laneData, if_neg hne]
    rw [exactSum_append r (Nat.zero_le _) (Nat.mul_le_mul_right _ (Nat.le_succ k))]

theorem last_lane_start_le (L N : Nat) : (L - 1) * (N / L) ≤ N :=
  le_trans (Nat.mul_le_mul_right _ (Nat.sub_le L 1)) (Nat.mul_div_le N L)

/-- The total after joining all lanes is the wrapped sum of the whole sequence. -/
theorem joinAndAdd_lanes (r : Nat → Int) (w : ThreadData → ThreadData × Control)
    (hw : ∀ d, (w d).1.result = wrap32 (exactSum r d.start d.end_))
    (L N : Nat) (numa : Nat → Nat) (hL : 1 ≤ L) :
    joinAndAdd ((lanes L N numa).map (fun d => (w d).1)) = wrap32 (exactSum r 0 N) := by
  obtain ⟨m, rfl⟩ : ∃ m, L = m + 1 := ⟨L - 1, by omega⟩
  have hp := joinAndAdd_firstLanes r w hw (m + 1) N numa m (by omega)
  unfold lanes
  unfold joinAndAdd at hp ⊢
  rw [lanes_succ, List.map_append, List.foldl_append, hp]
  simp only [List.map_cons, List.map_nil, List.foldl_cons, List.foldl_nil]
  rw [hw, wrap32_add_left, wrap32_add_right]
  have hm : m = m + 1 - 1 := by omega
  simp only [laneData]
  rw [if_pos hm, exactSum_append r (Nat.zero_le _)]
  simpa using last_lane_start_le (m + 1) N

theorem laneLengths_firstLanes (L N : Nat) (numa : Nat → Nat) :
    ∀ k, k ≤ L - 1 →
      (laneLengths ((List.range k).map (laneData L N numa))).sum = k * (N / L) := by
  intro k
  induction k with
  | zero => intro _; simp [laneLengths]
  | succ k ih =>
    intro hk
    have hne : k ≠ L - 1 := by omega
    have ih1 := ih (by omega)
    unfold laneLengths at ih1 ⊢
    rw [lanes_succ, List.map_append, List.sum_append, ih1]
    simp only [List.map_cons, List.map_nil, List.sum_cons, List.sum_nil, laneData, if_neg hne]
    simp only [Nat.add_zero, Nat.succ_mul, Nat.add_sub_cancel_left]

/-- C1. Partition coverage: for every sequence length `N` and lane count `L ≥ 1`, the
lanes built by the first loop of the threaded path start at `i * (N / L)`, end at
`(i + 1) * (N / L)` except the last, which ends at `N`; each lane ends where the next
starts, two different lanes share no index, an index lies in some lane exactly when it
is below `N`, and the lane lengths add up to `N`. -/
theorem partition_coverage (N L : Nat) (numa : Nat → Nat) (hL : 1 ≤ L) :
    (lanes L N numa).length = L ∧
    (∀ i, i < L → (lanes L N numa)[i]? = some (laneData L N numa i)) ∧
    (∀ i, (laneData L N numa i).start = i * (N / L)) ∧
    (∀ i, i + 1 < L → (laneData L N numa i).end_ = (i + 1) * (N / L)) ∧
    (laneData L N numa (L - 1)).end_ = N ∧
    (∀ i, i < L → (laneData L N numa i).start ≤ (laneData L N numa i).end_) ∧
    (∀ i, i + 1 < L → (laneData L N numa i).end_ = (laneData L N numa (i + 1)).start) ∧
    (∀ i j, i < j → j < L → ∀ x,
      ¬ ((laneData L N numa i).start ≤ x ∧ x < (laneData L N numa i).end_ ∧
         (laneData L N numa j).start ≤ x ∧ x < (laneData L N numa j).end_)) ∧
    (∀ x, x < N ↔
      ∃ i, i < L ∧ (laneData L N numa i).start ≤ x ∧ x < (laneData L N numa i).end_) ∧
    (laneLengths (lanes L N numa)).sum = N := by
  have hlast := last_lane_start_le L N
  have hend : ∀ i, i + 1 < L → (laneData L N numa i).end_ = (i + 1) * (N / L) := by
    intro i hi
    have hne : i ≠ L - 1 := by omega
    simp [laneData, hne]
  have hendL : (laneData L N numa (L - 1)).end_ = N := by simp [laneData]
  have hstart : ∀ i, (laneData L N numa i).start = i * (N / L) := fun i => rfl
  have hmono : ∀ a b : Nat, a ≤ b → a * (N / L) ≤ b * (N / L) :=
    fun a b h => Nat.mul_le_mul_right _ h
  have hendle : ∀ i, i < L → (laneData L N numa i).end_ ≤ N := by
    intro i hi
    by_cases h : i + 1 < L
    · rw [hend i h]; exact le_trans (hmono (i + 1) (L - 1) (by omega)) hlast
    · have : i = L - 1 := by omega
      rw [this, hendL]
  refine ⟨by simp [lanes], ?_, hstart, hend, hendL, ?_, ?_, ?_, ?_, ?_⟩
  · intro i hi
    simp [lanes, List.getElem?_range hi]
  · intro i hi
    by_cases h : i + 1 < L
    · rw [hstart, hend i h]; exact hmono _ _ (by omega)
    · have : i = L - 1 := by omega
      rw [this, hendL, hstart]; exact hlast
  · intro i hi
    rw [hend i hi, hstart]
  · intro i j hij hj x ⟨_, h2, h3, _⟩
    rw [hend i (by omega)] at h2
    rw [hstart] at h3
    have := hmono (i + 1) j (by omega)
    omega
  · intro x
    constructor
    · intro hx
      by_cases hq : x / (N / L) + 1 < L ∧ 0 < N / L
      · refine ⟨x / (N / L), lt_trans (Nat.lt_succ_self _) hq.1, ?_, ?_⟩
        · rw [hstart]; exact Nat.div_mul_le_self x (N / L)
        · rw [hend _ hq.1]
          exact Nat.lt_mul_of_div_lt (Nat.lt_succ_self _) hq.2
      · refine ⟨L - 1, Nat.sub_lt hL Nat.one_pos, ?_, by rw [hendL]; exact hx⟩
        rw [hstart]
        by_cases hc : 0 < N / L
        · have h1 : L - 1 ≤ x / (N / L) := by
            by_contra hcon
            exact hq ⟨Nat.add_lt_of_lt_sub (Nat.not_le.mp hcon), hc⟩
          exact le_trans (hmono _ _ h1) (Nat.div_mul_le_self x (N / L))
        · have hz : N / L = 0 := Nat.eq_zero_of_not_pos hc
          rw [hz]; simp
    · rintro ⟨i, hi, _, h2⟩
      exact lt_of_lt_of_le h2 (hendle i hi)
  · obtain ⟨m, rfl⟩ : ∃ m, L = m + 1 := ⟨L - 1, by omega⟩
    have hp := laneLengths_firstLanes (m + 1) N numa m (by omega)
    unfold lanes
    unfold laneLengths at hp ⊢
    rw [lanes_succ, List.map_append, List.sum_append, hp]
    have hm : m = m + 1 - 1 := by omega
    simp only [List.map_cons, List.map_nil, List.sum_cons, List.sum_nil, laneData]
    rw [if_pos hm]
    have := last_lane_start_le (m + 1) N
    simp only [Nat.add_sub_cancel] at this
    omega

/-- Witness for C1 at `N = 9`, `L = 2`. -/
theorem partition_coverage_witness :
    1 ≤ 2 ∧ (lanes 2 9 (fun _ => 0)).length = 2 ∧ (laneLengths (lanes 2 9 (fun _ => 0))).sum = 9 :=
  ⟨by decide, (partition_coverage 9 2 (fun _ => 0) (by decide)).1,
    (partition_coverage 9 2 (fun _ => 0) (by decide)).2.2.2.2.2.2.2.2.2⟩

/-! ## The threaded path computes the wrapped sum -/

theorem forkJoin_eq (r : Nat → Int) (w : ThreadData → ThreadData × Control)
    (hw : ∀ d, (w d).1.result = wrap32 (exactSum r d.start d.end_))
    (L N : Nat) (numa : Nat → Nat) (hL : 1 ≤ L) :
    forkJoin w L N numa = Outcome.returned (wrap32 (exactSum r 0 N)) := by
  unfold forkJoin
  rw [if_neg (by omega), joinAndAdd_lanes r w hw L N numa hL]

theorem singlePath4_eq (r : Nat → Int) (N : Nat) :
    File4.singlePath r N = Outcome.returned (wrap32 (exactSum r 0 N)) := by
  unfold File4.singlePath
  rw [addLoop_eq r N N 0 0 inRange32_zero (by omega), zero_add]

/-- C2. Reduction correctness: for every sequence of signed 32-bit integers of length
`N ≤ 1000000` and every lane count `L ≥ 1`, the threaded reduction (lanes as built by
`calPoints`, `simdSum` of program 5 or `numaSimdSum` of program 12 on every lane, partial
results added) returns what the naive left-to-right loop `sum += records[i]` over
`[0, N)` returns in the same 32-bit wrapping arithmetic. -/
theorem reduction_correct (records : Nat → Int) (N L : Nat) (numa : Nat → Nat)
    (setaffinity : Nat → Int) (_hN : N ≤ 1000000)
    (_hrec : ∀ i, i < N → InRange32 (records i)) (hL : 1 ≤ L) :
    forkJoin (File5.simdSum records) L N numa = Outcome.returned (addLoop records N N 0 0) ∧
    forkJoin (File12.numaSimdSum setaffinity records) L N numa
      = Outcome.returned (addLoop records N N 0 0) := by
  have hnaive := singlePath4_eq records N
  unfold File4.singlePath at hnaive
  rw [hnaive]
  exact ⟨forkJoin_eq records _ (simdSum_result records) L N numa hL,
    forkJoin_eq records _ (numaSimdSum12_result setaffinity records) L N numa hL⟩

/-- Witness for C2: the nine-element sequence, two lanes. -/
theorem reduction_correct_witness :
    (9 ≤ 1000000 ∧ (∀ i, i < 9 → InRange32 (ofList seq9 i)) ∧ 1 ≤ 2) ∧
    forkJoin (File5.simdSum (ofList seq9)) 2 9 (fun _ => 0)
      = Outcome.returned (addLoop (ofList seq9) 9 9 0 0) :=
  ⟨⟨by decide, by decide, by decide⟩,
    (reduction_correct (ofList seq9) 9 2 (fun _ => 0) (fun _ => 0) (by decide) (by decide)
      (by decide)).1⟩

/-! ## The token loop -/

theorem atoi_inRange (t : Token) : InRange32 (atoi t) := by
  unfold atoi
  split <;> exact wrap32_inRange _

theorem exactSum_congr (r r' : Nat → Int) (a b : Nat)
    (h : ∀ i, a ≤ i → i < b → r i = r' i) : exactSum r a b = exactSum r' a b := by
  unfold exactSum
  apply Finset.sum_congr rfl
  intro i hi
  rw [Finset.mem_Ico] at hi
  exact h i hi.1 hi.2

/-- With room for one record per token, the token loop finishes without a store past the
end of the buffer, and `index` grows by at most one per token. -/
theorem forOps_total (cap : Nat) (body : RecState → Token → Option RecState)
    (hbody : ∀ s t, s.index < cap → ∃ s1, body s t = some s1 ∧ s1.index ≤ s.index + 1) :
    ∀ (ops : List Token) (s : RecState), s.index + ops.length ≤ cap →
      ∃ s1, forOps body ops s = some s1 ∧ s1.index ≤ s.index + ops.length := by
  intro ops
  induction ops with
  | nil => intro s _; exact ⟨s, rfl, by simp⟩
  | cons t ts ih =>
    intro s h
    simp only [List.length_cons] at h
    obtain ⟨s1, h1, h2⟩ := hbody s t (by omega)
    obtain ⟨s2, h3, h4⟩ := ih s1 (by omega)
    refine ⟨s2, ?_, ?_⟩
    · simp only [forOps, h1]; exact h3
    · simp only [List.length_cons]; omega

theorem push_some (cap : Nat) (s : RecState) (v : Int) (h : s.index < cap) :
    push cap s v = some ⟨store s.records s.index v, s.index + 1⟩ := by
  simp [push, h]

theorem scoreStep4_total (cap : Nat) (s : RecState) (t : Token) (h : s.index < cap) :
    ∃ s1, scoreStep4 cap s t = some s1 ∧ s1.index ≤ s.index + 1 := by
  unfold scoreStep4
  split_ifs
  all_goals first
    | exact ⟨_, push_some cap s _ h, le_refl _⟩
    | exact ⟨_, rfl, Nat.le_succ _⟩
    | exact ⟨_, rfl, Nat.le_trans (Nat.sub_le _ _) (Nat.le_succ _)⟩

theorem scoreStep_total (cap : Nat) (s : RecState) (t : Token) (h : s.index < cap) :
    ∃ s1, scoreStep cap s t = some s1 ∧ s1.index ≤ s.index + 1 := by
  unfold scoreStep
  split_ifs
  all_goals first
    | exact ⟨_, push_some cap s _ h, le_refl _⟩
    | exact ⟨_, rfl, Nat.le_succ _⟩
    | exact ⟨_, rfl, Nat.le_trans (Nat.sub_le _ _) (Nat.le_succ _)⟩

/-- Programs 10, 11 and 12: after the token loop the buffer holds `atoi` of every token,
in order, from the slot the loop started at. -/
theorem forOps_atoiStep (cap : Nat) :
    ∀ (ops : List Token) (s : RecState), s.index + ops.length ≤ cap →
      ∃ s1, forOps (atoiStep cap) ops s = some s1 ∧ s1.index = s.index + ops.length ∧
        (∀ j, j < s.index → s1.records j = s.records j) ∧
        (∀ j, s.index ≤ j → j < s1.index → InRange32 (s1.records j)) ∧
        exactSum s1.records s.index s1.index = (ops.map atoi).sum := by
  intro ops
  induction ops with
  | nil =>
    intro s _
    exact ⟨s, rfl, by simp, fun _ _ => rfl, fun j h1 h2 => absurd h2 (by omega),
      by simp [exactSum_self]⟩
  | cons t ts ih =>
    intro s h
    simp only [List.length_cons] at h
    have hpush := push_some cap s (atoi t) (by omega)
    obtain ⟨s2, h3, h4, h5, h6, h7⟩ := ih ⟨store s.records s.index (atoi t), s.index + 1⟩
      (by simp only; omega)
    simp only at h4 h5 h6 h7
    have hat : s2.records s.index = atoi t := by
      rw [h5 s.index (by omega)]; simp [store]
    refine ⟨s2, ?_, ?_, ?_, ?_, ?_⟩
    · simp only [forOps, atoiStep, hpush]; exact h3
    · simp only [List.length_cons]; omega
    · intro j hj
      rw [h5 j (by omega)]
      have : j ≠ s.index := by omega
      simp [store, this]
    · intro j hj1 hj2
      by_cases hj : j = s.index
      · rw [hj, hat]; exact atoi_inRange t
      · exact h6 j (by omega) hj2
    · rw [exactSum_succ_left s2.records (by omega), h7, hat]
      simp

/-! ## Programs as functions of their records -/

theorem dispatch_multi (threshold index : Nat) (flag : Int) (hf : flag ≠ 0)
    (hi : threshold ≤ index) : dispatch threshold index flag = SumPath.multi := by
  unfold dispatch
  rw [if_neg]
  intro h
  rcases h with h | h
  · exact hf h
  · omega

theorem dispatch_single (threshold index : Nat) (flag : Int)
    (h : flag = 0 ∨ index < threshold) : dispatch threshold index flag = SumPath.single := by
  unfold dispatch
  rw [if_pos h]

/-- Program 12 on the threaded path returns the wrapped sum of `atoi` of its tokens. -/
theorem calPoints12_threaded (sa : Nat → Int) (nodes : Nat) (mem : Nat → Int)
    (ops : List Token) (flag : Int) (hnodes : 1 ≤ nodes) (hlen : ops.length ≤ 1000000)
    (h500 : 500 ≤ ops.length) (hflag : flag ≠ 0) :
    File12.calPoints sa nodes mem ops flag = Outcome.returned (wrap32 ((ops.map atoi).sum)) := by
  obtain ⟨s1, h1, h2, _, _, h5⟩ := forOps_atoiStep File12.MAX_OPERATIONS ops ⟨mem, 0⟩
    (by simpa [File12.MAX_OPERATIONS] using hlen)
  simp only [Nat.zero_add] at h2 h5
  unfold File12.calPoints
  rw [h1]
  simp only
  rw [dispatch_multi _ _ _ hflag (by rw [h2]; exact h500)]
  simp only [File12.multiPath]
  rw [if_neg (by omega),
    forkJoin_eq s1.records _ (numaSimdSum12_result sa s1.records) _ _ _ (by decide), h5]

/-- Program 4 returns the wrapped sum of its records on either path. -/
theorem calPoints4_eq (mem : Nat → Int) (ops : List Token) (flag : Int) (s : RecState)
    (hs : forOps (scoreStep4 File4.MAX_OPERATIONS) ops ⟨mem, 0⟩ = some s) :
    File4.calPoints mem ops flag = Outcome.returned (wrap32 (exactSum s.records 0 s.index)) := by
  unfold File4.calPoints
  rw [hs]
  simp only
  cases dispatch 500 s.index flag with
  | single => exact singlePath4_eq s.records s.index
  | multi =>
    exact forkJoin_eq s.records _ (parallelSum4_result s.records) _ _ _ (by decide)

/-- Program 5 on the threaded path returns the wrapped sum of its records. -/
theorem calPoints5_threaded (mem : Nat → Int) (ops : List Token) (flag : Int) (s : RecState)
    (hs : forOps (scoreStep File5.MAX_OPERATIONS) ops ⟨mem, 0⟩ = some s)
    (hflag : flag ≠ 0) (h500 : 500 ≤ s.index) :
    File5.calPoints mem ops flag = Outcome.returned (wrap32 (exactSum s.records 0 s.index)) := by
  unfold File5.calPoints
  rw [hs]
  simp only
  rw [dispatch_multi _ _ _ hflag h500]
  exact forkJoin_eq s.records _ (simdSum_result s.records) _ _ _ (by decide)

/-- C3 (counterexample). Program 12 called with 500 tokens `"2147483647"` and the threaded
path preferred returns -500, while the mathematical sum of its 500 records is
1073741823500: the returned total is reduced modulo 2^32. -/
theorem total_exact_counterexample :
    File12.calPoints (fun _ => 0) 1 (fun _ => 0) (List.replicate 500 "2147483647") 1
      = Outcome.returned (-500) ∧
    ((List.replicate 500 "2147483647").map atoi).sum = 1073741823500 ∧
    File12.calPoints (fun _ => 0) 1 (fun _ => 0) (List.replicate 500 "2147483647") 1
      ≠ Outcome.returned (((List.replicate 500 "2147483647").map atoi).sum) := by
  have hat : atoi "2147483647" = 2147483647 := by decide
  have hsum : ((List.replicate 500 "2147483647").map atoi).sum = 1073741823500 := by
    rw [List.map_replicate, List.sum_replicate, hat]; rfl
  have hcal := calPoints12_threaded (fun _ => 0) 1 (fun _ => 0)
    (List.replicate 500 "2147483647") 1 (by decide)
    (by rw [List.length_replicate]; norm_num) (by rw [List.length_replicate]) (by decide)
  rw [hsum] at hcal
  have hw : wrap32 1073741823500 = -500 := by decide
  rw [hw] at hcal
  refine ⟨hcal, hsum, ?_⟩
  rw [hcal, hsum]
  decide

/-- C3 (amended). The reduction result is a signed 32-bit integer: for every sequence
of signed 32-bit integers of length `N ≤ 1000000` and every lane count `L ≥ 1`, the total
of the threaded path (workers of programs 5 and 12) is the mathematical sum of the
elements reduced modulo 2^32 into the signed 32-bit range, and it is that sum itself
whenever the sum is representable in 32 bits; program 12 called with 500 to 1000000
tokens and the threaded path preferred, on a system with at least one configured node,
returns the sum of its records so reduced. -/
theorem total_is_wrapped_sum (records : Nat → Int) (N L : Nat) (numa : Nat → Nat)
    (setaffinity : Nat → Int) (_hN : N ≤ 1000000)
    (_hrec : ∀ i, i < N → InRange32 (records i)) (hL : 1 ≤ L) :
    forkJoin (File5.simdSum records) L N numa
      = Outcome.returned (wrap32 (exactSum records 0 N)) ∧
    forkJoin (File12.numaSimdSum setaffinity records) L N numa
      = Outcome.returned (wrap32 (exactSum records 0 N)) ∧
    InRange32 (wrap32 (exactSum records 0 N)) ∧
    (InRange32 (exactSum records 0 N) →
      forkJoin (File5.simdSum records) L N numa = Outcome.returned (exactSum records 0 N) ∧
      forkJoin (File12.numaSimdSum setaffinity records) L N numa
        = Outcome.returned (exactSum records 0 N)) ∧
    (∀ (nodes : Nat) (mem : Nat → Int) (ops : List Token) (flag : Int),
      1 ≤ nodes → 500 ≤ ops.length → ops.length ≤ 1000000 → flag ≠ 0 →
      File12.calPoints setaffinity nodes mem ops flag
        = Outcome.returned (wrap32 ((ops.map atoi).sum))) := by
  have h5 := forkJoin_eq records _ (simdSum_result records) L N numa hL
  have h12 := forkJoin_eq records _ (numaSimdSum12_result setaffinity records) L N numa hL
  refine ⟨h5, h12, wrap32_inRange _, fun hr => ?_,
    fun nodes mem ops flag hnodes h500 hlen hflag =>
      calPoints12_threaded setaffinity nodes mem ops flag hnodes hlen h500 hflag⟩
  rw [h5, h12, wrap32_of_inRange hr]
  exact ⟨rfl, rfl⟩

/-- Witness for C3 (amended): the nine-element sequence, four lanes. -/
theorem total_is_wrapped_sum_witness :
    (9 ≤ 1000000 ∧ (∀ i, i < 9 → InRange32 (ofList seq9 i)) ∧ 1 ≤ 4) ∧
    forkJoin (File12.numaSimdSum (fun _ => 0) (ofList seq9)) 4 9 (fun i => i % 1)
      = Outcome.returned (wrap32 (exactSum (ofList seq9) 0 9)) :=
  ⟨⟨by decide, by decide, by decide⟩,
    (total_is_wrapped_sum (ofList seq9) 9 4 (fun i => i % 1) (fun _ => 0) (by decide)
      (by decide) (by decide)).2.1⟩

/-- C4. Path equivalence: program 4 returns the same value with `useMultithreading = 0`
(one loop over `[0, N)`) and with `useMultithreading = 1` (two lanes), and it does return
when the tokens fit the buffer; for every sequence and every lane count `L ≥ 1`, in
particular 1, 2, 3 and 4, the threaded result (scalar or 8-wide worker) is the result of
the single loop. -/
theorem path_equivalence (mem : Nat → Int) (ops : List Token) (records : Nat → Int)
    (N L : Nat) (numa : Nat → Nat) (hL : 1 ≤ L) :
    File4.calPoints mem ops 0 = File4.calPoints mem ops 1 ∧
    (ops.length ≤ File4.MAX_OPERATIONS →
      ∃ v, File4.calPoints mem ops 0 = Outcome.returned v ∧
        File4.calPoints mem ops 1 = Outcome.returned v) ∧
    forkJoin (File4.parallelSum records) L N numa = File4.singlePath records N ∧
    forkJoin (File5.simdSum records) L N numa = File4.singlePath records N := by
  refine ⟨?_, ?_, ?_, ?_⟩
  · cases hs : forOps (scoreStep4 File4.MAX_OPERATIONS) ops ⟨mem, 0⟩ with
    | none => simp [File4.calPoints, hs]
    | some s => rw [calPoints4_eq mem ops 0 s hs, calPoints4_eq mem ops 1 s hs]
  · intro hlen
    obtain ⟨s, hs, _⟩ := forOps_total File4.MAX_OPERATIONS _
      (scoreStep4_total File4.MAX_OPERATIONS) ops ⟨mem, 0⟩ (by simpa using hlen)
    exact ⟨_, calPoints4_eq mem ops 0 s hs, calPoints4_eq mem ops 1 s hs⟩
  · rw [singlePath4_eq, forkJoin_eq records _ (parallelSum4_result records) L N numa hL]
  · rw [singlePath4_eq, forkJoin_eq records _ (simdSum_result records) L N numa hL]

/-- Witness for C4: three lanes over the nine-element sequence. -/
theorem path_equivalence_witness :
    1 ≤ 3 ∧
    forkJoin (File4.parallelSum (ofList seq9)) 3 9 (fun _ => 0)
      = File4.singlePath (ofList seq9) 9 :=
  ⟨by decide,
    (path_equivalence (fun _ => 0) [] (ofList seq9) 9 3 (fun _ => 0) (by decide)).2.2.1⟩

/-- C5. Tail handling: for every buffer and every range `[start, end)` with
`start ≤ end ≤ 1000000`, whatever `(end - start) % 8` is, the 8-wide worker `simdSum`
stores the same result as the scalar worker `parallelSum` (programs 3 and 4). -/
theorem tail_handling (records : Nat → Int) (data : ThreadData)
    (_h1 : data.start ≤ data.end_) (_h2 : data.end_ ≤ 1000000) :
    (File5.simdSum records data).1.result = (File4.parallelSum records data).1.result ∧
    (File5.simdSum records data).1.result = (File3.parallelSum records data).1.result := by
  rw [simdSum_result, parallelSum4_result, parallelSum3_result]
  exact ⟨rfl, rfl⟩

/-- Witness for C5: the range `[1, 8)` of seven elements, all of it scalar tail. -/
theorem tail_handling_witness :
    ((1 : Nat) ≤ 8 ∧ (8 : Nat) ≤ 1000000) ∧
    (File5.simdSum (ofList seq9) ⟨1, 8, 0, 0⟩).1.result
      = (File4.parallelSum (ofList seq9) ⟨1, 8, 0, 0⟩).1.result :=
  ⟨⟨by decide, by decide⟩, (tail_handling (ofList seq9) ⟨1, 8, 0, 0⟩ (by decide) (by decide)).1⟩

/-- C6 (counterexample). For the nine-element sequence and two lanes the partial sums
are not 60 and 80 and the total is not 140: the code gives 60 and 70, total 130, and
130 is also what the naive loop gives. -/
theorem scenario_nine_counterexample :
    (lanes 2 9 (fun _ => 0)).map (fun d => (File5.simdSum (ofList seq9) d).1.result) ≠ [60, 80] ∧
    forkJoin (File5.simdSum (ofList seq9)) 2 9 (fun _ => 0) ≠ Outcome.returned 140 ∧
    File3.calPoints (fun _ => 0) ops9 ≠ Outcome.returned 140 ∧
    File4.singlePath (ofList seq9) 9 ≠ Outcome.returned 140 := by
  decide

/-- C6 (amended). For the sequence `[10, 20, 10, 20, 10, 20, 10, 20, 10]` and two lanes
the partition is `[0, 4)` and `[4, 9)`, the partial sums are 60 and 70 (scalar and
8-wide worker alike), the aggregated total is 130, and 130 is the naive sum of the
sequence; program 3 returns 130 on tokens that produce these records. -/
theorem scenario_nine :
    (lanes 2 9 (fun _ => 0)).map (fun d => (d.start, d.end_)) = [(0, 4), (4, 9)] ∧
    (lanes 2 9 (fun _ => 0)).map (fun d => (File5.simdSum (ofList seq9) d).1.result) = [60, 70] ∧
    (lanes 2 9 (fun _ => 0)).map (fun d => (File3.parallelSum (ofList seq9) d).1.result)
      = [60, 70] ∧
    forkJoin (File5.simdSum (ofList seq9)) 2 9 (fun _ => 0) = Outcome.returned 130 ∧
    forkJoin (File3.parallelSum (ofList seq9)) 2 9 (fun _ => 0) = Outcome.returned 130 ∧
    File4.singlePath (ofList seq9) 9 = Outcome.returned 130 ∧
    seq9.sum = 130 ∧
    File3.calPoints (fun _ => 0) ops9 = Outcome.returned 130 := by
  decide

/-! ## The benchmark input -/

theorem alternating_even (k : Nat) : alternating (2 * k) = 10 := by
  simp [alternating]

theorem alternating_odd (k : Nat) : alternating (2 * k + 1) = 20 := by
  have : (2 * k + 1) % 2 ≠ 0 := by omega
  simp [alternating, this]

theorem alternating_add_two (j : Nat) : alternating (j + 2) = alternating j := by
  simp [alternating]

theorem exactSum_alternating (k : Nat) : exactSum alternating 0 (2 * k) = 30 * k := by
  induction k with
  | zero => simp [exactSum_self]
  | succ k ih =>
    have h : 2 * (k + 1) = 2 * k + 1 + 1 := by ring
    rw [h, exactSum_succ_right _ (by omega), exactSum_succ_right _ (by omega), ih,
      alternating_even, alternating_odd]
    push_cast
    ring

/-- The token loop on `largeOps k`, for a loop body that records 10 on `"10"` and the
double of the last record on `"D"`: `2 * k` records are appended, alternating 10, 20. -/
theorem forOps_largeOps (cap : Nat) (body : RecState → Token → Option RecState)
    (h10 : ∀ s, body s "10" = push cap s 10)
    (hD : ∀ s, 0 < s.index → body s "D" = push cap s (wrap32 (2 * s.records (s.index - 1)))) :
    ∀ (k : Nat) (s : RecState), s.index + 2 * k ≤ cap →
      ∃ s1, forOps body (largeOps k) s = some s1 ∧ s1.index = s.index + 2 * k ∧
        (∀ j, j < s.index → s1.records j = s.records j) ∧
        (∀ j, j < 2 * k → s1.records (s.index + j) = alternating j) := by
  intro k
  induction k with
  | zero =>
    intro s _
    exact ⟨s, rfl, by simp, fun _ _ => rfl, fun j hj => absurd hj (by omega)⟩
  | succ k ih =>
    intro s h
    have hA : body s "10" = some ⟨store s.records s.index 10, s.index + 1⟩ := by
      rw [h10, push_some cap s 10 (by omega)]
    have hB : body ⟨store s.records s.index 10, s.index + 1⟩ "D"
        = some ⟨store (store s.records s.index 10) (s.index + 1) 20, s.index + 1 + 1⟩ := by
      rw [hD _ (by simp), push_some cap _ _ (by simp only; omega)]
      simp only [Nat.add_sub_cancel, store, if_pos]
      rfl
    obtain ⟨s1, h1, h2, h3, h4⟩ :=
      ih ⟨store (store s.records s.index 10) (s.index + 1) 20, s.index + 1 + 1⟩
        (by simp only; omega)
    simp only at h2 h3 h4
    refine ⟨s1, ?_, by omega, ?_, ?_⟩
    · simp only [largeOps, forOps, hA, hB]; exact h1
    · intro j hj
      rw [h3 j (by omega)]
      have e1 : j ≠ s.index + 1 := by omega
      have e2 : j ≠ s.index := by omega
      simp [store, e1, e2]
    · intro j hj
      match j with
      | 0 =>
        rw [Nat.add_zero, h3 s.index (by omega)]
        simp [store, alternating]
      | 1 =>
        rw [h3 (s.index + 1) (by omega)]
        simp [store, alternating]
      | j + 2 =>
        have := h4 j (by omega)
        rw [alternating_add_two, ← this]
        congr 1
        omega

theorem scoreStep_ten (cap : Nat) (s : RecState) : scoreStep cap s "10" = push cap s 10 := by
  have h1 : isNumber "10" = true := by decide
  have h2 : atoi "10" = 10 := by decide
  simp [scoreStep, h1, h2]

theorem scoreStep_D (cap : Nat) (s : RecState) (h : 0 < s.index) :
    scoreStep cap s "D" = push cap s (wrap32 (2 * s.records (s.index - 1))) := by
  have h1 : isNumber "D" = false := by decide
  have h2 : ("D" : Token) ≠ "C" := by decide
  simp [scoreStep, h1, h2, h]

theorem scoreStep4_ten (cap : Nat) (s : RecState) : scoreStep4 cap s "10" = push cap s 10 := by
  have h1 : startsWithDigit "10" = true := by decide
  have h2 : atoi "10" = 10 := by decide
  simp [scoreStep4, h1, h2]

theorem scoreStep4_D (cap : Nat) (s : RecState) (h : 0 < s.index) :
    scoreStep4 cap s "D" = push cap s (wrap32 (2 * s.records (s.index - 1))) := by
  have h1 : startsWithDigit "D" = false := by decide
  have h2 : ("D" : Token) ≠ "C" := by decide
  simp [scoreStep4, h1, h2, h]

theorem wrap32_benchmark : wrap32 (exactSum alternating 0 1000000) = 15000000 := by
  have h := exactSum_alternating 500000
  norm_num at h
  rw [h]
  decide

/-- The records of the benchmark input and their wrapped sum, for a loop body that
follows the scoring rules on `"10"` and `"D"`. -/
theorem largeOps_records (cap : Nat) (hcap : 1000000 ≤ cap)
    (body : RecState → Token → Option RecState)
    (h10 : ∀ s, body s "10" = push cap s 10)
    (hD : ∀ s, 0 < s.index → body s "D" = push cap s (wrap32 (2 * s.records (s.index - 1))))
    (mem : Nat → Int) :
    ∃ s, forOps body (largeOps 500000) ⟨mem, 0⟩ = some s ∧ s.index = 1000000 ∧
      (∀ j, j < 1000000 → s.records j = alternating j) ∧
      wrap32 (exactSum s.records 0 s.index) = 15000000 := by
  obtain ⟨s, h1, h2, _, h4⟩ := forOps_largeOps cap body h10 hD 500000 ⟨mem, 0⟩
    (by simp only; omega)
  simp only [Nat.zero_add] at h2 h4
  have hidx : s.index = 1000000 := by omega
  have hrec : ∀ j, j < 1000000 → s.records j = alternating j := fun j hj => h4 j (by omega)
  refine ⟨s, h1, hidx, hrec, ?_⟩
  rw [hidx, exactSum_congr s.records alternating 0 1000000 (fun i _ hi => hrec i hi)]
  exact wrap32_benchmark

/-- C7. Benchmark scenario: the 1000000 tokens `"10", "D"` repeated 500000 times produce
the records 10, 20, 10, 20, ...; on that sequence the single loop and the threaded
reduction with 1, 2 and 4 lanes (workers of programs 4, 5 and 12) all give 15000000;
program 4 returns 15000000 with `useMultithreading` 0 and 1, and program 5 returns
15000000 when called as its `main` calls it (`useMultithreading = 1`). -/
theorem benchmark_total (mem : Nat → Int) (numa : Nat → Nat) (setaffinity : Nat → Int) :
    (∃ s, forOps (scoreStep File5.MAX_OPERATIONS) (largeOps 500000) ⟨mem, 0⟩ = some s ∧
      s.index = 1000000 ∧ ∀ j, j < 1000000 → s.records j = alternating j) ∧
    File4.singlePath alternating 1000000 = Outcome.returned 15000000 ∧
    forkJoin (File5.simdSum alternating) 1 1000000 numa = Outcome.returned 15000000 ∧
    forkJoin (File5.simdSum alternating) 2 1000000 numa = Outcome.returned 15000000 ∧
    forkJoin (File5.simdSum alternating) 4 1000000 numa = Outcome.returned 15000000 ∧
    forkJoin (File4.parallelSum alternating) 2 1000000 numa = Outcome.returned 15000000 ∧
    forkJoin (File12.numaSimdSum setaffinity alternating) 4 1000000 numa
      = Outcome.returned 15000000 ∧
    File4.calPoints mem (largeOps 500000) 0 = Outcome.returned 15000000 ∧
    File4.calPoints mem (largeOps 500000) 1 = Outcome.returned 15000000 ∧
    File5.calPoints mem (largeOps 500000) 1 = Outcome.returned 15000000 := by
  obtain ⟨s5, h5, h5i, h5r, h5s⟩ := largeOps_records File5.MAX_OPERATIONS (le_refl _)
    (scoreStep File5.MAX_OPERATIONS) (scoreStep_ten _) (scoreStep_D _) mem
  obtain ⟨s4, h4, _, _, h4s⟩ := largeOps_records File4.MAX_OPERATIONS (le_refl _)
    (scoreStep4 File4.MAX_OPERATIONS) (scoreStep4_ten _) (scoreStep4_D _) mem
  have hb := wrap32_benchmark
  refine ⟨⟨s5, h5, h5i, h5r⟩, ?_, ?_, ?_, ?_, ?_, ?_, ?_, ?_, ?_⟩
  · rw [singlePath4_eq, hb]
  · rw [forkJoin_eq alternating _ (simdSum_result alternating) _ _ _ (by decide), hb]
  · rw [forkJoin_eq alternating _ (simdSum_result alternating) _ _ _ (by decide), hb]
  · rw [forkJoin_eq alternating _ (simdSum_result alternating) _ _ _ (by decide), hb]
  · rw [forkJoin_eq alternating _ (parallelSum4_result alternating) _ _ _ (by decide), hb]
  · rw [forkJoin_eq alternating _ (numaSimdSum12_result setaffinity alternating) _ _ _
      (by decide), hb]
  · rw [calPoints4_eq mem _ 0 s4 h4, h4s]
  · rw [calPoints4_eq mem _ 1 s4 h4, h4s]
  · rw [calPoints5_threaded mem _ 1 s5 h5 (by decide) (by omega), h5s]

/-- The in-thread path of programs 5, 6 and 12 never gives a value back, whatever the
records: the directly called worker ends the calling thread. -/
theorem inThread_path_exits (setaffinity : Nat → Int) (records : Nat → Int) (N : Nat) :
    File5.singlePath records N = Outcome.threadExit ∧
    File12.singlePath setaffinity records N = Outcome.threadExit :=
  ⟨rfl, rfl⟩

/-- C8 (the code at the failing input). With one token `"7"` and `useMultithreading = 1`,
programs 5, 6 and 12 take the in-thread path; the worker stores the right sum, 7, and then
ends the calling thread, so `calPoints` returns nothing; program 4, whose in-thread path
is a plain loop, returns 7. -/
theorem small_input_never_returns :
    dispatch File12.SIMD_THRESHOLD 1 1 = SumPath.single ∧
    (File12.numaSimdSum (fun _ => 0) (ofList [7]) ⟨0, 1, 0, 0⟩)
      = (⟨0, 1, 7, 0⟩, Control.pthreadExit) ∧
    File12.calPoints (fun _ => 0) 1 (fun _ => 0) ["7"] 1 = Outcome.threadExit ∧
    File5.calPoints (fun _ => 0) ["7"] 1 = Outcome.threadExit ∧
    File6.calPoints (fun _ => 0) ["7"] 1 = Outcome.threadExit ∧
    File4.calPoints (fun _ => 0) ["7"] 1 = Outcome.returned 7 := by
  decide

/-! ## Degenerate inputs -/

theorem wrap32_zero : wrap32 0 = 0 := by decide

theorem forOps_invariant (P : RecState → Prop) (body : RecState → Token → Option RecState)
    (hbody : ∀ s t s1, body s t = some s1 → P s → P s1) :
    ∀ (ops : List Token) (s s1 : RecState), forOps body ops s = some s1 → P s → P s1 := by
  intro ops
  induction ops with
  | nil =>
    intro s s1 h hP
    simp only [forOps, Option.some.injEq] at h
    exact h ▸ hP
  | cons t ts ih =>
    intro s s1 h hP
    simp only [forOps] at h
    cases hb : body s t with
    | none => simp [hb] at h
    | some s2 =>
      rw [hb] at h
      exact ih s2 s1 h (hbody s t s2 hb hP)

theorem push_inRange (cap : Nat) (s s1 : RecState) (v : Int) (hv : InRange32 v)
    (h : push cap s v = some s1) (hs : RecordsInRange s) : RecordsInRange s1 := by
  unfold push at h
  split at h
  · simp only [Option.some.injEq] at h
    subst h
    intro j hj
    simp only at hj
    by_cases e : j = s.index
    · simp [store, e, hv]
    · simp only [store, if_neg e]
      exact hs j (by omega)
  · simp at h

theorem scoreStep_inRange (cap : Nat) (s : RecState) (t : Token) (s1 : RecState)
    (h : scoreStep cap s t = some s1) (hs : RecordsInRange s) : RecordsInRange s1 := by
  unfold scoreStep at h
  split_ifs at h
  · exact push_inRange cap s s1 _ (atoi_inRange t) h hs
  · simp only [Option.some.injEq] at h
    subst h
    intro j hj
    exact hs j (by simp only at hj; omega)
  · exact push_inRange cap s s1 _ (wrap32_inRange _) h hs
  · exact push_inRange cap s s1 _ (wrap32_inRange _) h hs
  · simp only [Option.some.injEq] at h
    exact h ▸ hs

theorem atoiStep_inRange (cap : Nat) (s : RecState) (t : Token) (s1 : RecState)
    (h : atoiStep cap s t = some s1) (hs : RecordsInRange s) : RecordsInRange s1 :=
  push_inRange cap s s1 _ (atoi_inRange t) h hs

theorem recordsInRange_init (mem : Nat → Int) : RecordsInRange ⟨mem, 0⟩ :=
  fun j hj => absurd hj (by simp)

/-- Two lanes over no record or one record, for a worker that cannot fault. -/
theorem forkJoin_degenerate (r : Nat → Int) (w : ThreadData → ThreadData × Control)
    (hw : ∀ d, (w d).1.result = wrap32 (exactSum r d.start d.end_)) (numa : Nat → Nat) :
    forkJoin w 2 0 numa = Outcome.returned 0 ∧
    (InRange32 (r 0) → forkJoin w 2 1 numa = Outcome.returned (r 0)) := by
  constructor
  · rw [forkJoin_eq r w hw 2 0 numa (by decide), exactSum_self]; rfl
  · intro h0
    rw [forkJoin_eq r w hw 2 1 numa (by decide), exactSum_succ_right r (le_refl 0),
      exactSum_self, zero_add, wrap32_of_inRange h0]

/-- Two lanes over no record or one record, for the worker with aligned loads: no
8-wide load is issued. -/
theorem forkJoinFaulting_degenerate (sa : Nat → Int) (r : Nat → Int) :
    forkJoinFaulting (File10.numaSimdSum sa r) 2 0 (fun i => i) = Outcome.returned 0 ∧
    (InRange32 (r 0) →
      forkJoinFaulting (File10.numaSimdSum sa r) 2 1 (fun i => i) = Outcome.returned (r 0)) := by
  constructor
  · simp [forkJoinFaulting, lanes, laneData, runFaulting, File10.numaSimdSum, vecLoopAligned,
      joinAndAdd, addLoop, sumOfArray, mm256_storeu_si256, mm256_setzero_si256, List.range,
      List.range.loop, wrap32_zero]
  · intro h0
    have hw : wrap32 (r 0) = r 0 := wrap32_of_inRange h0
    simp [forkJoinFaulting, lanes, laneData, runFaulting, File10.numaSimdSum, vecLoopAligned,
      joinAndAdd, addLoop, sumOfArray, mm256_storeu_si256, mm256_setzero_si256, List.range,
      List.range.loop, wrap32_zero, hw]

theorem calPoints3_eq (mem : Nat → Int) (ops : List Token) (s : RecState)
    (hs : forOps (scoreStep File3.MAX_OPERATIONS) ops ⟨mem, 0⟩ = some s) :
    File3.calPoints mem ops = forkJoin (File3.parallelSum s.records) 2 s.index (fun _ => 0) := by
  unfold File3.calPoints
  rw [hs]
  rfl

theorem calPoints10_eq (sa : Nat → Int) (mem : Nat → Int) (ops : List Token) (s : RecState)
    (hs : forOps (atoiStep File10.MAX_OPERATIONS) ops ⟨mem, 0⟩ = some s) :
    File10.calPoints sa mem ops
      = forkJoinFaulting (File10.numaSimdSum sa s.records) 2 s.index (fun i => i) := by
  unfold File10.calPoints
  rw [hs]
  rfl

theorem calPoints11_eq (sa : Nat → Int) (mem : Nat → Int) (ops : List Token) (s : RecState)
    (hs : forOps (atoiStep File10.MAX_OPERATIONS) ops ⟨mem, 0⟩ = some s) :
    File11.calPoints sa mem ops
      = forkJoinFaulting (File10.numaSimdSum sa s.records) 2 s.index (fun i => i) := by
  unfold File11.calPoints
  rw [hs]
  rfl

/-- C9. Degenerate inputs on the programs that always take the threaded path with two
lanes: when the token loop leaves no record, `calPoints` of programs 3, 10 and 11 returns
0, and when it leaves one record it returns that record; the lanes are then `[0, 0)` and
`[0, 0)`, respectively `[0, 0)` and `[0, 1)`.  In particular the empty token list gives
0 and a single token `t` gives `atoi t` (for program 3 when `t` is a number). -/
theorem degenerate_inputs (setaffinity : Nat → Int) (mem : Nat → Int) (ops : List Token) :
    (∀ s, forOps (scoreStep File3.MAX_OPERATIONS) ops ⟨mem, 0⟩ = some s →
      (s.index = 0 → File3.calPoints mem ops = Outcome.returned 0) ∧
      (s.index = 1 → File3.calPoints mem ops = Outcome.returned (s.records 0))) ∧
    (∀ s, forOps (atoiStep File10.MAX_OPERATIONS) ops ⟨mem, 0⟩ = some s →
      (s.index = 0 → File10.calPoints setaffinity mem ops = Outcome.returned 0 ∧
        File11.calPoints setaffinity mem ops = Outcome.returned 0) ∧
      (s.index = 1 → File10.calPoints setaffinity mem ops = Outcome.returned (s.records 0) ∧
        File11.calPoints setaffinity mem ops = Outcome.returned (s.records 0))) ∧
    (File3.calPoints mem [] = Outcome.returned 0 ∧
      File10.calPoints setaffinity mem [] = Outcome.returned 0 ∧
      File11.calPoints setaffinity mem [] = Outcome.returned 0) ∧
    (∀ t, (isNumber t = true → File3.calPoints mem [t] = Outcome.returned (atoi t)) ∧
      File10.calPoints setaffinity mem [t] = Outcome.returned (atoi t) ∧
      File11.calPoints setaffinity mem [t] = Outcome.returned (atoi t)) ∧
    (lanes 2 0 (fun i => i)).map (fun d => (d.start, d.end_)) = [(0, 0), (0, 0)] ∧
    (lanes 2 1 (fun i => i)).map (fun d => (d.start, d.end_)) = [(0, 0), (0, 1)] := by
  have h3 : ∀ (ops : List Token) (s : RecState),
      forOps (scoreStep File3.MAX_OPERATIONS) ops ⟨mem, 0⟩ = some s →
      (s.index = 0 → File3.calPoints mem ops = Outcome.returned 0) ∧
      (s.index = 1 → File3.calPoints mem ops = Outcome.returned (s.records 0)) := by
    intro ops s hs
    have hinv := forOps_invariant RecordsInRange _ (scoreStep_inRange File3.MAX_OPERATIONS)
      ops _ s hs (recordsInRange_init mem)
    have hd := forkJoin_degenerate s.records _ (parallelSum3_result s.records) (fun _ => 0)
    rw [calPoints3_eq mem ops s hs]
    constructor
    · intro h0; rw [h0]; exact hd.1
    · intro h1; rw [h1]; exact hd.2 (hinv 0 (by omega))
  have h10 : ∀ (ops : List Token) (s : RecState),
      forOps (atoiStep File10.MAX_OPERATIONS) ops ⟨mem, 0⟩ = some s →
      (s.index = 0 → File10.calPoints setaffinity mem ops = Outcome.returned 0 ∧
        File11.calPoints setaffinity mem ops = Outcome.returned 0) ∧
      (s.index = 1 → File10.calPoints setaffinity mem ops = Outcome.returned (s.records 0) ∧
        File11.calPoints setaffinity mem ops = Outcome.returned (s.records 0)) := by
    intro ops s hs
    have hinv := forOps_invariant RecordsInRange _ (atoiStep_inRange File10.MAX_OPERATIONS)
      ops _ s hs (recordsInRange_init mem)
    have hd := forkJoinFaulting_degenerate setaffinity s.records
    rw [calPoints10_eq setaffinity mem ops s hs, calPoints11_eq setaffinity mem ops s hs]
    constructor
    · intro h0; rw [h0]; exact ⟨hd.1, hd.1⟩
    · intro h1; rw [h1]; exact ⟨hd.2 (hinv 0 (by omega)), hd.2 (hinv 0 (by omega))⟩
  refine ⟨h3 ops, h10 ops, ⟨(h3 [] ⟨mem, 0⟩ rfl).1 rfl, (h10 [] ⟨mem, 0⟩ rfl).1 rfl⟩, ?_,
    by decide, by decide⟩
  intro t
  have e10 : forOps (atoiStep File10.MAX_OPERATIONS) [t] ⟨mem, 0⟩
      = some ⟨store mem 0 (atoi t), 1⟩ := by
    simp [forOps, atoiStep, push, File10.MAX_OPERATIONS]
  have hst : store mem 0 (atoi t) 0 = atoi t := by simp [store]
  refine ⟨?_, ?_⟩
  · intro hnum
    have e3 : forOps (scoreStep File3.MAX_OPERATIONS) [t] ⟨mem, 0⟩
        = some ⟨store mem 0 (atoi t), 1⟩ := by
      simp [forOps, scoreStep, hnum, push, File3.MAX_OPERATIONS]
    have := (h3 [t] _ e3).2 rfl
    rw [this]; simp only [hst]
  · have := (h10 [t] _ e10).2 rfl
    simp only [hst] at this
    exact this

/-- C10. Dispatch policy: the test of programs 4, 5, 6 and 12 selects the in-thread path
exactly when `useMultithreading` is 0 or `N < 500`, and the threaded path exactly when
`useMultithreading` is not 0 and `N ≥ 500`; `calPoints` of each of the four programs
runs the path so selected on the records and record count `N` left by its token loop,
the in-thread path being one pass (a plain loop in program 4, one direct call of the
worker elsewhere) over the full range `[0, N)`. -/
theorem dispatch_policy (setaffinity : Nat → Int) (nodes : Nat) (mem : Nat → Int)
    (ops : List Token) (flag : Int) (records : Nat → Int) (N : Nat) :
    (dispatch 500 N flag = SumPath.single ↔ (flag = 0 ∨ N < 500)) ∧
    (dispatch 500 N flag = SumPath.multi ↔ (flag ≠ 0 ∧ 500 ≤ N)) ∧
    File12.SIMD_THRESHOLD = 500 ∧
    File4.calPoints mem ops flag =
      (match forOps (scoreStep4 File4.MAX_OPERATIONS) ops ⟨mem, 0⟩ with
        | none => Outcome.outOfBounds
        | some s =>
          if flag = 0 ∨ s.index < 500 then File4.singlePath s.records s.index
          else File4.multiPath s.records s.index) ∧
    File5.calPoints mem ops flag =
      (match forOps (scoreStep File5.MAX_OPERATIONS) ops ⟨mem, 0⟩ with
        | none => Outcome.outOfBounds
        | some s =>
          if flag = 0 ∨ s.index < 500 then File5.singlePath s.records s.index
          else File5.multiPath s.records s.index) ∧
    File6.calPoints mem ops flag =
      (match forOps (scoreStep File5.MAX_OPERATIONS) ops ⟨mem, 0⟩ with
        | none => Outcome.outOfBounds
        | some s =>
          if flag = 0 ∨ s.index < 500 then File5.singlePath s.records s.index
          else File5.multiPath s.records s.index) ∧
    File12.calPoints setaffinity nodes mem ops flag =
      (match forOps (atoiStep File12.MAX_OPERATIONS) ops ⟨mem, 0⟩ with
        | none => Outcome.outOfBounds
        | some s =>
          if flag = 0 ∨ s.index < 500 then File12.singlePath setaffinity s.records s.index
          else File12.multiPath setaffinity nodes s.records s.index) ∧
    File4.singlePath records N = Outcome.returned (addLoop records N N 0 0) ∧
    File5.singlePath records N
      = callThenReturn (File5.simdSum records ⟨0, N, 0, 0⟩) ∧
    File12.singlePath setaffinity records N
      = callThenReturn (File12.numaSimdSum setaffinity records ⟨0, N, 0, 0⟩) := by
  have hsplit : ∀ (n : Nat) (a b : Outcome),
      (match dispatch 500 n flag with
        | SumPath.single => a
        | SumPath.multi => b) = if flag = 0 ∨ n < 500 then a else b := by
    intro n a b
    unfold dispatch
    split_ifs <;> rfl
  refine ⟨?_, ?_, rfl, ?_, ?_, ?_, ?_, rfl, rfl, rfl⟩
  · unfold dispatch
    split_ifs with h <;> simp [h]
  · unfold dispatch
    split_ifs with h
    · simp only [false_iff, reduceCtorEq]
      rintro ⟨h1, h2⟩
      rcases h with h | h
      · exact h1 h
      · omega
    · simp only [true_iff]
      exact ⟨fun e => h (Or.inl e), by omega⟩
  · unfold File4.calPoints
    cases forOps (scoreStep4 File4.MAX_OPERATIONS) ops ⟨mem, 0⟩ with
    | none => rfl
    | some s => exact hsplit _ _ _
  · unfold File5.calPoints
    cases forOps (scoreStep File5.MAX_OPERATIONS) ops ⟨mem, 0⟩ with
    | none => rfl
    | some s => exact hsplit _ _ _
  · unfold File6.calPoints
    cases forOps (scoreStep File5.MAX_OPERATIONS) ops ⟨mem, 0⟩ with
    | none => rfl
    | some s => exact hsplit _ _ _
  · unfold File12.calPoints
    cases forOps (atoiStep File12.MAX_OPERATIONS) ops ⟨mem, 0⟩ with
    | none => rfl
    | some s => exact hsplit _ _ _

/-! ## What the loops read: lemmas -/

/-- The scalar loop reads every index from `i` up to `stop`, once, in order. -/
theorem addLoopReads_eq (stop : Nat) :
    ∀ (fuel i : Nat), stop - i ≤ fuel → addLoopReads stop fuel i = List.range' i (stop - i) := by
  intro fuel
  induction fuel with
  | zero =>
    intro i h
    have : stop - i = 0 := by omega
    simp [addLoopReads, this]
  | succ n ih =>
    intro i h
    unfold addLoopReads
    split
    · next hlt =>
      rw [ih (i + 1) (by omega)]
      have : stop - i = (stop - (i + 1)) + 1 := by omega
      rw [this, List.range'_succ]
    · next hge =>
      have : stop - i = 0 := by omega
      simp [this]

/-- The 8-wide loop stops at the same index whether its loads are added up or written
down. -/
theorem vecLoop_fst (r : Nat → Int) (stop : Nat) :
    ∀ (fuel i : Nat) (v : Vec8), (vecLoop r stop fuel i v).1 = (vecLoopLoads stop fuel i).1 := by
  intro fuel
  induction fuel with
  | zero => intro i v; rfl
  | succ n ih =>
    intro i v
    unfold vecLoop vecLoopLoads
    split
    · exact ih _ _
    · rfl

/-- The loads of the 8-wide loop: where they are, how many, and what they read. -/
theorem vecLoopLoads_spec (stop : Nat) :
    ∀ (fuel i : Nat), stop - i ≤ fuel →
      (vecLoopLoads stop fuel i).1 = i + 8 * (vecLoopLoads stop fuel i).2.length ∧
      (vecLoopLoads stop fuel i).2.length = (stop - i) / 8 ∧
      (∀ k, k ∈ (vecLoopLoads stop fuel i).2 → i ≤ k ∧ k + 7 < stop ∧ (k - i) % 8 = 0) ∧
      (vecLoopLoads stop fuel i).2.flatMap loadReads
        = List.range' i (8 * (vecLoopLoads stop fuel i).2.length) := by
  intro fuel
  induction fuel with
  | zero =>
    intro i h
    simp only [vecLoopLoads, List.length_nil, List.flatMap_nil]
    refine ⟨by omega, by omega, fun k hk => absurd hk (List.not_mem_nil k), by simp⟩
  | succ n ih =>
    intro i h
    unfold vecLoopLoads
    split
    · next hlt =>
      obtain ⟨h1, h2, h3, h4⟩ := ih (i + 8) (by omega)
      simp only [List.length_cons, List.flatMap_cons, List.mem_cons]
      refine ⟨by omega, by omega, ?_, ?_⟩
      · intro k hk
        rcases hk with hk | hk
        · subst hk; exact ⟨le_refl _, hlt, by simp⟩
        · obtain ⟨a, b, c⟩ := h3 k hk
          exact ⟨by omega, b, by omega⟩
      · rw [h4, loadReads, List.range'_append_1]
        congr 1
    · next hge =>
      simp only [List.length_nil, List.flatMap_nil]
      refine ⟨by omega, by omega, fun k hk => absurd hk (List.not_mem_nil k), by simp⟩

/-- The 8-wide worker reads every index of its range once, in order (nothing when the
range is empty or reversed). -/
theorem simdReads_eq (d : ThreadData) : simdReads d = List.range' d.start (d.end_ - d.start) := by
  obtain ⟨h1, h2, _, h4⟩ := vecLoopLoads_spec d.end_ (d.end_ - d.start) d.start (le_refl _)
  unfold simdReads
  rw [h4, addLoopReads_eq d.end_ _ _ (le_refl _), h1, List.range'_append_1]
  congr 1
  have := Nat.div_mul_le_self (d.end_ - d.start) 8
  omega

theorem parallelSumReads_eq (d : ThreadData) :
    parallelSumReads d = List.range' d.start (d.end_ - d.start) :=
  addLoopReads_eq d.end_ _ _ (le_refl _)

/-- Every load the aligned loop issues lies at or after the entry index and has its
eight elements before `stop`. -/
theorem vecLoopAlignedLoads_mem (stop : Nat) :
    ∀ (fuel i k : Nat), k ∈ vecLoopAlignedLoads stop fuel i → i ≤ k ∧ k + 7 < stop := by
  intro fuel
  induction fuel with
  | zero => intro i k hk; simp [vecLoopAlignedLoads] at hk
  | succ n ih =>
    intro i k hk
    unfold vecLoopAlignedLoads at hk
    split at hk
    · next hlt =>
      split at hk
      · rcases List.mem_cons.mp hk with h | h
        · subst h; exact ⟨le_refl _, hlt⟩
        · obtain ⟨a, b⟩ := ih (i + 8) k h
          exact ⟨by omega, b⟩
      · rw [List.mem_singleton] at hk
        subst hk; exact ⟨le_refl _, hlt⟩
    · simp at hk

/-- From an aligned index the loop with aligned loads does what the loop with unaligned
loads does. -/
theorem vecLoopAligned_of_aligned (r : Nat → Int) (stop : Nat) :
    ∀ (fuel i : Nat) (v : Vec8), i % 8 = 0 →
      vecLoopAligned r stop fuel i v = some (vecLoop r stop fuel i v) := by
  intro fuel
  induction fuel with
  | zero => intro i v _; rfl
  | succ n ih =>
    intro i v hi
    unfold vecLoopAligned vecLoop
    split
    · simp only [mm256_load_si256, if_pos hi]
      exact ih (i + 8) _ (by omega)
    · rfl

/-- When fewer than eight elements remain no load is issued. -/
theorem vecLoopAligned_of_short (r : Nat → Int) (stop fuel i : Nat) (v : Vec8)
    (h : ¬ (i + 7 < stop)) : vecLoopAligned r stop fuel i v = some (vecLoop r stop fuel i v) := by
  cases fuel with
  | zero => rfl
  | succ n => simp [vecLoopAligned, vecLoop, h]

/-- From an index that is not a multiple of 8, with eight elements ahead, the first
aligned load faults. -/
theorem vecLoopAligned_fault (r : Nat → Int) (stop fuel i : Nat) (v : Vec8)
    (hi : i % 8 ≠ 0) (h : i + 7 < stop) (hf : 0 < fuel) :
    vecLoopAligned r stop fuel i v = none := by
  cases fuel with
  | zero => omega
  | succ n => simp [vecLoopAligned, mm256_load_si256, h, hi]

/-! ## Lane bounds and shape -/

theorem laneData_end_of_not_last (L N : Nat) (numa : Nat → Nat) (i : Nat) (hi : i + 1 < L) :
    (laneData L N numa i).end_ = (i + 1) * (N / L) := by
  have hne : i ≠ L - 1 := by omega
  simp [laneData, hne]

theorem laneData_end_of_last (L N : Nat) (numa : Nat → Nat) :
    (laneData L N numa (L - 1)).end_ = N := by
  simp [laneData]

/-- Every lane has `start ≤ end ≤ N`. -/
theorem laneData_bounds (L N : Nat) (numa : Nat → Nat) (i : Nat) (hi : i < L) :
    (laneData L N numa i).start ≤ (laneData L N numa i).end_ ∧
    (laneData L N numa i).end_ ≤ N := by
  have hlast := last_lane_start_le L N
  have hstart : (laneData L N numa i).start = i * (N / L) := rfl
  by_cases h : i + 1 < L
  · rw [laneData_end_of_not_last L N numa i h, hstart]
    exact ⟨Nat.mul_le_mul_right _ (Nat.le_succ i),
      le_trans (Nat.mul_le_mul_right _ (by omega)) hlast⟩
  · have e : i = L - 1 := by omega
    subst e
    rw [laneData_end_of_last, hstart]
    exact ⟨hlast, le_refl _⟩

/-- The last lane holds `N / L + N % L` elements. -/
theorem last_lane_length (L N : Nat) (hL : 1 ≤ L) : N - (L - 1) * (N / L) = N / L + N % L := by
  obtain ⟨m, rfl⟩ : ∃ m, L = m + 1 := ⟨L - 1, by omega⟩
  have h1 := Nat.div_add_mod N (m + 1)
  have h2 : (m + 1) * (N / (m + 1)) = m * (N / (m + 1)) + N / (m + 1) := Nat.succ_mul _ _
  simp only [Nat.add_sub_cancel]
  rw [h2] at h1
  generalize N / (m + 1) = c at h1 ⊢
  generalize N % (m + 1) = d at h1 ⊢
  generalize m * c = a at h1 ⊢
  omega

/-- The worker with aligned loads reads inside its range only. -/
theorem alignedReads_mem (d : ThreadData) (j : Nat) (hj : j ∈ alignedReads d) :
    d.start ≤ j ∧ j < d.end_ := by
  unfold alignedReads at hj
  rcases List.mem_append.mp hj with h | h
  · obtain ⟨k, hk, hjk⟩ := List.mem_flatMap.mp h
    obtain ⟨a, b⟩ := vecLoopAlignedLoads_mem _ _ _ k (List.mem_of_mem_filter hk)
    rw [loadReads, List.mem_range'_1] at hjk
    omega
  · split at h
    · obtain ⟨h1, _, _, _⟩ := vecLoopLoads_spec d.end_ (d.end_ - d.start) d.start (le_refl _)
      rw [addLoopReads_eq d.end_ _ _ (le_refl _), List.mem_range'_1] at h
      omega
    · simp at h

/-- C11. Lane descriptor invariant: for every `N` and `L ≥ 1`, every lane built by the
first loop of the threaded path has `0 ≤ start ≤ end ≤ N` (indices are natural numbers),
so every index read by a worker on that lane (the scalar loop of `parallelSum`, the
8-element loads and the scalar tail of `simdSum` and `numaSimdSum`, the aligned loads
and the scalar tail of the worker of programs 10 and 11) lies in `[start, end)` and
below `N`. -/
theorem lane_descriptor_invariant (N L : Nat) (numa : Nat → Nat) (hL : 1 ≤ L) :
    (lanes L N numa).length = L ∧ lanes L N numa ≠ [] ∧
    ∀ i, i < L →
      (lanes L N numa)[i]? = some (laneData L N numa i) ∧
      (laneData L N numa i).start ≤ (laneData L N numa i).end_ ∧
      (laneData L N numa i).end_ ≤ N ∧
      (∀ j, j ∈ parallelSumReads (laneData L N numa i) →
        (laneData L N numa i).start ≤ j ∧ j < (laneData L N numa i).end_ ∧ j < N) ∧
      (∀ j, j ∈ simdReads (laneData L N numa i) →
        (laneData L N numa i).start ≤ j ∧ j < (laneData L N numa i).end_ ∧ j < N) ∧
      (∀ k, k ∈ alignedLoads (laneData L N numa i) →
        (laneData L N numa i).start ≤ k ∧ k + 7 < (laneData L N numa i).end_ ∧ k + 7 < N) ∧
      (∀ j, j ∈ alignedReads (laneData L N numa i) →
        (laneData L N numa i).start ≤ j ∧ j < (laneData L N numa i).end_ ∧ j < N) := by
  have hlen : (lanes L N numa).length = L := by simp [lanes]
  refine ⟨hlen, ?_, ?_⟩
  · intro h
    rw [h] at hlen
    simp at hlen
    omega
  · intro i hi
    obtain ⟨hse, hen⟩ := laneData_bounds L N numa i hi
    refine ⟨by simp [lanes, List.getElem?_range hi], hse, hen, ?_, ?_, ?_, ?_⟩
    · intro j hj
      rw [parallelSumReads_eq, List.mem_range'_1] at hj
      omega
    · intro j hj
      rw [simdReads_eq, List.mem_range'_1] at hj
      omega
    · intro k hk
      obtain ⟨a, b⟩ := vecLoopAlignedLoads_mem _ _ _ k hk
      omega
    · intro j hj
      obtain ⟨a, b⟩ := alignedReads_mem _ j hj
      omega

/-- Witness for C11: three lanes over ten elements. -/
theorem lane_descriptor_invariant_witness :
    1 ≤ 3 ∧ (lanes 3 10 (fun _ => 0)).length = 3 ∧ lanes 3 10 (fun _ => 0) ≠ [] :=
  ⟨by decide, (lane_descriptor_invariant 10 3 (fun _ => 0) (by decide)).1,
    (lane_descriptor_invariant 10 3 (fun _ => 0) (by decide)).2.1⟩

/-- C12. Partition shape: with `chunk = N / L`, lane `i` for `i < L - 1` is
`[i * chunk, (i + 1) * chunk)` and has exactly `chunk` elements, which are the indices a
worker reads on it; the final lane is `[(L - 1) * chunk, N)` and has exactly
`chunk + N % L` elements, at least `chunk` and fewer than `chunk + L`. -/
theorem partition_shape (N L : Nat) (numa : Nat → Nat) (hL : 1 ≤ L) :
    (∀ i, i + 1 < L →
      (laneData L N numa i).start = i * (N / L) ∧
      (laneData L N numa i).end_ = (i + 1) * (N / L) ∧
      (laneData L N numa i).end_ - (laneData L N numa i).start = N / L ∧
      simdReads (laneData L N numa i) = List.range' (i * (N / L)) (N / L) ∧
      parallelSumReads (laneData L N numa i) = List.range' (i * (N / L)) (N / L)) ∧
    (laneData L N numa (L - 1)).start = (L - 1) * (N / L) ∧
    (laneData L N numa (L - 1)).end_ = N ∧
    (laneData L N numa (L - 1)).end_ - (laneData L N numa (L - 1)).start = N / L + N % L ∧
    simdReads (laneData L N numa (L - 1)) = List.range' ((L - 1) * (N / L)) (N / L + N % L) ∧
    N / L ≤ N / L + N % L ∧ N / L + N % L < N / L + L := by
  have hlastlen := last_lane_length L N hL
  have hlast : (laneData L N numa (L - 1)).end_ = N := laneData_end_of_last L N numa
  have hlaststart : (laneData L N numa (L - 1)).start = (L - 1) * (N / L) := rfl
  refine ⟨?_, hlaststart, hlast, by rw [hlast, hlaststart, hlastlen], ?_, Nat.le_add_right _ _,
    Nat.add_lt_add_left (Nat.mod_lt N (by omega)) _⟩
  · intro i hi
    have hend := laneData_end_of_not_last L N numa i hi
    have hstart : (laneData L N numa i).start = i * (N / L) := rfl
    have hlen : (laneData L N numa i).end_ - (laneData L N numa i).start = N / L := by
      rw [hend, hstart, Nat.succ_mul, Nat.add_sub_cancel_left]
    refine ⟨hstart, hend, hlen, ?_, ?_⟩
    · rw [simdReads_eq, hlen, hstart]
    · rw [parallelSumReads_eq, hlen, hstart]
  · rw [simdReads_eq, hlast, hlaststart, hlastlen]

/-- Witness for C12: ten elements in three lanes of 3, 3 and 4. -/
theorem partition_shape_witness :
    1 ≤ 3 ∧
    (laneData 3 10 (fun _ => 0) (3 - 1)).end_ - (laneData 3 10 (fun _ => 0) (3 - 1)).start
      = 10 / 3 + 10 % 3 :=
  ⟨by decide, (partition_shape 10 3 (fun _ => 0) (by decide)).2.2.2.1⟩

/-! ## The workers with aligned loads -/

/-- On a range that starts at a multiple of 8, or holds fewer than eight elements, the
worker of program 9 does what the worker of program 5 does. -/
theorem simdSum9_of_aligned (r : Nat → Int) (d : ThreadData)
    (h : d.start % 8 = 0 ∨ ¬ (d.start + 7 < d.end_)) :
    File9.simdSum r d = some (File5.simdSum r d) := by
  have hv : vecLoopAligned r d.end_ (d.end_ - d.start) d.start mm256_setzero_si256
      = some (vecLoop r d.end_ (d.end_ - d.start) d.start mm256_setzero_si256) := by
    rcases h with h | h
    · exact vecLoopAligned_of_aligned r d.end_ _ _ _ h
    · exact vecLoopAligned_of_short r d.end_ _ _ _ h
  unfold File9.simdSum File5.simdSum
  rw [hv]

/-- On a range of eight elements or more that does not start at a multiple of 8, the
worker of program 9 faults at its first load. -/
theorem simdSum9_fault (r : Nat → Int) (d : ThreadData)
    (h1 : d.start % 8 ≠ 0) (h2 : d.start + 7 < d.end_) : File9.simdSum r d = none := by
  unfold File9.simdSum
  rw [vecLoopAligned_fault r d.end_ _ _ _ h1 h2 (by omega)]

theorem numaSimdSum10_eq_simdSum9 (sa : Nat → Int) (r : Nat → Int) (d : ThreadData) :
    File10.numaSimdSum sa r d = File9.simdSum r d := rfl

theorem runFaulting_all_some (w : ThreadData → Option (ThreadData × Control))
    (w1 : ThreadData → ThreadData × Control) :
    ∀ ds : List ThreadData, (∀ d, d ∈ ds → w d = some (w1 d)) →
      runFaulting w ds = some (ds.map (fun d => (w1 d).1)) := by
  intro ds
  induction ds with
  | nil => intro _; rfl
  | cons d ds ih =>
    intro h
    have hd := h d (List.mem_cons_self d ds)
    have hds := ih (fun x hx => h x (List.mem_cons_of_mem d hx))
    simp only [runFaulting, hd, hds, List.map_cons]

theorem runFaulting_none (w : ThreadData → Option (ThreadData × Control)) :
    ∀ (ds : List ThreadData) (d : ThreadData), d ∈ ds → w d = none →
      runFaulting w ds = none := by
  intro ds
  induction ds with
  | nil => intro d hd; simp at hd
  | cons x xs ih =>
    intro d hd hw
    rcases List.mem_cons.mp hd with e | e
    · subst e
      simp only [runFaulting, hw]
    · have := ih d e hw
      simp only [runFaulting, this]
      cases w x <;> rfl

/-- When no lane faults, the threaded path with the faulting worker is the threaded path
with the worker it agrees with. -/
theorem forkJoinFaulting_eq_forkJoin (w : ThreadData → Option (ThreadData × Control))
    (w1 : ThreadData → ThreadData × Control) (L N : Nat) (numa : Nat → Nat)
    (h : ∀ d, d ∈ lanes L N numa → w d = some (w1 d)) :
    forkJoinFaulting w L N numa = forkJoin w1 L N numa := by
  unfold forkJoinFaulting forkJoin
  rw [runFaulting_all_some w w1 _ h]

theorem forkJoinFaulting_misaligned (w : ThreadData → Option (ThreadData × Control))
    (L N : Nat) (numa : Nat → Nat) (hL : 1 ≤ L) (d : ThreadData)
    (hd : d ∈ lanes L N numa) (hw : w d = none) :
    forkJoinFaulting w L N numa = Outcome.misaligned := by
  unfold forkJoinFaulting
  rw [if_neg (by omega), runFaulting_none w _ d hd hw]

theorem lanes_two (N : Nat) (numa : Nat → Nat) :
    lanes 2 N numa = [⟨0, N / 2, 0, numa 0⟩, ⟨N / 2, N, 0, numa 1⟩] := by
  simp [lanes, laneData, List.range, List.range.loop]

/-- Two lanes with aligned loads: the threaded path returns the wrapped sum when the
second lane starts at a multiple of 8 or holds fewer than eight elements, and faults
otherwise. -/
theorem forkJoinFaulting_two (sa : Nat → Int) (r : Nat → Int) (N : Nat) (numa : Nat → Nat) :
    ((N / 2) % 8 = 0 ∨ ¬ (N / 2 + 7 < N) →
      forkJoinFaulting (File10.numaSimdSum sa r) 2 N numa
        = Outcome.returned (wrap32 (exactSum r 0 N))) ∧
    ((N / 2) % 8 ≠ 0 ∧ N / 2 + 7 < N →
      forkJoinFaulting (File10.numaSimdSum sa r) 2 N numa = Outcome.misaligned) := by
  constructor
  · intro h
    rw [forkJoinFaulting_eq_forkJoin _ (File5.simdSum r) 2 N numa,
      forkJoin_eq r _ (simdSum_result r) 2 N numa (by decide)]
    intro d hd
    rw [lanes_two, List.mem_cons, List.mem_singleton] at hd
    rw [numaSimdSum10_eq_simdSum9]
    rcases hd with e | e
    · subst e; exact simdSum9_of_aligned r _ (Or.inl rfl)
    · subst e; exact simdSum9_of_aligned r _ h
  · intro h
    apply forkJoinFaulting_misaligned _ 2 N numa (by decide) ⟨N / 2, N, 0, numa 1⟩
    · rw [lanes_two]; simp
    · rw [numaSimdSum10_eq_simdSum9]
      exact simdSum9_fault r _ h.1 h.2

/-- Programs 10 and 11 as functions of their tokens. -/
theorem calPoints10_tokens (sa : Nat → Int) (mem : Nat → Int) (ops : List Token)
    (hlen : ops.length ≤ 1000000) :
    ((ops.length / 2) % 8 = 0 ∨ ¬ (ops.length / 2 + 7 < ops.length) →
      File10.calPoints sa mem ops = Outcome.returned (wrap32 ((ops.map atoi).sum)) ∧
      File11.calPoints sa mem ops = Outcome.returned (wrap32 ((ops.map atoi).sum))) ∧
    ((ops.length / 2) % 8 ≠ 0 ∧ ops.length / 2 + 7 < ops.length →
      File10.calPoints sa mem ops = Outcome.misaligned ∧
      File11.calPoints sa mem ops = Outcome.misaligned) := by
  obtain ⟨s, hs, hidx, _, _, hsum⟩ := forOps_atoiStep File10.MAX_OPERATIONS ops ⟨mem, 0⟩
    (by simpa [File10.MAX_OPERATIONS] using hlen)
  simp only [Nat.zero_add] at hidx hsum
  have h2 := forkJoinFaulting_two sa s.records ops.length (fun i => i)
  rw [calPoints10_eq sa mem ops s hs, calPoints11_eq sa mem ops s hs, hidx, ← hsum, hidx]
  exact ⟨fun h => ⟨h2.1 h, h2.1 h⟩, fun h => ⟨h2.2 h, h2.2 h⟩⟩

/-- Programs 11 and 12 agree when program 11 issues no misaligned load: for 500 to
1000000 tokens whose half count is a multiple of 8, at least one configured node and the
threaded path preferred, both return the wrapped sum of `atoi` of the tokens. -/
theorem aggregation_agree_when_aligned (sa : Nat → Int) (nodes : Nat) (mem : Nat → Int)
    (ops : List Token) (flag : Int) (hnodes : 1 ≤ nodes) (h500 : 500 ≤ ops.length)
    (hlen : ops.length ≤ 1000000) (hflag : flag ≠ 0) (hal : (ops.length / 2) % 8 = 0) :
    File11.calPoints sa mem ops = File12.calPoints sa nodes mem ops flag := by
  rw [((calPoints10_tokens sa mem ops hlen).1 (Or.inl hal)).2,
    calPoints12_threaded sa nodes mem ops flag hnodes hlen h500 hflag]

/-- C13 (the code at the failing input). On 500 tokens `"1"` the lanes of program 11 are
`[0, 250)` and `[250, 500)`; the second lane issues its first aligned 8-element load at
element 250, which is not a multiple of 8, so program 11 faults and returns nothing,
while program 12 (unaligned loads, four lanes, `useMultithreading = 1`) returns 500. -/
theorem aggregation_strategies_diverge :
    (lanes 2 500 (fun i => i)).map (fun d => (d.start, d.end_)) = [(0, 250), (250, 500)] ∧
    alignedLoads ⟨250, 500, 0, 1⟩ = [250] ∧ 250 % 8 = 2 ∧
    File11.calPoints (fun _ => 0) (fun _ => 0) (List.replicate 500 "1") = Outcome.misaligned ∧
    File12.calPoints (fun _ => 0) 1 (fun _ => 0) (List.replicate 500 "1") 1
      = Outcome.returned 500 := by
  have hlen : (List.replicate 500 "1" : List Token).length = 500 := List.length_replicate _ _
  have hat : atoi "1" = 1 := by decide
  have hsum : ((List.replicate 500 "1").map atoi).sum = 500 := by
    rw [List.map_replicate, List.sum_replicate, hat]; rfl
  have h11 := (calPoints10_tokens (fun _ => 0) (fun _ => 0) (List.replicate 500 "1")
    (by rw [hlen]; norm_num)).2 (by rw [hlen]; decide)
  have h12 := calPoints12_threaded (fun _ => 0) 1 (fun _ => 0) (List.replicate 500 "1") 1
    (by decide) (by rw [hlen]; norm_num) (by rw [hlen]) (by decide)
  rw [hsum] at h12
  exact ⟨by decide, by decide, by decide, h11.2, h12⟩

/-- The result a worker that may fault stores, if it stores one. -/
theorem affinity_aux (sa sa1 : Nat → Int) (r : Nat → Int) (d : ThreadData) (node node1 : Nat) :
    (File10.numaSimdSum sa r { d with numa_node := node }).map (fun p => p.1.result)
      = (File10.numaSimdSum sa1 r { d with numa_node := node1 }).map (fun p => p.1.result) := by
  simp only [File10.numaSimdSum]
  cases vecLoopAligned r d.end_ (d.end_ - d.start) d.start mm256_setzero_si256 <;> rfl

theorem runFaulting_results (w w1 : ThreadData → Option (ThreadData × Control))
    (f g : Nat → ThreadData)
    (h : ∀ i, (w (f i)).map (fun p => p.1.result) = (w1 (g i)).map (fun p => p.1.result)) :
    ∀ is : List Nat,
      (runFaulting w (is.map f)).map (fun ds => ds.map (fun d => d.result))
        = (runFaulting w1 (is.map g)).map (fun ds => ds.map (fun d => d.result)) := by
  intro is
  induction is with
  | nil => rfl
  | cons i is ih =>
    have hi := h i
    simp only [List.map_cons, runFaulting]
    cases h1 : w (f i) <;> cases h2 : w1 (g i) <;> rw [h1, h2] at hi <;>
      cases h3 : runFaulting w (is.map f) <;> cases h4 : runFaulting w1 (is.map g) <;>
      rw [h3, h4] at ih <;> simp_all

theorem joinAndAdd_results (ds es : List ThreadData)
    (h : ds.map (fun d => d.result) = es.map (fun d => d.result)) :
    joinAndAdd ds = joinAndAdd es := by
  have key : ∀ (xs : List ThreadData) (acc : Int),
      xs.foldl (fun totalSum d => wrap32 (totalSum + d.result)) acc
        = (xs.map (fun d => d.result)).foldl (fun totalSum x => wrap32 (totalSum + x)) acc := by
    intro xs
    induction xs with
    | nil => intro acc; rfl
    | cons x xs ih => intro acc; simp only [List.foldl_cons, List.map_cons]; exact ih _
  unfold joinAndAdd
  rw [key, key, h]

theorem laneData_numa (L N : Nat) (numa : Nat → Nat) (i : Nat) :
    laneData L N numa i = { laneData L N (fun _ => 0) i with numa_node := numa i } := rfl

theorem forkJoin_numa (r : Nat → Int) (w w1 : ThreadData → ThreadData × Control)
    (hw : ∀ d, (w d).1.result = wrap32 (exactSum r d.start d.end_))
    (hw1 : ∀ d, (w1 d).1.result = wrap32 (exactSum r d.start d.end_))
    (L N : Nat) (numa numa1 : Nat → Nat) :
    forkJoin w L N numa = forkJoin w1 L N numa1 := by
  by_cases hL : L = 0
  · simp [forkJoin, hL]
  · rw [forkJoin_eq r w hw L N numa (by omega), forkJoin_eq r w1 hw1 L N numa1 (by omega)]

theorem forkJoinFaulting_numa (sa sa1 : Nat → Int) (r : Nat → Int) (L N : Nat)
    (numa numa1 : Nat → Nat) :
    forkJoinFaulting (File10.numaSimdSum sa r) L N numa
      = forkJoinFaulting (File10.numaSimdSum sa1 r) L N numa1 := by
  have h := runFaulting_results (File10.numaSimdSum sa r) (File10.numaSimdSum sa1 r)
    (laneData L N numa) (laneData L N numa1)
    (fun i => by
      rw [laneData_numa L N numa i, laneData_numa L N numa1 i]
      exact affinity_aux sa sa1 r _ _ _)
    (List.range L)
  unfold forkJoinFaulting lanes
  split
  · rfl
  · cases h1 : runFaulting (File10.numaSimdSum sa r) ((List.range L).map (laneData L N numa)) <;>
      cases h2 : runFaulting (File10.numaSimdSum sa1 r)
        ((List.range L).map (laneData L N numa1)) <;>
      rw [h1, h2] at h <;> simp only [Option.map_none', Option.map_some', reduceCtorEq,
        Option.some.injEq] at h
    simp only [Outcome.returned.injEq]
    exact joinAndAdd_results _ _ h

/-- C14. Affinity does not affect the result: what `numaSimdSum` stores as the result of
a lane is the same for every value of the `numa_node` field and for every return code of
the affinity request (`setaffinity`), in program 12 as in programs 10 and 11 (where a
fault, if any, is the same too); hence the total of the threaded path is the same for
every assignment of nodes to lanes, and `calPoints` of programs 10, 11 and 12 does the
same whatever the affinity requests return and however many nodes (at least one) are
configured. -/
theorem affinity_independent (sa sa1 : Nat → Int) (r : Nat → Int) (d : ThreadData)
    (node node1 : Nat) (L N : Nat) (numa numa1 : Nat → Nat) (mem : Nat → Int)
    (ops : List Token) (flag : Int) (nodes nodes1 : Nat) (hn : 1 ≤ nodes) (hn1 : 1 ≤ nodes1) :
    (File12.numaSimdSum sa r { d with numa_node := node }).1.result
      = (File12.numaSimdSum sa1 r { d with numa_node := node1 }).1.result ∧
    (File10.numaSimdSum sa r { d with numa_node := node }).map (fun p => p.1.result)
      = (File10.numaSimdSum sa1 r { d with numa_node := node1 }).map (fun p => p.1.result) ∧
    forkJoin (File12.numaSimdSum sa r) L N numa
      = forkJoin (File12.numaSimdSum sa1 r) L N numa1 ∧
    forkJoinFaulting (File10.numaSimdSum sa r) L N numa
      = forkJoinFaulting (File10.numaSimdSum sa1 r) L N numa1 ∧
    File12.calPoints sa nodes mem ops flag = File12.calPoints sa1 nodes1 mem ops flag ∧
    File10.calPoints sa mem ops = File10.calPoints sa1 mem ops ∧
    File11.calPoints sa mem ops = File11.calPoints sa1 mem ops := by
  refine ⟨rfl, affinity_aux sa sa1 r d node node1,
    forkJoin_numa r _ _ (numaSimdSum12_result sa r) (numaSimdSum12_result sa1 r) L N numa numa1,
    forkJoinFaulting_numa sa sa1 r L N numa numa1, ?_, rfl, rfl⟩
  unfold File12.calPoints
  cases forOps (atoiStep File12.MAX_OPERATIONS) ops ⟨mem, 0⟩ with
  | none => rfl
  | some s =>
    simp only
    cases dispatch File12.SIMD_THRESHOLD s.index flag with
    | single => rfl
    | multi =>
      simp only [File12.multiPath]
      rw [if_neg (by omega), if_neg (by omega)]
      exact forkJoin_numa s.records _ _ (numaSimdSum12_result sa s.records)
        (numaSimdSum12_result sa1 s.records) _ _ _ _

/-- Witness for C14: one configured node against two, on the nine tokens of the small
scenario. -/
theorem affinity_independent_witness :
    (1 ≤ 1 ∧ 1 ≤ 2) ∧
    File12.calPoints (fun _ => 0) 1 (fun _ => 0) ops9 1
      = File12.calPoints (fun _ => -1) 2 (fun _ => 0) ops9 1 :=
  ⟨⟨by decide, by decide⟩,
    (affinity_independent (fun _ => 0) (fun _ => -1) (fun _ => 0) ⟨0, 0, 0, 0⟩ 0 0 0 0
      (fun i => i) (fun i => i) (fun _ => 0) ops9 1 1 2 (by decide) (by decide)).2.2.2.2.1⟩

theorem vecLoopAlignedLoads_of_aligned (stop : Nat) :
    ∀ (fuel i : Nat), i % 8 = 0 → ∀ k, k ∈ vecLoopAlignedLoads stop fuel i → k % 8 = 0 := by
  intro fuel
  induction fuel with
  | zero => intro i _ k hk; simp [vecLoopAlignedLoads] at hk
  | succ n ih =>
    intro i hi k hk
    unfold vecLoopAlignedLoads at hk
    rw [if_pos hi] at hk
    split at hk
    · rcases List.mem_cons.mp hk with e | e
      · rw [e]; exact hi
      · exact ih (i + 8) (by omega) k e
    · simp at hk

theorem vecLoopAlignedLoads_of_short (stop fuel i : Nat) (h : ¬ (i + 7 < stop)) :
    vecLoopAlignedLoads stop fuel i = [] := by
  cases fuel with
  | zero => rfl
  | succ n => simp [vecLoopAlignedLoads, h]

/-- In programs 10 and 11 the second lane starts at `N / 2`; when it holds eight
elements or more its first aligned load is issued there, whether or not `N / 2` is a
multiple of 8. -/
theorem second_lane_first_load (N : Nat) (numa : Nat → Nat) (h : N / 2 + 7 < N) :
    N / 2 ∈ alignedLoads (laneData 2 N numa 1) := by
  have hs : (laneData 2 N numa 1).start = N / 2 := by simp [laneData]
  have he : (laneData 2 N numa 1).end_ = N := by simp [laneData]
  unfold alignedLoads
  rw [hs, he]
  obtain ⟨n, hn⟩ : ∃ n, N - N / 2 = n + 1 := ⟨N - N / 2 - 1, by omega⟩
  rw [hn]
  unfold vecLoopAlignedLoads
  rw [if_pos h]
  split <;> simp

/-- C15 (counterexample). On the range `[1, 9)` of a nine-element array the workers with
aligned loads (`simdSum` of program 9, `numaSimdSum` of program 10) issue their first
8-element load at element 1, fault, and store nothing, while `simdSum` of program 5
stores 44. -/
theorem aligned_worker_counterexample :
    alignedLoads ⟨1, 9, 0, 0⟩ = [1] ∧
    File9.simdSum (ofList [1, 2, 3, 4, 5, 6, 7, 8, 9]) ⟨1, 9, 0, 0⟩ = none ∧
    File10.numaSimdSum (fun _ => 0) (ofList [1, 2, 3, 4, 5, 6, 7, 8, 9]) ⟨1, 9, 0, 0⟩ = none ∧
    File5.simdSum (ofList [1, 2, 3, 4, 5, 6, 7, 8, 9]) ⟨1, 9, 0, 0⟩
      = (⟨1, 9, 44, 0⟩, Control.pthreadExit) := by
  decide

/-- C15 (amended). Aligned and unaligned load paths agree where the aligned loads are
aligned: for every array and every range `[start, end)` whose start is a multiple of 8,
or which holds fewer than eight elements (no 8-element load is issued then), the
workers with aligned loads (`simdSum` of program 9, `numaSimdSum` of program 10) end as
`simdSum` of program 5 does, with the same result stored. -/
theorem aligned_unaligned_agree (sa : Nat → Int) (r : Nat → Int) (d : ThreadData)
    (h : d.start % 8 = 0 ∨ d.end_ < d.start + 8) :
    File9.simdSum r d = some (File5.simdSum r d) ∧
    File10.numaSimdSum sa r d = some (File5.simdSum r d) ∧
    (File9.simdSum r d).map (fun p => p.1.result) = some (File5.simdSum r d).1.result ∧
    (∀ k, k ∈ alignedLoads d → k % 8 = 0) := by
  have h1 : d.start % 8 = 0 ∨ ¬ (d.start + 7 < d.end_) := by omega
  have h9 := simdSum9_of_aligned r d h1
  refine ⟨h9, by rw [numaSimdSum10_eq_simdSum9]; exact h9, by rw [h9]; rfl, ?_⟩
  intro k hk
  rcases h1 with h1 | h1
  · exact vecLoopAlignedLoads_of_aligned d.end_ _ _ h1 k hk
  · rw [alignedLoads, vecLoopAlignedLoads_of_short d.end_ _ _ h1] at hk
    simp at hk

/-- Witness for C15 (amended): the range `[0, 9)` of the nine-element sequence. -/
theorem aligned_unaligned_agree_witness :
    ((0 : Nat) % 8 = 0 ∨ (9 : Nat) < 0 + 8) ∧
    File9.simdSum (ofList seq9) ⟨0, 9, 0, 0⟩ = some (File5.simdSum (ofList seq9) ⟨0, 9, 0, 0⟩) :=
  ⟨Or.inl (by decide),
    (aligned_unaligned_agree (fun _ => 0) (ofList seq9) ⟨0, 9, 0, 0⟩ (Or.inl (by decide))).1⟩

/-- C16 (the code at the failing input). With 18 records the lanes of programs 10 and 11
are `[0, 9)` and `[9, 18)`; the second lane issues an aligned 8-element load at element
9, which is not a multiple of 8, and `calPoints` faults. -/
theorem aligned_load_at_nine :
    (lanes 2 18 (fun i => i)).map (fun d => (d.start, d.end_)) = [(0, 9), (9, 18)] ∧
    (lanes 2 18 (fun i => i)).map alignedLoads = [[0], [9]] ∧
    9 % 8 ≠ 0 ∧
    File10.calPoints (fun _ => 0) (fun _ => 0) (List.replicate 18 "1") = Outcome.misaligned ∧
    File11.calPoints (fun _ => 0) (fun _ => 0) (List.replicate 18 "1") = Outcome.misaligned := by
  decide

/-! ## Per-lane results, empty ranges, one lane -/

theorem wrap32_congruent (x : Int) : (wrap32 x - x) % 4294967296 = 0 := by
  unfold wrap32; omega

/-- C17. Per-lane numeric semantics: every lane of the vector add is a 32-bit wrapping
add, and for every range the result stored by `simdSum` (program 5) and `numaSimdSum`
(program 12) is the mathematical sum of the elements of the range reduced modulo 2^32
into the signed 32-bit range: it is a 32-bit value, it differs from the sum by a
multiple of 2^32, and it is the sum itself when the sum fits in 32 bits. -/
theorem per_lane_numeric (sa : Nat → Int) (r : Nat → Int) (d : ThreadData) (a b : Vec8)
    (k : Fin 8) :
    mm256_add_epi32 a b k = wrap32 (a k + b k) ∧
    (File5.simdSum r d).1.result = wrap32 (exactSum r d.start d.end_) ∧
    (File12.numaSimdSum sa r d).1.result = wrap32 (exactSum r d.start d.end_) ∧
    InRange32 (File5.simdSum r d).1.result ∧
    InRange32 (File12.numaSimdSum sa r d).1.result ∧
    ((File5.simdSum r d).1.result - exactSum r d.start d.end_) % 4294967296 = 0 ∧
    ((File12.numaSimdSum sa r d).1.result - exactSum r d.start d.end_) % 4294967296 = 0 ∧
    (InRange32 (exactSum r d.start d.end_) →
      (File5.simdSum r d).1.result = exactSum r d.start d.end_ ∧
      (File12.numaSimdSum sa r d).1.result = exactSum r d.start d.end_) := by
  rw [simdSum_result, numaSimdSum12_result]
  exact ⟨rfl, rfl, rfl, wrap32_inRange _, wrap32_inRange _, wrap32_congruent _,
    wrap32_congruent _, fun h => ⟨wrap32_of_inRange h, wrap32_of_inRange h⟩⟩

/-- C18. Empty range: on `[s, s)` no worker reads any element (the scalar loop makes no
pass, no 8-element load is issued) and every worker (`parallelSum` of programs 3 and 4,
`simdSum` of programs 5 and 9, `numaSimdSum` of programs 10 and 12) stores the result 0. -/
theorem empty_range (sa : Nat → Int) (r : Nat → Int) (s : Nat) (res : Int) (node : Nat) :
    parallelSumReads ⟨s, s, res, node⟩ = [] ∧
    simdReads ⟨s, s, res, node⟩ = [] ∧
    alignedLoads ⟨s, s, res, node⟩ = [] ∧
    alignedReads ⟨s, s, res, node⟩ = [] ∧
    (File3.parallelSum r ⟨s, s, res, node⟩).1.result = 0 ∧
    (File4.parallelSum r ⟨s, s, res, node⟩).1.result = 0 ∧
    (File5.simdSum r ⟨s, s, res, node⟩).1.result = 0 ∧
    (File12.numaSimdSum sa r ⟨s, s, res, node⟩).1.result = 0 ∧
    (File9.simdSum r ⟨s, s, res, node⟩).map (fun p => p.1.result) = some 0 ∧
    (File10.numaSimdSum sa r ⟨s, s, res, node⟩).map (fun p => p.1.result) = some 0 := by
  have h9 := simdSum9_of_aligned r ⟨s, s, res, node⟩ (Or.inr (by simp))
  have h5 : (File5.simdSum r ⟨s, s, res, node⟩).1.result = 0 := by
    rw [simdSum_result, exactSum_self, wrap32_zero]
  have hal : alignedLoads ⟨s, s, res, node⟩ = [] :=
    vecLoopAlignedLoads_of_short s _ s (by omega)
  refine ⟨?_, ?_, hal, ?_, ?_, ?_, h5, ?_, ?_, ?_⟩
  · rw [parallelSumReads_eq]; simp
  · rw [simdReads_eq]; simp
  · unfold alignedReads
    rw [hal]
    simp [vecLoopLoads, addLoopReads]
  · rw [parallelSum3_result, exactSum_self, wrap32_zero]
  · rw [parallelSum4_result, exactSum_self, wrap32_zero]
  · rw [numaSimdSum12_result, exactSum_self, wrap32_zero]
  · rw [h9, Option.map_some', h5]
  · rw [numaSimdSum10_eq_simdSum9, h9, Option.map_some', h5]

theorem lanes_one (N : Nat) (numa : Nat → Nat) : lanes 1 N numa = [⟨0, N, 0, numa 0⟩] := by
  simp [lanes, laneData, List.range, List.range.loop]

/-- C19. Single lane: with one lane the partition is the single range `[0, N)` and the
aggregated total is the result that lane stored, for every `N` (workers of programs 12,
5 and 4; for any descriptor holding a 32-bit result, joining it alone gives that
result). -/
theorem single_lane (sa : Nat → Int) (r : Nat → Int) (N : Nat) (numa : Nat → Nat) :
    lanes 1 N numa = [⟨0, N, 0, numa 0⟩] ∧
    forkJoin (File12.numaSimdSum sa r) 1 N numa
      = Outcome.returned (File12.numaSimdSum sa r ⟨0, N, 0, numa 0⟩).1.result ∧
    forkJoin (File5.simdSum r) 1 N numa
      = Outcome.returned (File5.simdSum r ⟨0, N, 0, numa 0⟩).1.result ∧
    forkJoin (File4.parallelSum r) 1 N numa
      = Outcome.returned (File4.parallelSum r ⟨0, N, 0, numa 0⟩).1.result ∧
    (∀ d : ThreadData, InRange32 d.result → joinAndAdd [d] = d.result) := by
  refine ⟨lanes_one N numa, ?_, ?_, ?_, ?_⟩
  · rw [forkJoin_eq r _ (numaSimdSum12_result sa r) 1 N numa (le_refl _), numaSimdSum12_result]
  · rw [forkJoin_eq r _ (simdSum_result r) 1 N numa (le_refl _), simdSum_result]
  · rw [forkJoin_eq r _ (parallelSum4_result r) 1 N numa (le_refl _), parallelSum4_result]
  · intro d hd
    simp only [joinAndAdd, List.foldl_cons, List.foldl_nil, zero_add]
    exact wrap32_of_inRange hd

/-! ## The load lists and the loops they describe -/

/-- The loop with aligned loads faults exactly when one of the loads it issues is not at
a multiple of 8. -/
theorem vecLoopAligned_none_iff (r : Nat → Int) (stop : Nat) :
    ∀ (fuel i : Nat) (v : Vec8),
      vecLoopAligned r stop fuel i v = none ↔
        ∃ k, k ∈ vecLoopAlignedLoads stop fuel i ∧ k % 8 ≠ 0 := by
  intro fuel
  induction fuel with
  | zero => intro i v; simp [vecLoopAligned, vecLoopAlignedLoads]
  | succ n ih =>
    intro i v
    unfold vecLoopAligned vecLoopAlignedLoads
    by_cases h : i + 7 < stop
    · by_cases hi : i % 8 = 0
      · simp only [if_pos h, if_pos hi, mm256_load_si256]
        rw [ih (i + 8) _]
        constructor
        · rintro ⟨k, hk, hk8⟩
          exact ⟨k, List.mem_cons_of_mem _ hk, hk8⟩
        · rintro ⟨k, hk, hk8⟩
          rcases List.mem_cons.mp hk with e | e
          · rw [e] at hk8; exact absurd hi hk8
          · exact ⟨k, e, hk8⟩
      · simp only [if_pos h, if_neg hi, mm256_load_si256]
        exact ⟨fun _ => ⟨i, List.mem_singleton.mpr rfl, hi⟩, fun _ => trivial⟩
    · simp [if_neg h]

/-- From a multiple of 8 the loop with aligned loads issues the loads of the loop with
unaligned loads. -/
theorem vecLoopAlignedLoads_eq (stop : Nat) :
    ∀ (fuel i : Nat), i % 8 = 0 →
      vecLoopAlignedLoads stop fuel i = (vecLoopLoads stop fuel i).2 := by
  intro fuel
  induction fuel with
  | zero => intro i _; rfl
  | succ n ih =>
    intro i hi
    unfold vecLoopAlignedLoads vecLoopLoads
    split
    · rw [ih (i + 8) (by omega)]
    · rfl

/-! ## Thread creation -/

/-- The loads of the 8-wide loop are at `i, i + 8, ...`, one per full group of eight. -/
theorem vecLoopLoads_list (stop : Nat) :
    ∀ (fuel i : Nat), stop - i ≤ fuel →
      (vecLoopLoads stop fuel i).2 = List.range' i ((stop - i) / 8) 8 := by
  intro fuel
  induction fuel with
  | zero =>
    intro i h
    have : (stop - i) / 8 = 0 := by omega
    simp [vecLoopLoads, this]
  | succ n ih =>
    intro i h
    unfold vecLoopLoads
    split
    · next hlt =>
      have e : (stop - i) / 8 = (stop - (i + 8)) / 8 + 1 := by omega
      rw [e, List.range'_succ, ih (i + 8) (by omega)]
    · next hge =>
      have : (stop - i) / 8 = 0 := by omega
      simp [this]

/-- C30. Vector loop structure: for every range `[start, end)` with
`start ≤ end ≤ 1000000`, the 8-wide loop of `simdSum` and `numaSimdSum` makes exactly
`(end - start) / 8` passes, one load each, at `start, start + 8, ...`, and stops with
`i = start + 8 * ((end - start) / 8)`, where fewer than eight elements remain; the scalar
tail then reads exactly `(end - start) % 8` elements; all reads together are the indices
of `[start, end)`, each exactly once. -/
theorem vector_loop_structure (records : Nat → Int) (d : ThreadData) (v : Vec8)
    (hse : d.start ≤ d.end_) (_hlen : d.end_ ≤ 1000000) :
    (vecLoopLoads d.end_ (d.end_ - d.start) d.start).2.length = (d.end_ - d.start) / 8 ∧
    (vecLoopLoads d.end_ (d.end_ - d.start) d.start).2
      = List.range' d.start ((d.end_ - d.start) / 8) 8 ∧
    (vecLoop records d.end_ (d.end_ - d.start) d.start v).1
      = d.start + 8 * ((d.end_ - d.start) / 8) ∧
    ¬ ((vecLoop records d.end_ (d.end_ - d.start) d.start v).1 + 7 < d.end_) ∧
    (addLoopReads d.end_ (d.end_ - (vecLoop records d.end_ (d.end_ - d.start) d.start v).1)
      (vecLoop records d.end_ (d.end_ - d.start) d.start v).1).length
      = (d.end_ - d.start) % 8 ∧
    simdReads d = List.range' d.start (d.end_ - d.start) ∧
    (simdReads d).Nodup ∧
    (∀ j, j ∈ simdReads d ↔ d.start ≤ j ∧ j < d.end_) := by
  obtain ⟨h1, h2, h3, _⟩ := vecLoopLoads_spec d.end_ (d.end_ - d.start) d.start (le_refl _)
  have hfst := vecLoop_fst records d.end_ (d.end_ - d.start) d.start v
  have hfin : (vecLoop records d.end_ (d.end_ - d.start) d.start v).1
      = d.start + 8 * ((d.end_ - d.start) / 8) := by rw [hfst, h1, h2]
  have hreads := simdReads_eq d
  refine ⟨h2, vecLoopLoads_list d.end_ _ _ (le_refl _), hfin, ?_, ?_, hreads, ?_, ?_⟩
  · rw [hfin]; omega
  · rw [addLoopReads_eq d.end_ _ _ (le_refl _), List.length_range', hfin]; omega
  · rw [hreads]; exact List.nodup_range' d.start (d.end_ - d.start)
  · intro j
    rw [hreads, List.mem_range'_1]
    omega

/-- Witness for C30: the range `[3, 22)`, two loads and three tail elements. -/
theorem vector_loop_structure_witness :
    ((3 : Nat) ≤ 22 ∧ (22 : Nat) ≤ 1000000) ∧
    simdReads ⟨3, 22, 0, 0⟩ = List.range' 3 (22 - 3) :=
  ⟨⟨by decide, by decide⟩,
    (vector_loop_structure (ofList seq9) ⟨3, 22, 0, 0⟩ mm256_setzero_si256 (by decide)
      (by decide)).2.2.2.2.2.1⟩

/-! ## Tokens: what the C library calls see in an integer token -/

theorem digitsVal_eq_foldl :
    ∀ (ds : List Char) (acc : Int), ds.all isdigit = true →
      digitsVal ds acc = ds.foldl (fun n c => n * 10 + ((c.toNat : Int) - 48)) acc := by
  intro ds
  induction ds with
  | nil => intro acc _; rfl
  | cons c cs ih =>
    intro acc h
    simp only [List.all_cons, Bool.and_eq_true] at h
    simp only [digitsVal, h.1, if_true, List.foldl_cons]
    exact ih _ h.2

theorem isdigit_not_space (c : Char) (h : isdigit c = true) : isspace c = false := by
  simp only [isdigit, Bool.and_eq_true, decide_eq_true_eq] at h
  simp only [isspace, Bool.or_eq_false_iff, Bool.and_eq_false_iff, beq_eq_false_iff_ne,
    decide_eq_false_iff_not]
  omega

theorem isDigits_cons (ds : List Char) (h : isDigits ds = true) :
    ∃ c cs, ds = c :: cs ∧ isdigit c = true ∧ ds.all isdigit = true := by
  cases ds with
  | nil => simp [isDigits] at h
  | cons c cs =>
    simp only [isDigits, List.isEmpty_cons, Bool.not_false, Bool.true_and] at h
    refine ⟨c, cs, rfl, ?_, h⟩
    simp only [List.all_cons, Bool.and_eq_true] at h
    exact h.1

/-- An integer token passes the number test of programs 1, 2, 3 and 5 to 8, and `atoi`
gives its value, truncated to 32 bits. -/
theorem integer_token_seen (t : Token) (h : isIntegerToken t = true) :
    isNumber t = true ∧ atoi t = wrap32 (tokenValue t) := by
  unfold isIntegerToken at h
  unfold isNumber atoi tokenValue charAt
  generalize t.data = l at h ⊢
  cases l with
  | nil => simp [isDigits] at h
  | cons c cs =>
    by_cases hc : c = '-'
    · subst hc
      simp only at h
      obtain ⟨d, ds, rfl, hd, hall⟩ := isDigits_cons cs h
      have hsp : isspace '-' = false := by decide
      constructor
      · simp [hd]
      · simp [List.dropWhile, hsp, digitsVal_eq_foldl _ _ hall, decimalValue]
    · have h1 : isDigits (c :: cs) = true := by
        split at h
        · next heq => simp at heq; exact absurd heq.1 hc
        · next heq => exact h
      have hall : (c :: cs).all isdigit = true := by
        simp only [isDigits, List.isEmpty_cons, Bool.not_false, Bool.true_and] at h1
        exact h1
      have hd : isdigit c = true := by
        simp only [List.all_cons, Bool.and_eq_true] at hall
        exact hall.1
      have hsp : isspace c = false := isdigit_not_space c hd
      have hplus : c ≠ '+' := by
        intro e
        rw [e] at hd
        exact absurd hd (by decide)
      constructor
      · simp [hd]
      · have hdrop : List.dropWhile isspace (c :: cs) = c :: cs := by
          simp [List.dropWhile, hsp]
        rw [hdrop]
        split
        · next heq => simp at heq; exact absurd heq.1 hc
        · next heq => simp at heq; exact absurd heq.1 hplus
        · split
          · next heq => simp at heq; exact absurd heq.1 hc
          · rw [digitsVal_eq_foldl _ _ hall]; rfl

/-! ## Program 1 follows the rules -/

theorem matches_congr (r r1 : Nat → Int) :
    ∀ (n : Nat) (sc : List Int), (∀ j, j < n → r1 j = r j) → Matches r n sc → Matches r1 n sc := by
  intro n
  induction n with
  | zero => intro sc _ h; cases sc <;> simp_all [Matches]
  | succ n ih =>
    intro sc hr h
    cases sc with
    | nil => simp [Matches] at h
    | cons x rest =>
      simp only [Matches] at h ⊢
      exact ⟨by rw [hr n (by omega)]; exact h.1, ih rest (fun j hj => hr j (by omega)) h.2⟩

theorem matches_length (r : Nat → Int) :
    ∀ (n : Nat) (sc : List Int), Matches r n sc → n = sc.length := by
  intro n
  induction n with
  | zero => intro sc h; cases sc <;> simp [Matches] at h ⊢
  | succ n ih =>
    intro sc h
    cases sc with
    | nil => simp [Matches] at h
    | cons x rest =>
      simp only [Matches] at h
      simp [ih rest h.2]

theorem wrap32_add_congr (a b c : Int) (h : wrap32 a = wrap32 b) :
    wrap32 (a + c) = wrap32 (b + c) := by
  unfold wrap32 at h ⊢; omega

/-- The wrapped sum of the records is the wrapped sum of the scores they match. -/
theorem matches_sum (r : Nat → Int) :
    ∀ (n : Nat) (sc : List Int), Matches r n sc →
      wrap32 (exactSum r 0 n) = wrap32 sc.sum := by
  intro n
  induction n with
  | zero =>
    intro sc h
    cases sc with
    | nil => simp [exactSum_self]
    | cons x rest => simp [Matches] at h
  | succ n ih =>
    intro sc h
    cases sc with
    | nil => simp [Matches] at h
    | cons x rest =>
      simp only [Matches] at h
      rw [exactSum_succ_right r (Nat.zero_le n), h.1, wrap32_add_right, List.sum_cons,
        wrap32_add_congr _ _ x (ih rest h.2), add_comm]

theorem matches_push (r : Nat → Int) (n : Nat) (sc : List Int) (x : Int) (v : Int)
    (hv : v = wrap32 x) (h : Matches r n sc) : Matches (store r n v) (n + 1) (x :: sc) := by
  simp only [Matches]
  refine ⟨by simp [store, hv], matches_congr r _ n sc (fun j hj => ?_) h⟩
  have : j ≠ n := by omega
  simp [store, this]

theorem wrap32_double (x : Int) : wrap32 (2 * wrap32 x) = wrap32 (2 * x) := by
  unfold wrap32; omega

theorem wrap32_add_both (x y : Int) : wrap32 (wrap32 x + wrap32 y) = wrap32 (x + y) := by
  unfold wrap32; omega

/-- One token: when the rule applies to the scores that the records match, the loop
body of program 1 does what the rule says. -/
theorem step1_follows (s : RecState) (sc sc1 : List Int) (t : Token)
    (hm : Matches s.records s.index sc) (href : refStep sc t = some sc1)
    (hcap : s.index < File1.MAX_OPERATIONS) :
    ∃ s1, File1.step s t = some s1 ∧ Matches s1.records s1.index sc1 ∧
      s1.index ≤ s.index + 1 := by
  unfold refStep at href
  split at href
  · next hint =>
    obtain ⟨hnum, hat⟩ := integer_token_seen t hint
    simp only [Option.some.injEq] at href
    subst href
    refine ⟨⟨store s.records s.index (atoi t), s.index + 1⟩, ?_, ?_, le_refl _⟩
    · simp [File1.step, hnum, push, hcap]
    · exact matches_push s.records s.index sc _ _ hat hm
  · split at href
    · next hC =>
      subst hC
      have hn : isNumber "C" = false := by decide
      cases sc with
      | nil => simp at href
      | cons x rest =>
        simp only [Option.some.injEq] at href
        subst href
        obtain ⟨n, hn1⟩ : ∃ n, s.index = n + 1 := by
          have := matches_length _ _ _ hm
          exact ⟨rest.length, by simpa using this⟩
        rw [hn1] at hm
        simp only [Matches] at hm
        refine ⟨⟨s.records, s.index - 1⟩, ?_, ?_, by simp; omega⟩
        · have hpos : 0 < s.index := by omega
          simp [File1.step, hn, hpos]
        · simp only [hn1, Nat.add_sub_cancel]; exact hm.2
    · split at href
      · next _ hD =>
        subst hD
        have hn : isNumber "D" = false := by decide
        have hne : ("D" : Token) ≠ "C" := by decide
        cases sc with
        | nil => simp at href
        | cons x rest =>
          simp only [Option.some.injEq] at href
          subst href
          obtain ⟨n, hn1⟩ : ∃ n, s.index = n + 1 := by
            have := matches_length _ _ _ hm
            exact ⟨rest.length, by simpa using this⟩
          have hm1 := hm
          rw [hn1] at hm1
          simp only [Matches] at hm1
          refine ⟨⟨store s.records s.index (wrap32 (2 * s.records (s.index - 1))),
            s.index + 1⟩, ?_, ?_, le_refl _⟩
          · have hpos : 0 < s.index := by omega
            simp [File1.step, hn, hne, hpos, push, hcap]
          · apply matches_push s.records s.index _ _ _ _ hm
            simp only [hn1, Nat.add_sub_cancel]
            rw [hm1.1, wrap32_double]
      · split at href
        · next _ _ hP =>
          subst hP
          have hn : isNumber "+" = false := by decide
          have hne : ("+" : Token) ≠ "C" := by decide
          have hne1 : ("+" : Token) ≠ "D" := by decide
          match sc, href, hm with
          | x :: y :: rest, href, hm =>
            simp only [Option.some.injEq] at href
            subst href
            obtain ⟨n, hn1⟩ : ∃ n, s.index = n + 2 := by
              have := matches_length _ _ _ hm
              exact ⟨rest.length, by simpa using this⟩
            have hm1 := hm
            rw [hn1] at hm1
            simp only [Matches] at hm1
            refine ⟨⟨store s.records s.index
              (wrap32 (s.records (s.index - 1) + s.records (s.index - 2))), s.index + 1⟩,
              ?_, ?_, le_refl _⟩
            · have hpos : 1 < s.index := by omega
              simp [File1.step, hn, hne, hne1, hpos, push, hcap]
            · apply matches_push s.records s.index _ _ _ _ hm
              have e1 : s.index - 1 = n + 1 := by omega
              have e2 : s.index - 2 = n := by omega
              rw [e1, e2, hm1.1, hm1.2.1, wrap32_add_both]
        · simp at href

theorem run1_follows :
    ∀ (ops : List Token) (s : RecState) (sc sc1 : List Int),
      Matches s.records s.index sc → refRun ops sc = some sc1 →
      s.index + ops.length ≤ File1.MAX_OPERATIONS →
      ∃ s1, forOps File1.step ops s = some s1 ∧ Matches s1.records s1.index sc1 := by
  intro ops
  induction ops with
  | nil =>
    intro s sc sc1 hm href _
    simp only [refRun, Option.some.injEq] at href
    exact ⟨s, rfl, href ▸ hm⟩
  | cons t ts ih =>
    intro s sc sc1 hm href hlen
    simp only [List.length_cons] at hlen
    simp only [refRun] at href
    cases hstep : refStep sc t with
    | none => simp [hstep] at href
    | some sc2 =>
      rw [hstep] at href
      obtain ⟨s2, h1, h2, h3⟩ := step1_follows s sc sc2 t hm hstep (by omega)
      obtain ⟨s3, h4, h5⟩ := ih s2 sc2 sc1 h2 href (by omega)
      exact ⟨s3, by simp only [forOps, h1]; exact h4, h5⟩

/-- Program 1 returns the wrapped sum of the records its token loop leaves. -/
theorem calPoints1_eq (mem : Nat → Int) (ops : List Token) (s : RecState)
    (hs : forOps File1.step ops ⟨mem, 0⟩ = some s) :
    File1.calPoints mem ops = Outcome.returned (wrap32 (exactSum s.records 0 s.index)) := by
  unfold File1.calPoints
  rw [hs]
  simp only
  rw [addLoop_eq s.records s.index s.index 0 0 inRange32_zero (by omega), zero_add]

/-- Program 1 on a token list that the rules cover: the reference total, truncated to
32 bits. -/
theorem calPoints1_reference (mem : Nat → Int) (ops : List Token) (total : Int)
    (hlen : ops.length ≤ 1000) (href : referenceScore ops = some total) :
    File1.calPoints mem ops = Outcome.returned (wrap32 total) := by
  unfold referenceScore at href
  cases hrun : refRun ops [] with
  | none => simp [hrun] at href
  | some sc =>
    rw [hrun] at href
    simp only [Option.map_some', Option.some.injEq] at href
    obtain ⟨s1, h1, h2⟩ := run1_follows ops ⟨mem, 0⟩ [] sc trivial hrun
      (by simpa [File1.MAX_OPERATIONS] using hlen)
    rw [calPoints1_eq mem ops s1 h1, matches_sum _ _ _ h2, href]

/-! ## The running sum of program 2 -/

theorem exactSum_store (r : Nat → Int) (n : Nat) (v : Int) :
    exactSum (store r n v) 0 (n + 1) = exactSum r 0 n + v := by
  rw [exactSum_succ_right _ (Nat.zero_le n),
    exactSum_congr (store r n v) r 0 n (fun i _ hi => by
      have : i ≠ n := by omega
      simp [store, this])]
  simp [store]

theorem wrap32_sub_left (a b : Int) : wrap32 (wrap32 a - b) = wrap32 (a - b) := by
  unfold wrap32; omega

theorem pushAdd_push (s2 : File2.SumState) (v : Int)
    (hinv : s2.sum = wrap32 (exactSum s2.records 0 s2.index)) :
    match File2.pushAdd s2 v with
    | none => push File1.MAX_OPERATIONS ⟨s2.records, s2.index⟩ v = none
    | some s3 =>
      push File1.MAX_OPERATIONS ⟨s2.records, s2.index⟩ v = some ⟨s3.records, s3.index⟩ ∧
      s3.sum = wrap32 (exactSum s3.records 0 s3.index) := by
  unfold File2.pushAdd push
  by_cases h : s2.index < 1000
  · simp only [File2.MAX_OPERATIONS, File1.MAX_OPERATIONS, if_pos h, true_and]
    rw [exactSum_store, hinv, wrap32_add_left]
  · simp only [File2.MAX_OPERATIONS, File1.MAX_OPERATIONS, if_neg h]

/-- One token: program 2 moves its records and `index` as program 1 does, and keeps
`sum` equal to the wrapped sum of the records below `index`. -/
theorem step2_step1 (s2 : File2.SumState) (t : Token)
    (hinv : s2.sum = wrap32 (exactSum s2.records 0 s2.index)) :
    match File2.step s2 t with
    | none => File1.step ⟨s2.records, s2.index⟩ t = none
    | some s3 =>
      File1.step ⟨s2.records, s2.index⟩ t = some ⟨s3.records, s3.index⟩ ∧
      s3.sum = wrap32 (exactSum s3.records 0 s3.index) := by
  unfold File2.step File1.step
  by_cases hnum : isNumber t = true
  · simp only [hnum, if_true]
    exact pushAdd_push s2 _ hinv
  · have hnum1 : isNumber t = false := by simpa using hnum
    simp only [hnum1, Bool.false_eq_true, if_false]
    by_cases hC : t = "C"
    · subst hC
      by_cases hpos : s2.index > 0
      · simp only [hpos, and_self, if_true, true_and]
        obtain ⟨n, hn⟩ : ∃ n, s2.index = n + 1 := ⟨s2.index - 1, by omega⟩
        rw [hinv, hn, Nat.add_sub_cancel, exactSum_succ_right _ (Nat.zero_le n),
          wrap32_sub_left]
        ring_nf
      · have hD : ("C" : Token) ≠ "D" := by decide
        have hP : ("C" : Token) ≠ "+" := by decide
        simp only [hpos, and_false, if_false, if_true, hD, hP, false_and, true_and]
        exact hinv
    · by_cases hD : t = "D"
      · subst hD
        by_cases hpos : s2.index > 0
        · simp only [hC, false_and, if_false, hpos, and_self, if_true]
          exact pushAdd_push s2 _ hinv
        · have hP : ("D" : Token) ≠ "+" := by decide
          simp only [hC, false_and, if_false, hpos, and_false, if_true, hP, true_and]
          exact hinv
      · by_cases hP : t = "+"
        · subst hP
          by_cases hpos : s2.index > 1
          · simp only [hC, hD, false_and, if_false, hpos, and_self, if_true]
            exact pushAdd_push s2 _ hinv
          · simp only [hC, hD, false_and, if_false, hpos, and_false, if_true, true_and]
            exact hinv
        · simp only [hC, hD, hP, false_and, if_false, true_and]
          exact hinv

theorem run2_run1 :
    ∀ (ops : List Token) (s2 : File2.SumState),
      s2.sum = wrap32 (exactSum s2.records 0 s2.index) →
      match File2.forOps ops s2 with
      | none => forOps File1.step ops ⟨s2.records, s2.index⟩ = none
      | some s3 =>
        forOps File1.step ops ⟨s2.records, s2.index⟩ = some ⟨s3.records, s3.index⟩ ∧
        s3.sum = wrap32 (exactSum s3.records 0 s3.index) := by
  intro ops
  induction ops with
  | nil => intro s2 hinv; exact ⟨rfl, hinv⟩
  | cons t ts ih =>
    intro s2 hinv
    have hstep := step2_step1 s2 t hinv
    simp only [File2.forOps, forOps]
    cases h2 : File2.step s2 t with
    | none =>
      rw [h2] at hstep
      simp only at hstep
      simp only [hstep]
    | some s3 =>
      rw [h2] at hstep
      simp only at hstep
      simp only [hstep.1]
      exact ih s3 hstep.2

/-- The loop body of program 1 (tests nested) is the loop body of programs 3, 5 and 6
(tests joined by `&&`). -/
theorem step1_eq_scoreStep (s : RecState) (t : Token) :
    File1.step s t = scoreStep File1.MAX_OPERATIONS s t := by
  unfold File1.step scoreStep
  by_cases hnum : isNumber t = true
  · simp only [hnum, if_true]
  · have hnum1 : isNumber t = false := by simpa using hnum
    simp only [hnum1, Bool.false_eq_true, if_false]
    by_cases hC : t = "C"
    · subst hC
      have hD : ("C" : Token) ≠ "D" := by decide
      have hP : ("C" : Token) ≠ "+" := by decide
      by_cases hpos : s.index > 0 <;> simp [hpos, hD, hP]
    · by_cases hD : t = "D"
      · subst hD
        have hP : ("D" : Token) ≠ "+" := by decide
        by_cases hpos : s.index > 0 <;> simp [hpos, hC, hP]
      · by_cases hP : t = "+"
        · subst hP
          by_cases hpos : s.index > 1 <;> simp [hpos, hC, hD]
        · simp [hC, hD, hP]

theorem forOps_congr (body body1 : RecState → Token → Option RecState)
    (h : ∀ s t, body s t = body1 s t) :
    ∀ (ops : List Token) (s : RecState), forOps body ops s = forOps body1 ops s := by
  intro ops
  induction ops with
  | nil => intro s; rfl
  | cons t ts ih =>
    intro s
    simp only [forOps, h s t]
    cases body1 s t with
    | none => rfl
    | some s1 => exact ih s1

/-- Program 2 does what program 1 does, on every token list and every buffer. -/
theorem calPoints2_eq_calPoints1 (mem : Nat → Int) (ops : List Token) :
    File2.calPoints mem ops = File1.calPoints mem ops := by
  have h := run2_run1 ops ⟨mem, 0, 0⟩ (by simp [exactSum_self, wrap32_zero])
  unfold File2.calPoints
  cases h2 : File2.forOps ops ⟨mem, 0, 0⟩ with
  | none =>
    rw [h2] at h
    simp only at h
    simp only [File1.calPoints, h]
  | some s3 =>
    rw [h2] at h
    simp only at h
    rw [calPoints1_eq mem ops _ h.1]
    simp only [h.2]

/-- Program 3 does what program 1 does, on every token list and every buffer. -/
theorem calPoints3_eq_calPoints1 (mem : Nat → Int) (ops : List Token) :
    File3.calPoints mem ops = File1.calPoints mem ops := by
  have hloop := forOps_congr File1.step (scoreStep File3.MAX_OPERATIONS)
    (fun s t => step1_eq_scoreStep s t) ops ⟨mem, 0⟩
  cases hs : forOps (scoreStep File3.MAX_OPERATIONS) ops ⟨mem, 0⟩ with
  | none =>
    rw [hs] at hloop
    simp only [File3.calPoints, File1.calPoints, hs, hloop]
  | some s =>
    rw [hs] at hloop
    rw [calPoints1_eq mem ops s hloop, calPoints3_eq mem ops s hs,
      forkJoin_eq s.records _ (parallelSum3_result s.records) 2 s.index _ (by decide)]

/-- With at most 1000 tokens program 1 returns a value. -/
theorem calPoints1_returns (mem : Nat → Int) (ops : List Token) (hlen : ops.length ≤ 1000) :
    ∃ v, File1.calPoints mem ops = Outcome.returned v := by
  obtain ⟨s, hs, _⟩ := forOps_total File1.MAX_OPERATIONS File1.step
    (fun s t h => by rw [step1_eq_scoreStep]; exact scoreStep_total _ s t h) ops ⟨mem, 0⟩
    (by simpa [File1.MAX_OPERATIONS] using hlen)
  exact ⟨_, calPoints1_eq mem ops s hs⟩

/-- The value program 2 returns on a token list the rules cover, from the reference. -/
theorem calPoints2_reference (mem : Nat → Int) (ops : List Token) (total : Int)
    (hlen : ops.length ≤ 1000) (href : referenceScore ops = some total) :
    File2.calPoints mem ops = Outcome.returned (wrap32 total) := by
  rw [calPoints2_eq_calPoints1]
  exact calPoints1_reference mem ops total hlen href

/-- C23. Running sum against store-then-sum: for every list of at most 1000 tokens (and
every earlier content of the buffer) `calPoints` of program 2 returns a value, the one
`calPoints` of program 1 returns; on the seven documented test cases it returns 30, 27,
1, 0, 0, -60 and 60. -/
theorem running_sum_equivalence (mem : Nat → Int) (ops : List Token)
    (hlen : ops.length ≤ 1000) :
    (∃ v, File2.calPoints mem ops = Outcome.returned v ∧
      File1.calPoints mem ops = Outcome.returned v) ∧
    File2.calPoints mem test1 = Outcome.returned 30 ∧
    File2.calPoints mem test2 = Outcome.returned 27 ∧
    File2.calPoints mem ["1"] = Outcome.returned 1 ∧
    File2.calPoints mem ["0"] = Outcome.returned 0 ∧
    File2.calPoints mem ["10", "C"] = Outcome.returned 0 ∧
    File2.calPoints mem test6 = Outcome.returned (-60) ∧
    File2.calPoints mem test7 = Outcome.returned 60 := by
  refine ⟨?_, ?_, ?_, ?_, ?_, ?_, ?_, ?_⟩
  · obtain ⟨v, hv⟩ := calPoints1_returns mem ops hlen
    exact ⟨v, by rw [calPoints2_eq_calPoints1, hv], hv⟩
  · exact calPoints2_reference mem test1 30 (by decide) (by decide)
  · exact calPoints2_reference mem test2 27 (by decide) (by decide)
  · exact calPoints2_reference mem ["1"] 1 (by decide) (by decide)
  · exact calPoints2_reference mem ["0"] 0 (by decide) (by decide)
  · exact calPoints2_reference mem ["10", "C"] 0 (by decide) (by decide)
  · exact calPoints2_reference mem test6 (-60) (by decide) (by decide)
  · exact calPoints2_reference mem test7 60 (by decide) (by decide)

/-- Witness for C23: the second documented input on a buffer that holds 7 everywhere. -/
theorem running_sum_equivalence_witness :
    test2.length ≤ 1000 ∧
    (∃ v, File2.calPoints (fun _ => 7) test2 = Outcome.returned v ∧
      File1.calPoints (fun _ => 7) test2 = Outcome.returned v) ∧
    File2.calPoints (fun _ => 7) test6 = Outcome.returned (-60) :=
  ⟨by decide, (running_sum_equivalence (fun _ => 7) test2 (by decide)).1,
    (running_sum_equivalence (fun _ => 7) test2 (by decide)).2.2.2.2.2.2.1⟩

/-! ## Program 3 against program 1 -/

/-- C24. Two threads against the sequential sum: for every list of at most 1000 tokens
(and every earlier content of the buffer) `calPoints` of program 3 returns a value, the
one `calPoints` of program 1 returns, also on lists that leave no record or one record;
on the documented 13-token input it returns 92. -/
theorem two_thread_equivalence (mem : Nat → Int) (ops : List Token)
    (hlen : ops.length ≤ 1000) :
    (∃ v, File3.calPoints mem ops = Outcome.returned v ∧
      File1.calPoints mem ops = Outcome.returned v) ∧
    File3.calPoints mem [] = Outcome.returned 0 ∧
    File3.calPoints mem ["10", "C"] = Outcome.returned 0 ∧
    File3.calPoints mem ["1"] = Outcome.returned 1 ∧
    File3.calPoints mem ops13 = Outcome.returned 92 := by
  refine ⟨?_, ?_, ?_, ?_, ?_⟩
  · obtain ⟨v, hv⟩ := calPoints1_returns mem ops hlen
    exact ⟨v, by rw [calPoints3_eq_calPoints1, hv], hv⟩
  · rw [calPoints3_eq_calPoints1]
    exact calPoints1_reference mem [] 0 (by decide) (by decide)
  · rw [calPoints3_eq_calPoints1]
    exact calPoints1_reference mem ["10", "C"] 0 (by decide) (by decide)
  · rw [calPoints3_eq_calPoints1]
    exact calPoints1_reference mem ["1"] 1 (by decide) (by decide)
  · rw [calPoints3_eq_calPoints1]
    exact calPoints1_reference mem ops13 92 (by decide) (by decide)

/-- Witness for C24: the documented 13-token input on a buffer that holds 7 everywhere. -/
theorem two_thread_equivalence_witness :
    ops13.length ≤ 1000 ∧
    (∃ v, File3.calPoints (fun _ => 7) ops13 = Outcome.returned v ∧
      File1.calPoints (fun _ => 7) ops13 = Outcome.returned v) ∧
    File3.calPoints (fun _ => 7) ops13 = Outcome.returned 92 :=
  ⟨by decide, (two_thread_equivalence (fun _ => 7) ops13 (by decide)).1,
    (two_thread_equivalence (fun _ => 7) ops13 (by decide)).2.2.2.2⟩

/-! ## Only the records below `index` matter -/

theorem forOps_append (body : RecState → Token → Option RecState) :
    ∀ (p q : List Token) (s : RecState),
      forOps body (p ++ q) s = (forOps body p s).bind (forOps body q) := by
  intro p
  induction p with
  | nil => intro q s; rfl
  | cons t ts ih =>
    intro q s
    simp only [List.cons_append, forOps]
    cases body s t with
    | none => rfl
    | some s1 => exact ih q s1

theorem push_same (cap : Nat) (s s1 : RecState) (v : Int) (h : SameRecords s s1) :
    (push cap s v = none ∧ push cap s1 v = none) ∨
    ∃ u u1, push cap s v = some u ∧ push cap s1 v = some u1 ∧ SameRecords u u1 := by
  obtain ⟨hi, hr⟩ := h
  unfold push
  by_cases hc : s.index < cap
  · right
    refine ⟨_, _, if_pos hc, if_pos (hi ▸ hc), ?_, ?_⟩
    · simp only [hi]
    · intro j hj
      simp only [store]
      by_cases hj1 : j = s.index
      · simp [hj1, ← hi]
      · have hj2 : j ≠ s1.index := hi ▸ hj1
        simp only [hj1, hj2, if_false]
        exact hr j (by simp only at hj; omega)
  · left
    exact ⟨if_neg hc, if_neg (hi ▸ hc)⟩

theorem scoreStep_same (cap : Nat) (s s1 : RecState) (t : Token) (h : SameRecords s s1) :
    (scoreStep cap s t = none ∧ scoreStep cap s1 t = none) ∨
    ∃ u u1, scoreStep cap s t = some u ∧ scoreStep cap s1 t = some u1 ∧ SameRecords u u1 := by
  obtain ⟨hi, hr⟩ := h
  unfold scoreStep
  rw [← hi]
  split_ifs with h1 h2 h3 h4
  · exact push_same cap s s1 _ ⟨hi, hr⟩
  · exact Or.inr ⟨_, _, rfl, rfl, rfl, fun j hj => hr j (by simp only at hj; omega)⟩
  · rw [← hr (s.index - 1) (by omega)]
    exact push_same cap s s1 _ ⟨hi, hr⟩
  · rw [← hr (s.index - 1) (by omega), ← hr (s.index - 2) (by omega)]
    exact push_same cap s s1 _ ⟨hi, hr⟩
  · exact Or.inr ⟨_, _, rfl, rfl, hi, hr⟩

theorem scoreStep4_same (cap : Nat) (s s1 : RecState) (t : Token) (h : SameRecords s s1) :
    (scoreStep4 cap s t = none ∧ scoreStep4 cap s1 t = none) ∨
    ∃ u u1, scoreStep4 cap s t = some u ∧ scoreStep4 cap s1 t = some u1 ∧
      SameRecords u u1 := by
  obtain ⟨hi, hr⟩ := h
  unfold scoreStep4
  rw [← hi]
  split_ifs with h1 h2 h3 h4
  · exact push_same cap s s1 _ ⟨hi, hr⟩
  · exact Or.inr ⟨_, _, rfl, rfl, rfl, fun j hj => hr j (by simp only at hj; omega)⟩
  · rw [← hr (s.index - 1) (by omega)]
    exact push_same cap s s1 _ ⟨hi, hr⟩
  · rw [← hr (s.index - 1) (by omega), ← hr (s.index - 2) (by omega)]
    exact push_same cap s s1 _ ⟨hi, hr⟩
  · exact Or.inr ⟨_, _, rfl, rfl, hi, hr⟩

theorem forOps_same (body : RecState → Token → Option RecState)
    (hbody : ∀ s s1 t, SameRecords s s1 →
      (body s t = none ∧ body s1 t = none) ∨
      ∃ u u1, body s t = some u ∧ body s1 t = some u1 ∧ SameRecords u u1) :
    ∀ (ops : List Token) (s s1 : RecState), SameRecords s s1 →
      (forOps body ops s = none ∧ forOps body ops s1 = none) ∨
      ∃ u u1, forOps body ops s = some u ∧ forOps body ops s1 = some u1 ∧
        SameRecords u u1 := by
  intro ops
  induction ops with
  | nil => intro s s1 h; exact Or.inr ⟨s, s1, rfl, rfl, h⟩
  | cons t ts ih =>
    intro s s1 h
    simp only [forOps]
    rcases hbody s s1 t h with ⟨h1, h2⟩ | ⟨u, u1, h1, h2, h3⟩
    · left
      simp only [h1, h2, and_self]
    · simp only [h1, h2]
      exact ih u u1 h3

theorem sameRecords_init (mem mem1 : Nat → Int) : SameRecords ⟨mem, 0⟩ ⟨mem1, 0⟩ :=
  ⟨rfl, fun j hj => absurd hj (Nat.not_lt_zero j)⟩

theorem sameRecords_sum (s s1 : RecState) (h : SameRecords s s1) :
    s.index = s1.index ∧ exactSum s.records 0 s.index = exactSum s1.records 0 s1.index := by
  refine ⟨h.1, ?_⟩
  rw [← h.1]
  exact exactSum_congr _ _ 0 s.index (fun i _ hi => h.2 i hi)

/-! ## Cancel after a push -/

theorem step1_same (s s1 : RecState) (t : Token) (h : SameRecords s s1) :
    (File1.step s t = none ∧ File1.step s1 t = none) ∨
    ∃ u u1, File1.step s t = some u ∧ File1.step s1 t = some u1 ∧ SameRecords u u1 := by
  rw [step1_eq_scoreStep, step1_eq_scoreStep]
  exact scoreStep_same _ s s1 t h

/-- What the rest of `calPoints` of program 1 returns depends only on `index` and on the
records below it. -/
theorem finish1_same (q : List Token) (sA sB : RecState) (h : SameRecords sA sB) :
    (match forOps File1.step q sA with
      | none => Outcome.outOfBounds
      | some s => Outcome.returned (addLoop s.records s.index s.index 0 0))
    = (match forOps File1.step q sB with
      | none => Outcome.outOfBounds
      | some s => Outcome.returned (addLoop s.records s.index s.index 0 0)) := by
  rcases forOps_same File1.step step1_same q sA sB h with ⟨h1, h2⟩ | ⟨u, u1, h1, h2, h3⟩
  · rw [h1, h2]
  · rw [h1, h2]
    simp only
    rw [addLoop_eq _ _ _ _ _ inRange32_zero (by omega),
      addLoop_eq _ _ _ _ _ inRange32_zero (by omega), (sameRecords_sum u u1 h3).2]

theorem step1_push_cancel (s : RecState) (x : Token) (hx : isNumber x = true)
    (hc : s.index < 1000) :
    forOps File1.step [x, "C"] s = some ⟨store s.records s.index (atoi x), s.index⟩ := by
  have hC : isNumber "C" = false := by decide
  simp [forOps, File1.step, hx, hC, push, File1.MAX_OPERATIONS, hc]

theorem sameRecords_store (s : RecState) (v : Int) :
    SameRecords s ⟨store s.records s.index v, s.index⟩ :=
  ⟨rfl, fun j hj => by
    have hne : j ≠ s.index := by omega
    simp [store, hne]⟩

theorem forOps1_index (p : List Token) (mem : Nat → Int) (s : RecState)
    (hp : p.length < 1000) (hs : forOps File1.step p ⟨mem, 0⟩ = some s) :
    s.index < 1000 := by
  obtain ⟨s1, hs1, hle⟩ := forOps_total File1.MAX_OPERATIONS File1.step
    (fun s t h => by rw [step1_eq_scoreStep]; exact scoreStep_total _ s t h) p ⟨mem, 0⟩
    (by simp only [File1.MAX_OPERATIONS]; omega)
  rw [hs] at hs1
  cases hs1
  simp only [Nat.zero_add] at hle
  omega

/-- Program 1: a number token followed by `C` does not change the result, whatever comes
before (fewer than 1000 tokens) and after. -/
theorem calPoints1_push_cancel (mem : Nat → Int) (p q : List Token) (x : Token)
    (hx : isNumber x = true) (hp : p.length < 1000) :
    File1.calPoints mem (p ++ [x, "C"] ++ q) = File1.calPoints mem (p ++ q) := by
  unfold File1.calPoints
  rw [List.append_assoc, forOps_append, forOps_append _ p q]
  cases hs : forOps File1.step p ⟨mem, 0⟩ with
  | none => rfl
  | some s =>
    simp only [Option.bind]
    rw [forOps_append, step1_push_cancel s x hx (forOps1_index p mem s hp hs)]
    simp only [Option.bind]
    exact (finish1_same q s _ (sameRecords_store s (atoi x))).symm

theorem forOps2_append :
    ∀ (p q : List Token) (s : File2.SumState),
      File2.forOps (p ++ q) s = (File2.forOps p s).bind (File2.forOps q) := by
  intro p
  induction p with
  | nil => intro q s; rfl
  | cons t ts ih =>
    intro q s
    simp only [List.cons_append, File2.forOps]
    cases File2.step s t with
    | none => rfl
    | some s1 => exact ih q s1

theorem wrap32_add_sub (a v : Int) (ha : InRange32 a) : wrap32 (wrap32 (a + v) - v) = a := by
  unfold InRange32 at ha
  unfold wrap32
  omega

theorem step2_push_cancel (s : File2.SumState) (x : Token) (hx : isNumber x = true)
    (hc : s.index < 1000) (hsum : InRange32 s.sum) :
    File2.forOps [x, "C"] s = some ⟨store s.records s.index (atoi x), s.index, s.sum⟩ := by
  have hC : isNumber "C" = false := by decide
  simp [File2.forOps, File2.step, hx, hC, File2.pushAdd, File2.MAX_OPERATIONS, hc, store,
    wrap32_add_sub _ _ hsum]

/-- Program 2: the state after a prefix of fewer than 1000 tokens, and the state after
the same prefix, a number token and `C`. -/
theorem run2_push_cancel (mem : Nat → Int) (p : List Token) (x : Token)
    (hx : isNumber x = true) (hp : p.length < 1000) :
    ∃ s s1, File2.forOps p ⟨mem, 0, 0⟩ = some s ∧
      File2.forOps (p ++ [x, "C"]) ⟨mem, 0, 0⟩ = some s1 ∧
      s1.index = s.index ∧ (∀ j, j < s.index → s1.records j = s.records j) ∧
      s1.sum = s.sum := by
  have h := run2_run1 p ⟨mem, 0, 0⟩ (by simp [exactSum_self, wrap32_zero])
  cases h2 : File2.forOps p ⟨mem, 0, 0⟩ with
  | none =>
    rw [h2] at h
    simp only at h
    obtain ⟨v, hv⟩ := calPoints1_returns mem p (by omega)
    simp [File1.calPoints, h] at hv
  | some s =>
    rw [h2] at h
    simp only at h
    have hidx := forOps1_index p mem _ hp h.1
    simp only at hidx
    have hsum : InRange32 s.sum := by rw [h.2]; exact wrap32_inRange _
    refine ⟨s, ⟨store s.records s.index (atoi x), s.index, s.sum⟩, rfl, ?_, ?_⟩
    · rw [forOps2_append, h2]
      simp only [Option.bind]
      exact step2_push_cancel s x hx hidx hsum
    · refine ⟨rfl, fun j hj => ?_, rfl⟩
      have hne : j ≠ s.index := by omega
      simp [store, hne]

/-- C25. Cancel undoes a push: after a prefix `p` of fewer than 1000 tokens (so that
the push fits the buffer) and an integer token `x`, the token `C` leaves programs 1 and 2
with the record count and the valid records they had after `p` alone, and program 2 with
the same running sum; hence `calPoints (p ++ [x, "C"] ++ q) = calPoints (p ++ q)` for
every suffix `q`, and `["10", "C"]` gives 0. -/
theorem cancel_undoes_push (mem : Nat → Int) (p q : List Token) (x : Token)
    (hx : isIntegerToken x = true) (hp : p.length < 1000) :
    (∃ s s1, forOps File1.step p ⟨mem, 0⟩ = some s ∧
      forOps File1.step (p ++ [x, "C"]) ⟨mem, 0⟩ = some s1 ∧ SameRecords s s1) ∧
    (∃ s s1, File2.forOps p ⟨mem, 0, 0⟩ = some s ∧
      File2.forOps (p ++ [x, "C"]) ⟨mem, 0, 0⟩ = some s1 ∧
      s1.index = s.index ∧ (∀ j, j < s.index → s1.records j = s.records j) ∧
      s1.sum = s.sum) ∧
    File1.calPoints mem (p ++ [x, "C"] ++ q) = File1.calPoints mem (p ++ q) ∧
    File2.calPoints mem (p ++ [x, "C"] ++ q) = File2.calPoints mem (p ++ q) ∧
    File1.calPoints mem ["10", "C"] = Outcome.returned 0 ∧
    File2.calPoints mem ["10", "C"] = Outcome.returned 0 := by
  have hnum : isNumber x = true := (integer_token_seen x hx).1
  refine ⟨?_, run2_push_cancel mem p x hnum hp, calPoints1_push_cancel mem p q x hnum hp, ?_,
    ?_, ?_⟩
  · obtain ⟨s, hs, _⟩ := forOps_total File1.MAX_OPERATIONS File1.step
      (fun s t h => by rw [step1_eq_scoreStep]; exact scoreStep_total _ s t h) p ⟨mem, 0⟩
      (by simp only [File1.MAX_OPERATIONS]; omega)
    refine ⟨s, ⟨store s.records s.index (atoi x), s.index⟩, hs, ?_, sameRecords_store s _⟩
    rw [forOps_append, hs]
    simp only [Option.bind]
    exact step1_push_cancel s x hnum (forOps1_index p mem s hp hs)
  · rw [calPoints2_eq_calPoints1, calPoints2_eq_calPoints1]
    exact calPoints1_push_cancel mem p q x hnum hp
  · exact calPoints1_reference mem ["10", "C"] 0 (by decide) (by decide)
  · rw [calPoints2_eq_calPoints1]
    exact calPoints1_reference mem ["10", "C"] 0 (by decide) (by decide)

/-- Witness for C25: prefix `["5", "2"]`, token `"-2"`, suffix `["D", "+"]`. -/
theorem cancel_undoes_push_witness :
    (isIntegerToken "-2" = true ∧ ["5", "2"].length < 1000) ∧
    File1.calPoints (fun _ => 7) (["5", "2"] ++ ["-2", "C"] ++ ["D", "+"])
      = File1.calPoints (fun _ => 7) (["5", "2"] ++ ["D", "+"]) ∧
    File2.calPoints (fun _ => 7) (["5", "2"] ++ ["-2", "C"] ++ ["D", "+"])
      = File2.calPoints (fun _ => 7) (["5", "2"] ++ ["D", "+"]) :=
  ⟨⟨by decide, by decide⟩,
    (cancel_undoes_push (fun _ => 7) ["5", "2"] ["D", "+"] "-2" (by decide) (by decide)).2.2.1,
    (cancel_undoes_push (fun _ => 7) ["5", "2"] ["D", "+"] "-2" (by decide)
      (by decide)).2.2.2.1⟩

/-! ## Program 4 and negative numbers -/

/-- A token that starts with `-` matches no branch of the loop body of program 4. -/
theorem scoreStep4_negative (cap : Nat) (s : RecState) (t : Token) (h : charAt t 0 = '-') :
    scoreStep4 cap s t = some s := by
  have hd : startsWithDigit t = false := by
    unfold startsWithDigit
    rw [h]
    decide
  have hC : t ≠ "C" := by
    intro hc
    subst hc
    revert h
    decide
  have hD : t ≠ "D" := by
    intro hc
    subst hc
    revert h
    decide
  have hP : t ≠ "+" := by
    intro hc
    subst hc
    revert h
    decide
  simp [scoreStep4, hd, hC, hD, hP]

/-- On a token that does not start with `-` the loop bodies of programs 4 and 5 do the
same. -/
theorem scoreStep4_eq_scoreStep (cap : Nat) (s : RecState) (t : Token)
    (h : charAt t 0 ≠ '-') : scoreStep4 cap s t = scoreStep cap s t := by
  have hd : startsWithDigit t = isNumber t := by
    unfold startsWithDigit isNumber isdigit
    have : (charAt t 0 == '-') = false := by simpa using h
    simp [this]
  unfold scoreStep4 scoreStep
  rw [hd]

/-- C26 (the code at the failing input). The number test of program 4 looks at the first
character only, so the integer token `"-2"` is skipped: `calPoints` of program 4 on
`["-2"]` returns 0 on both paths where program 1 and the reference give -2, and on the
documented second test case it returns 71 where they give 27.  Every token that starts
with `-` is skipped in this way; on all other tokens program 4 does what program 5
does. -/
theorem negative_token_skipped (mem : Nat → Int) (flag : Int) :
    isIntegerToken "-2" = true ∧ isNumber "-2" = true ∧ startsWithDigit "-2" = false ∧
    File4.calPoints mem ["-2"] flag = Outcome.returned 0 ∧
    File1.calPoints mem ["-2"] = Outcome.returned (-2) ∧
    referenceScore ["-2"] = some (-2) ∧
    File4.calPoints (fun _ => 0) test2 0 = Outcome.returned 71 ∧
    File4.calPoints (fun _ => 0) test2 1 = Outcome.returned 71 ∧
    File1.calPoints mem test2 = Outcome.returned 27 ∧
    referenceScore test2 = some 27 ∧
    (∀ cap s t, charAt t 0 = '-' → scoreStep4 cap s t = some s) ∧
    (∀ cap s t, charAt t 0 ≠ '-' → scoreStep4 cap s t = scoreStep cap s t) := by
  refine ⟨by decide, by decide, by decide, ?_, ?_, by decide, by decide, by decide, ?_,
    by decide, scoreStep4_negative, scoreStep4_eq_scoreStep⟩
  · have hs : forOps (scoreStep4 File4.MAX_OPERATIONS) ["-2"] ⟨mem, 0⟩ = some ⟨mem, 0⟩ := by
      simp only [forOps, scoreStep4_negative _ _ "-2" (by decide)]
    rw [calPoints4_eq mem ["-2"] flag _ hs]
    simp only [exactSum_self, wrap32_zero]
  · exact calPoints1_reference mem ["-2"] (-2) (by decide) (by decide)
  · exact calPoints1_reference mem test2 27 (by decide) (by decide)

/-! ## Program 10 and the rules -/

theorem largeOps_length (k : Nat) : (largeOps k).length = 2 * k := by
  induction k with
  | zero => rfl
  | succ n ih =>
    simp only [largeOps, List.length_cons, ih]
    omega

theorem largeOps_atoi_sum (k : Nat) : ((largeOps k).map atoi).sum = 10 * (k : Int) := by
  induction k with
  | zero => rfl
  | succ n ih =>
    have h10 : atoi "10" = 10 := by decide
    have hD : atoi "D" = 0 := by decide
    simp only [largeOps, List.map_cons, List.sum_cons, ih, h10, hD]
    push_cast
    ring

/-- C28. The benchmark of program 10: on the 1,000,000 tokens `"10", "D"` repeated
500,000 times `calPoints` of program 10 returns 5000000, for every earlier content of
the buffer and every outcome of the affinity calls: each `"D"` is recorded as
`atoi("D") = 0`, and the second lane starts at element 500000, a multiple of 8. -/
theorem benchmark_total_ten (sa : Nat → Int) (mem : Nat → Int) :
    (largeOps 500000).length = 1000000 ∧
    atoi "10" = 10 ∧ atoi "D" = 0 ∧ 500000 % 8 = 0 ∧
    File10.calPoints sa mem (largeOps 500000) = Outcome.returned 5000000 := by
  have hlen : (largeOps 500000).length = 1000000 := largeOps_length 500000
  refine ⟨hlen, by decide, by decide, by decide, ?_⟩
  rw [((calPoints10_tokens sa mem (largeOps 500000) (by rw [hlen])).1
    (Or.inl (by rw [hlen]))).1, largeOps_atoi_sum]
  decide

/-! ## The result does not depend on what the buffer held before -/

theorem atoiStep_same (cap : Nat) (s s1 : RecState) (t : Token) (h : SameRecords s s1) :
    (atoiStep cap s t = none ∧ atoiStep cap s1 t = none) ∨
    ∃ u u1, atoiStep cap s t = some u ∧ atoiStep cap s1 t = some u1 ∧ SameRecords u u1 :=
  push_same cap s s1 (atoi t) h

/-- The two-lane sum of programs 10 and 11 depends only on the record count and on the
records below it, not on the affinity calls. -/
theorem forkJoinFaulting_same (sa sa1 : Nat → Int) (u u1 : RecState) (h : SameRecords u u1) :
    forkJoinFaulting (File10.numaSimdSum sa u.records) 2 u.index (fun i => i)
      = forkJoinFaulting (File10.numaSimdSum sa1 u1.records) 2 u1.index (fun i => i) := by
  obtain ⟨hi, hsum⟩ := sameRecords_sum u u1 h
  rw [← hi]
  by_cases h1 : (u.index / 2) % 8 = 0
  · rw [(forkJoinFaulting_two sa u.records u.index _).1 (Or.inl h1),
      (forkJoinFaulting_two sa1 u1.records u.index _).1 (Or.inl h1), hsum, hi]
  · by_cases h2 : u.index / 2 + 7 < u.index
    · rw [(forkJoinFaulting_two sa u.records u.index _).2 ⟨h1, h2⟩,
        (forkJoinFaulting_two sa1 u1.records u.index _).2 ⟨h1, h2⟩]
    · rw [(forkJoinFaulting_two sa u.records u.index _).1 (Or.inr h2),
        (forkJoinFaulting_two sa1 u1.records u.index _).1 (Or.inr h2), hsum, hi]

theorem calPoints4_same (mem mem1 : Nat → Int) (ops : List Token) (flag : Int) :
    File4.calPoints mem ops flag = File4.calPoints mem1 ops flag := by
  rcases forOps_same _ (scoreStep4_same File4.MAX_OPERATIONS) ops _ _
    (sameRecords_init mem mem1) with ⟨h1, h2⟩ | ⟨u, u1, h1, h2, h3⟩
  · simp only [File4.calPoints, h1, h2]
  · rw [calPoints4_eq mem ops flag u h1, calPoints4_eq mem1 ops flag u1 h2,
      (sameRecords_sum u u1 h3).2]

theorem calPoints5_same (mem mem1 : Nat → Int) (ops : List Token) (flag : Int) :
    File5.calPoints mem ops flag = File5.calPoints mem1 ops flag ∧
    File6.calPoints mem ops flag = File6.calPoints mem1 ops flag := by
  rcases forOps_same _ (scoreStep_same File5.MAX_OPERATIONS) ops _ _
    (sameRecords_init mem mem1) with ⟨h1, h2⟩ | ⟨u, u1, h1, h2, h3⟩
  · simp only [File5.calPoints, File6.calPoints, h1, h2, and_self]
  · obtain ⟨hi, hsum⟩ := sameRecords_sum u u1 h3
    have hsum1 : exactSum u.records 0 u.index = exactSum u1.records 0 u.index := by
      rw [hsum, hi]
    have hpath : ∀ p : SumPath,
        (match p with
          | SumPath.single => File5.singlePath u.records u.index
          | SumPath.multi => File5.multiPath u.records u.index)
        = (match p with
          | SumPath.single => File5.singlePath u1.records u.index
          | SumPath.multi => File5.multiPath u1.records u.index) := by
      intro p
      cases p with
      | single => rfl
      | multi =>
        simp only [File5.multiPath]
        rw [forkJoin_eq u.records _ (simdSum_result u.records) _ _ _ (by decide),
          forkJoin_eq u1.records _ (simdSum_result u1.records) _ _ _ (by decide), hsum1]
    simp only [File5.calPoints, File6.calPoints, h1, h2]
    rw [← hi]
    exact ⟨hpath _, hpath _⟩

theorem calPoints10_same (sa sa1 : Nat → Int) (mem mem1 : Nat → Int) (ops : List Token) :
    File10.calPoints sa mem ops = File10.calPoints sa1 mem1 ops ∧
    File11.calPoints sa mem ops = File11.calPoints sa1 mem1 ops := by
  rcases forOps_same _ (atoiStep_same File10.MAX_OPERATIONS) ops _ _
    (sameRecords_init mem mem1) with ⟨h1, h2⟩ | ⟨u, u1, h1, h2, h3⟩
  · simp only [File10.calPoints, File11.calPoints, h1, h2, and_self]
  · rw [calPoints10_eq sa mem ops u h1, calPoints10_eq sa1 mem1 ops u1 h2,
      calPoints11_eq sa mem ops u h1, calPoints11_eq sa1 mem1 ops u1 h2]
    exact ⟨forkJoinFaulting_same sa sa1 u u1 h3, forkJoinFaulting_same sa sa1 u u1 h3⟩

theorem calPoints12_same (sa sa1 : Nat → Int) (nodes : Nat) (mem mem1 : Nat → Int)
    (ops : List Token) (flag : Int) :
    File12.calPoints sa nodes mem ops flag = File12.calPoints sa1 nodes mem1 ops flag := by
  rcases forOps_same _ (atoiStep_same File12.MAX_OPERATIONS) ops _ _
    (sameRecords_init mem mem1) with ⟨h1, h2⟩ | ⟨u, u1, h1, h2, h3⟩
  · simp only [File12.calPoints, h1, h2]
  · obtain ⟨hi, hsum⟩ := sameRecords_sum u u1 h3
    have hsum1 : exactSum u.records 0 u.index = exactSum u1.records 0 u.index := by
      rw [hsum, hi]
    simp only [File12.calPoints, h1, h2]
    rw [← hi]
    cases dispatch File12.SIMD_THRESHOLD u.index flag with
    | single => rfl
    | multi =>
      simp only [File12.multiPath]
      by_cases hn : nodes = 0
      · simp only [hn, if_true]
      · simp only [hn, if_false]
        rw [forkJoin_eq u.records _ (numaSimdSum12_result sa u.records) _ _ _ (by decide),
          forkJoin_eq u1.records _ (numaSimdSum12_result sa1 u1.records) _ _ _ (by decide),
          hsum1]

/-- C29. Repeatable result: for every token list and flag, `calPoints` gives the same
outcome whatever the static buffer held before the call (`mem`, `mem1`: in particular
what an earlier call left there) and whatever the affinity calls do (`sa`, `sa1`), in
programs 4, 10 and 11 and also in programs 1, 2, 3, 5, 6 and 12; the token loop started
on two different buffers ends with the same `index` and the same records below it,
every slot it or the sum reads having been written earlier in the same call. -/
theorem repeatable_result (sa sa1 : Nat → Int) (nodes : Nat) (mem mem1 : Nat → Int)
    (ops : List Token) (flag : Int) :
    File4.calPoints mem ops flag = File4.calPoints mem1 ops flag ∧
    File10.calPoints sa mem ops = File10.calPoints sa1 mem1 ops ∧
    File11.calPoints sa mem ops = File11.calPoints sa1 mem1 ops ∧
    (∀ s, forOps (scoreStep4 File4.MAX_OPERATIONS) ops ⟨mem, 0⟩ = some s →
      File4.calPoints s.records ops flag = File4.calPoints mem ops flag) ∧
    (∀ s, forOps (atoiStep File10.MAX_OPERATIONS) ops ⟨mem, 0⟩ = some s →
      File10.calPoints sa1 s.records ops = File10.calPoints sa mem ops) ∧
    ((forOps (scoreStep4 File4.MAX_OPERATIONS) ops ⟨mem, 0⟩ = none ∧
        forOps (scoreStep4 File4.MAX_OPERATIONS) ops ⟨mem1, 0⟩ = none) ∨
      ∃ u u1, forOps (scoreStep4 File4.MAX_OPERATIONS) ops ⟨mem, 0⟩ = some u ∧
        forOps (scoreStep4 File4.MAX_OPERATIONS) ops ⟨mem1, 0⟩ = some u1 ∧
        SameRecords u u1) ∧
    ((forOps (atoiStep File10.MAX_OPERATIONS) ops ⟨mem, 0⟩ = none ∧
        forOps (atoiStep File10.MAX_OPERATIONS) ops ⟨mem1, 0⟩ = none) ∨
      ∃ u u1, forOps (atoiStep File10.MAX_OPERATIONS) ops ⟨mem, 0⟩ = some u ∧
        forOps (atoiStep File10.MAX_OPERATIONS) ops ⟨mem1, 0⟩ = some u1 ∧
        SameRecords u u1) ∧
    File1.calPoints mem ops = File1.calPoints mem1 ops ∧
    File2.calPoints mem ops = File2.calPoints mem1 ops ∧
    File3.calPoints mem ops = File3.calPoints mem1 ops ∧
    File5.calPoints mem ops flag = File5.calPoints mem1 ops flag ∧
    File6.calPoints mem ops flag = File6.calPoints mem1 ops flag ∧
    File12.calPoints sa nodes mem ops flag = File12.calPoints sa1 nodes mem1 ops flag := by
  have h1 : File1.calPoints mem ops = File1.calPoints mem1 ops :=
    finish1_same ops _ _ (sameRecords_init mem mem1)
  refine ⟨calPoints4_same mem mem1 ops flag, (calPoints10_same sa sa1 mem mem1 ops).1,
    (calPoints10_same sa sa1 mem mem1 ops).2,
    fun s _ => calPoints4_same s.records mem ops flag,
    fun s _ => (calPoints10_same sa1 sa s.records mem ops).1,
    forOps_same _ (scoreStep4_same File4.MAX_OPERATIONS) ops _ _ (sameRecords_init mem mem1),
    forOps_same _ (atoiStep_same File10.MAX_OPERATIONS) ops _ _ (sameRecords_init mem mem1),
    h1, ?_, ?_, (calPoints5_same mem mem1 ops flag).1, (calPoints5_same mem mem1 ops flag).2,
    calPoints12_same sa sa1 nodes mem mem1 ops flag⟩
  · rw [calPoints2_eq_calPoints1, calPoints2_eq_calPoints1, h1]
  · rw [calPoints3_eq_calPoints1, calPoints3_eq_calPoints1, h1]

/-! ## Node assignment of program 12 -/

theorem lanes_numa (L N : Nat) (numa : Nat → Nat) :
    (lanes L N numa).map (fun d => d.numa_node) = (List.range L).map numa := by
  simp [lanes, laneData, Function.comp_def]

/-- C31. Locality assignment in program 12: with `D ≥ 1` configured nodes, lane `i` of
the `NUM_THREADS = 4` lanes gets `numa_node = i % D`, which is below `D`; two lanes get
the same node exactly when their indices are congruent modulo `D`; the nodes are given
out round-robin (`0, 1, ..., D - 1, 0, ...`), and distinct lanes get distinct nodes when
`D ≥ NUM_THREADS`. -/
theorem locality_assignment (setaffinity : Nat → Int) (records : Nat → Int) (D N i j : Nat)
    (hD : 1 ≤ D) (hi : i < File12.NUM_THREADS) (hj : j < File12.NUM_THREADS) :
    (laneData File12.NUM_THREADS N (fun k => k % D) i).numa_node = i % D ∧
    (laneData File12.NUM_THREADS N (fun k => k % D) i).numa_node < D ∧
    ((laneData File12.NUM_THREADS N (fun k => k % D) i).numa_node
        = (laneData File12.NUM_THREADS N (fun k => k % D) j).numa_node ↔ i ≡ j [MOD D]) ∧
    (lanes File12.NUM_THREADS N (fun k => k % D)).map (fun d => d.numa_node)
      = [0 % D, 1 % D, 2 % D, 3 % D] ∧
    (i + 1 < File12.NUM_THREADS →
      (laneData File12.NUM_THREADS N (fun k => k % D) (i + 1)).numa_node
        = ((laneData File12.NUM_THREADS N (fun k => k % D) i).numa_node + 1) % D) ∧
    (File12.NUM_THREADS ≤ D →
      ((laneData File12.NUM_THREADS N (fun k => k % D) i).numa_node
        = (laneData File12.NUM_THREADS N (fun k => k % D) j).numa_node → i = j)) ∧
    File12.multiPath setaffinity D records N
      = forkJoin (File12.numaSimdSum setaffinity records) File12.NUM_THREADS N
          (fun k => k % D) := by
  have hpos : 0 < D := hD
  refine ⟨rfl, Nat.mod_lt i hpos, Iff.rfl, ?_, fun _ => ?_, fun hge h => ?_, ?_⟩
  · rw [lanes_numa]
    rfl
  · show (i + 1) % D = (i % D + 1) % D
    rw [Nat.add_mod, Nat.add_mod (i % D) 1, Nat.mod_mod]
  · have h1 : i % D = j % D := h
    rw [Nat.mod_eq_of_lt (Nat.lt_of_lt_of_le hi hge),
      Nat.mod_eq_of_lt (Nat.lt_of_lt_of_le hj hge)] at h1
    exact h1
  · have hne : D ≠ 0 := by omega
    simp only [File12.multiPath, hne, if_false]

/-- Witness for C31: two nodes, lanes 1 and 3. -/
theorem locality_assignment_witness :
    ((1 : Nat) ≤ 2 ∧ 1 < File12.NUM_THREADS ∧ 3 < File12.NUM_THREADS) ∧
    (lanes File12.NUM_THREADS 9 (fun k => k % 2)).map (fun d => d.numa_node)
      = [0 % 2, 1 % 2, 2 % 2, 3 % 2] :=
  ⟨⟨by decide, by decide, by decide⟩,
    (locality_assignment (fun _ => 0) (ofList seq9) 2 9 1 3 (by decide) (by decide)
      (by decide)).2.2.2.1⟩

/-! ## Splitting a range -/

/-- C32. Range-split additivity: for every array and all `a ≤ b ≤ c`, the result that
`simdSum` stores for `[a, c)` is the 32-bit wrapping sum of the results it stores for
`[a, b)` and `[b, c)`, wherever `b` lies relative to the groups of eight (on nine
elements split at 3 the whole range has one 8-element load, at 0, and the two parts have
none). -/
theorem range_split_additivity (records : Nat → Int) (a b c : Nat) (res res1 res2 : Int)
    (node node1 node2 : Nat) (hab : a ≤ b) (hbc : b ≤ c) :
    (File5.simdSum records ⟨a, c, res, node⟩).1.result
      = wrap32 ((File5.simdSum records ⟨a, b, res1, node1⟩).1.result
          + (File5.simdSum records ⟨b, c, res2, node2⟩).1.result) ∧
    ((vecLoopLoads 9 (9 - 0) 0).2 = [0] ∧ (vecLoopLoads 3 (3 - 0) 0).2 = [] ∧
      (vecLoopLoads 9 (9 - 3) 3).2 = []) := by
  refine ⟨?_, by decide⟩
  rw [simdSum_result, simdSum_result, simdSum_result, wrap32_add_both]
  exact congrArg wrap32 (exactSum_append records hab hbc).symm

/-- Witness for C32: the nine-element sequence split at 3, inside the first group of
eight. -/
theorem range_split_additivity_witness :
    ((0 : Nat) ≤ 3 ∧ (3 : Nat) ≤ 9) ∧
    (File5.simdSum (ofList seq9) ⟨0, 9, 0, 0⟩).1.result
      = wrap32 ((File5.simdSum (ofList seq9) ⟨0, 3, 0, 0⟩).1.result
          + (File5.simdSum (ofList seq9) ⟨3, 9, 0, 0⟩).1.result) :=
  ⟨⟨by decide, by decide⟩,
    (range_split_additivity (ofList seq9) 0 3 9 0 0 0 0 0 0 (by decide) (by decide)).1⟩

/-! ## Bounds of the token loop -/

/-- The loop body changes `records` at the subscripts of `scoreWrites` only. -/
theorem scoreStep_writes (cap : Nat) (s s1 : RecState) (t : Token)
    (h : scoreStep cap s t = some s1) (j : Nat) (hj : (j : Int) ∉ scoreWrites s t) :
    s1.records j = s.records j := by
  have hpush : ∀ v, push cap s v = some s1 → j ≠ s.index → s1.records j = s.records j := by
    intro v hv hne
    unfold push at hv
    split_ifs at hv
    cases hv
    simp [store, hne]
  unfold scoreStep at h
  unfold scoreWrites at hj
  split_ifs at h hj with h1 h2 h3 h4
  · exact hpush _ h (by intro e; apply hj; simp [e])
  · cases h; rfl
  · exact hpush _ h (by intro e; apply hj; simp [e])
  · exact hpush _ h (by intro e; apply hj; simp [e])
  · cases h; rfl

/-- In a state with `index < cap`, every write of the loop body is inside the buffer and
every read is at a subscript from 0 to `index - 1`. -/
theorem scoreStep_accesses (cap : Nat) (s : RecState) (t : Token) (h : s.index < cap) :
    (∀ w ∈ scoreWrites s t, 0 ≤ w ∧ w < (cap : Int)) ∧
    (∀ r ∈ scoreReads s t, 0 ≤ r ∧ r < (s.index : Int)) := by
  unfold scoreWrites scoreReads
  split_ifs with h1 h2 h3 h4
  · simp; omega
  · simp
  · simp; omega
  · simp; omega
  · simp

theorem forOps_take (cap : Nat) (mem : Nat → Int) (ops : List Token) (i : Nat)
    (hlen : ops.length ≤ cap) :
    ∃ s, forOps (scoreStep cap) (ops.take i) ⟨mem, 0⟩ = some s ∧ s.index ≤ i ∧
      s.index ≤ ops.length := by
  obtain ⟨s, hs, hle⟩ := forOps_total cap (scoreStep cap) (scoreStep_total cap) (ops.take i)
    ⟨mem, 0⟩ (by simp only [List.length_take]; omega)
  refine ⟨s, hs, ?_, ?_⟩
  · simp only [List.length_take, Nat.zero_add] at hle
    omega
  · simp only [List.length_take, Nat.zero_add] at hle
    omega

/-- C33. Interpreter bounds invariant (programs 1 and 5, buffer of `cap` elements): for
every token list of size at most `cap` and every `i < size`, the loop reaches token `i`
with `index ≤ i`; on that token every write to `records` is at a subscript in
`[0, cap)`, every read `records[index - 1]`, `records[index - 2]` is at a subscript in
`[0, index)`, and the body leaves `index ≤ i + 1`; the loop ends with `index ≤ size`.
The loop body of program 1 is `scoreStep` with `cap = 1000`, that of program 5 with
`cap = 1000000`. -/
theorem interpreter_bounds (cap : Nat) (mem : Nat → Int) (ops : List Token) (i : Nat)
    (hlen : ops.length ≤ cap) (hi : i < ops.length) :
    (∃ s, forOps (scoreStep cap) (ops.take i) ⟨mem, 0⟩ = some s ∧ s.index ≤ i ∧
      (∀ w ∈ scoreWrites s (ops.get ⟨i, hi⟩), 0 ≤ w ∧ w < (cap : Int)) ∧
      (∀ r ∈ scoreReads s (ops.get ⟨i, hi⟩), 0 ≤ r ∧ r < (s.index : Int)) ∧
      ∃ s1, scoreStep cap s (ops.get ⟨i, hi⟩) = some s1 ∧ s1.index ≤ i + 1 ∧
        forOps (scoreStep cap) (ops.take (i + 1)) ⟨mem, 0⟩ = some s1 ∧
        ∀ j : Nat, (j : Int) ∉ scoreWrites s (ops.get ⟨i, hi⟩) →
          s1.records j = s.records j) ∧
    (∃ sf, forOps (scoreStep cap) ops ⟨mem, 0⟩ = some sf ∧ sf.index ≤ ops.length) ∧
    (∀ l, forOps File1.step l ⟨mem, 0⟩ = forOps (scoreStep File1.MAX_OPERATIONS) l ⟨mem, 0⟩) ∧
    File1.MAX_OPERATIONS = 1000 ∧ File5.MAX_OPERATIONS = 1000000 := by
  refine ⟨?_, ?_, fun l => forOps_congr _ _ step1_eq_scoreStep l _, rfl, rfl⟩
  · obtain ⟨s, hs, hsi, _⟩ := forOps_take cap mem ops i hlen
    have hcap : s.index < cap := by omega
    obtain ⟨s1, h1, h1i⟩ := scoreStep_total cap s (ops.get ⟨i, hi⟩) hcap
    refine ⟨s, hs, hsi, (scoreStep_accesses cap s _ hcap).1, (scoreStep_accesses cap s _ hcap).2,
      s1, h1, by omega, ?_, fun j hj => scoreStep_writes cap s s1 _ h1 j hj⟩
    have htake : ops.take (i + 1) = ops.take i ++ [ops.get ⟨i, hi⟩] := by
      rw [List.take_succ, List.getElem?_eq_getElem hi]
      rfl
    rw [htake, forOps_append, hs]
    simp only [Option.bind, forOps, h1]
  · obtain ⟨sf, hsf, _, hle⟩ := forOps_take cap mem ops ops.length hlen
    rw [List.take_length] at hsf
    exact ⟨sf, hsf, hle⟩

/-- Witness for C33: the fifth token, `+`, of the first documented input of program 1. -/
theorem interpreter_bounds_witness :
    (test1.length ≤ File1.MAX_OPERATIONS ∧ 4 < test1.length) ∧
    ∃ sf, forOps (scoreStep File1.MAX_OPERATIONS) test1 ⟨fun _ => 0, 0⟩ = some sf ∧
      sf.index ≤ test1.length :=
  ⟨⟨by decide, by decide⟩,
    (interpreter_bounds File1.MAX_OPERATIONS (fun _ => 0) test1 4 (by decide) (by decide)).2.1⟩

/-! ## The completed rules: every token, every list of scores -/

